import Mathlib

/-!
ColorFiller: board model, level codec and path editor.

A shallow embedding of `source/main.cpp` (the `Square`, `Level`, `DataHolder`
and `LevelContainer` types) together with theorems about the cell model, the
binary level and save formats and the cursor-driven path editor.

Conventions of the embedding.

* Bit-fields are values of `Fin (2 ^ width)`: `direction : 4` and `walls : 4`
  are `Fin 16`, `bridge_above_direction : 2` is `Fin 4`, one-bit flags are
  `Bool`, the `u8` members of `Square` are `Fin 256`.  The `u8` and `u16`
  members of `Level` and `LevelContainer` are natural numbers; `u8` arguments
  are reduced where they are stored.
* `u16` results of index arithmetic are reduced with `u16`, the value modulo
  `65536` of the integer expression the C++ evaluates.
* `squares[idx]` with `idx` outside the vector and `idx % width` with
  `width = 0` have no defined behaviour in C++; every function that performs
  such an access returns `Option`, and `none` stands for that case.
* A `DataHolder` is a window (`off`, `size`) into the bytes of its owner;
  the C++ never compares an offset with `size`.  A read outside the owner
  itself has no defined behaviour in C++; the model reads `0` there, and the
  theorems about the decoder are stated for owners that contain every byte
  read.
-/

namespace ColorFiller

/-! ## Machine arithmetic -/

/-- Conversion of an integer expression to `u16` (reduction modulo `65536`). -/
def u16 (x : Int) : Nat := (x % 65536).toNat

/-- The function `number_of_bits`: population count of a `u32`, computed with
the same mask-and-add steps as the source, each step reduced modulo `2 ^ 32`. -/
def number_of_bits (i : Nat) : Nat :=
  let i := (i + 4294967296 - ((i >>> 1) &&& 0x55555555)) % 4294967296
  let i := ((i &&& 0x33333333) + ((i >>> 2) &&& 0x33333333)) % 4294967296
  ((((i + (i >>> 4)) &&& 0x0F0F0F0F) * 0x01010101) % 4294967296) >>> 24

/-! ## Directions -/

/-- Enumerator `DIR_NORTH`. -/
def DIR_NORTH : Nat := 1
/-- Enumerator `DIR_EAST`. -/
def DIR_EAST : Nat := 2
/-- Enumerator `DIR_SOUTH`. -/
def DIR_SOUTH : Nat := 4
/-- Enumerator `DIR_WEST`. -/
def DIR_WEST : Nat := 8

/-- The four move directions of the editor. -/
inductive Dir where
  | north
  | east
  | south
  | west
  deriving DecidableEq, Repr, Fintype

/-- The `DIR_*` bit of a direction. -/
def Dir.mask : Dir → Nat
  | .north => DIR_NORTH
  | .east => DIR_EAST
  | .south => DIR_SOUTH
  | .west => DIR_WEST

/-- The direction pointing back. -/
def Dir.opp : Dir → Dir
  | .north => .south
  | .east => .west
  | .south => .north
  | .west => .east

/-- North and south are the vertical directions. -/
def Dir.vertical : Dir → Bool
  | .north => true
  | .south => true
  | _ => false

/-! ## Square -/

/-- The struct `Square` (the `padding` bits are left out). -/
structure Square where
  color : Fin 256
  direction : Fin 16
  walls : Fin 16
  hole : Bool
  source : Bool
  bridge : Bool
  bridge_above_direction : Fin 4
  bridge_above_color : Fin 256
  deriving DecidableEq, Repr

/-- A square with every member zero, as left by `memset` or by value
initialisation of the vector. -/
def Square.zero : Square :=
  { color := 0, direction := 0, walls := 0, hole := false, source := false,
    bridge := false, bridge_above_direction := 0, bridge_above_color := 0 }

instance : Inhabited Square := ⟨Square.zero⟩

/-- Method `Square::is_source`. -/
def Square.is_source (s : Square) : Bool := s.source

/-- Method `Square::is_connected`. -/
def Square.is_connected (s : Square) : Bool := s.direction != 0

/-- Method `Square::connection_count`. -/
def Square.connection_count (s : Square) : Nat := number_of_bits s.direction.val

/-- Method `Square::bridge_above_conn_count`. -/
def Square.bridge_above_conn_count (s : Square) : Nat :=
  if s.bridge_above_direction = 3 then 2
  else if s.bridge_above_direction = 0 then 0
  else 1

/-- Method `Square::complete`. -/
def Square.complete (s : Square) : Bool :=
  if s.hole then true
  else if s.is_source && s.is_connected then true
  else if s.connection_count = 2 then
    if s.bridge then s.bridge_above_direction = 3 else true
  else false

/-- Method `Square::add_direction_color`; `dir` and `col` are `u8`. -/
def Square.add_direction_color (s : Square) (dir col : Nat) : Square :=
  if s.bridge then
    if dir = DIR_EAST then
      { s with bridge_above_direction := Fin.ofNat (s.bridge_above_direction.val ||| 2),
               bridge_above_color := Fin.ofNat col }
    else if dir = DIR_WEST then
      { s with bridge_above_direction := Fin.ofNat (s.bridge_above_direction.val ||| 1),
               bridge_above_color := Fin.ofNat col }
    else
      { s with direction := Fin.ofNat (s.direction.val ||| dir), color := Fin.ofNat col }
  else
    { s with direction := Fin.ofNat (s.direction.val ||| dir), color := Fin.ofNat col }

/-- Method `Square::load_from`; `v` is a `u16` word. -/
def Square.load_from (s : Square) (v : Nat) : Square :=
  let s1 := { s with direction := Fin.ofNat (v &&& 0xF),
                     color := Fin.ofNat ((v &&& (0x1F <<< 4)) >>> 4) }
  if s1.bridge then
    { s1 with bridge_above_direction := Fin.ofNat ((v &&& (0x3 <<< (5 + 4))) >>> (5 + 4)),
              bridge_above_color := Fin.ofNat ((v &&& (0x1F <<< (2 + 5 + 4))) >>> (2 + 5 + 4)) }
  else s1

/-- Method `Square::pack_into`; the result is a `u16` word. -/
def Square.pack_into (s : Square) : Nat :=
  let out := 0
  let out := out ||| (s.direction.val &&& 0xF)
  let out := out ||| ((s.color.val &&& 0x1F) <<< 4)
  if s.bridge then
    let out := out ||| ((s.bridge_above_direction.val &&& 0x3) <<< (5 + 4))
    let out := out ||| ((s.bridge_above_color.val &&& 0x1F) <<< (2 + 5 + 4))
    out % 65536
  else out % 65536

/-! ## Level: topology -/

/-- The struct `Level`: `width`, `height` and `color_count` are `u8`. -/
structure Level where
  width : Nat
  height : Nat
  color_count : Nat
  warp : Bool
  squares : List Square
  deriving DecidableEq, Repr

/-- Write through the reference `squares[idx]`: the square at `idx` is
replaced by `f` of it; `none` when `idx` is outside the vector. -/
def Level.update (l : Level) (idx : Nat) (f : Square → Square) : Option Level :=
  match l.squares[idx]? with
  | some s => some { l with squares := l.squares.set idx (f s) }
  | none => none

/-- Method `Level::square_is_top_row`. -/
def Level.square_is_top_row (l : Level) (idx : Nat) : Bool := idx < l.width

/-- Method `Level::square_is_bottom_row`.  For `height = 0` the C++ compares
with the negative `-width`, which is true like the comparison with `0` here. -/
def Level.square_is_bottom_row (l : Level) (idx : Nat) : Bool :=
  decide (idx ≥ (l.height - 1) * l.width)

/-- Method `Level::square_is_left_column`; `none` for the division by zero. -/
def Level.square_is_left_column (l : Level) (idx : Nat) : Option Bool :=
  if l.width = 0 then none else some (idx % l.width == 0)

/-- Method `Level::square_is_right_column`; `none` for the division by zero. -/
def Level.square_is_right_column (l : Level) (idx : Nat) : Option Bool :=
  if l.width = 0 then none else some (idx % l.width == l.width - 1)

/-- Method `Level::move_idx_up`. -/
def Level.move_idx_up (l : Level) (idx : Nat) : Nat := u16 ((idx : Int) - l.width)

/-- Method `Level::move_idx_down`. -/
def Level.move_idx_down (l : Level) (idx : Nat) : Nat := u16 ((idx : Int) + l.width)

/-- Method `Level::move_idx_left`. -/
def Level.move_idx_left (_l : Level) (idx : Nat) : Nat := u16 ((idx : Int) - 1)

/-- Method `Level::move_idx_right`. -/
def Level.move_idx_right (_l : Level) (idx : Nat) : Nat := u16 ((idx : Int) + 1)

/-- The test `check_walls && squares[idx].walls & dir` that opens each of the
four `move_idx_*_checked` methods; the square is read only when `check_walls`
holds. -/
def Level.wall_blocks (l : Level) (idx dir : Nat) (check_walls : Bool) : Option Bool :=
  if check_walls then
    match l.squares[idx]? with
    | some s => some (s.walls.val &&& dir != 0)
    | none => none
  else some false

/-- Method `Level::move_idx_up_checked`. -/
def Level.move_idx_up_checked (l : Level) (idx : Nat) (check_walls : Bool := true) :
    Option Nat :=
  match l.wall_blocks idx DIR_NORTH check_walls with
  | none => none
  | some true => some idx
  | some false =>
    if (l.warp || !check_walls) && l.square_is_top_row idx then
      some (u16 ((l.squares.length : Int) - ((l.width : Int) - idx)))
    else some (l.move_idx_up idx)

/-- Method `Level::move_idx_down_checked`. -/
def Level.move_idx_down_checked (l : Level) (idx : Nat) (check_walls : Bool := true) :
    Option Nat :=
  match l.wall_blocks idx DIR_SOUTH check_walls with
  | none => none
  | some true => some idx
  | some false =>
    if (l.warp || !check_walls) && l.square_is_bottom_row idx then
      some (u16 ((idx : Int) + l.width - l.squares.length))
    else some (l.move_idx_down idx)

/-- Method `Level::move_idx_left_checked`. -/
def Level.move_idx_left_checked (l : Level) (idx : Nat) (check_walls : Bool := true) :
    Option Nat :=
  match l.wall_blocks idx DIR_WEST check_walls with
  | none => none
  | some true => some idx
  | some false =>
    if l.warp || !check_walls then
      match l.square_is_left_column idx with
      | none => none
      | some true => some (u16 ((idx : Int) + l.width - 1))
      | some false => some (l.move_idx_left idx)
    else some (l.move_idx_left idx)

/-- Method `Level::move_idx_right_checked`. -/
def Level.move_idx_right_checked (l : Level) (idx : Nat) (check_walls : Bool := true) :
    Option Nat :=
  match l.wall_blocks idx DIR_EAST check_walls with
  | none => none
  | some true => some idx
  | some false =>
    if l.warp || !check_walls then
      match l.square_is_right_column idx with
      | none => none
      | some true => some (u16 ((idx : Int) - l.width + 1))
      | some false => some (l.move_idx_right idx)
    else some (l.move_idx_right idx)

/-- Method `Level::completed`. -/
def Level.completed (l : Level) : Bool := l.squares.all Square.complete

/-- The body of the loop of `Level::reset_board`, for one square. -/
def Square.reset (s : Square) : Square :=
  let s1 :=
    if s.is_connected then
      let s0 := { s with direction := 0 }
      if !s0.is_source then { s0 with color := 0 } else s0
    else s
  if s1.bridge then
    if s1.bridge_above_direction != 0 then
      { s1 with bridge_above_direction := 0, bridge_above_color := 0 }
    else s1
  else s1

/-- Method `Level::reset_board`. -/
def Level.reset_board (l : Level) : Level :=
  { l with squares := l.squares.map Square.reset }

/-- The three assignments of `Level::remove_direction`, on the square they
address; `direction` is a `u8` holding one `DIR_*` bit. -/
def Square.remove_direction (s : Square) (direction : Nat) : Square :=
  if s.bridge && direction == DIR_EAST then
    { s with bridge_above_direction := Fin.ofNat (s.bridge_above_direction.val &&& 1) }
  else if s.bridge && direction == DIR_WEST then
    { s with bridge_above_direction := Fin.ofNat (s.bridge_above_direction.val &&& 2) }
  else
    { s with direction := Fin.ofNat (s.direction.val &&& (255 - direction)) }

/-- Method `Level::remove_direction`. -/
def Level.remove_direction (l : Level) (idx direction : Nat) : Option Level :=
  l.update idx (fun s => s.remove_direction direction)

/-- Method `Level::remove_single_connection`.  `square` is a reference in the
source: the tests read the square before any removal, the final assignments
act on the square as it is after the removal. -/
def Level.remove_single_connection (l : Level) (idx : Nat) (bridge_vertical : Bool := false) :
    Option Level :=
  match l.squares[idx]? with
  | none => none
  | some square =>
    if square.bridge then
      if !square.is_connected && square.bridge_above_direction == 0 then some l
      else if bridge_vertical then
        let removed :=
          if square.direction.val &&& DIR_NORTH != 0 then
            (l.move_idx_up_checked idx).bind (fun n => l.remove_direction n DIR_SOUTH)
          else if square.direction.val &&& DIR_SOUTH != 0 then
            (l.move_idx_down_checked idx).bind (fun n => l.remove_direction n DIR_NORTH)
          else some l
        removed.bind (fun l1 => l1.update idx (fun s => { s with color := 0, direction := 0 }))
      else
        let removed :=
          if square.bridge_above_direction.val &&& 2 != 0 then
            (l.move_idx_right_checked idx).bind (fun n => l.remove_direction n DIR_WEST)
          else if square.bridge_above_direction.val &&& 1 != 0 then
            (l.move_idx_left_checked idx).bind (fun n => l.remove_direction n DIR_EAST)
          else some l
        removed.bind (fun l1 => l1.update idx
          (fun s => { s with bridge_above_color := 0, bridge_above_direction := 0 }))
    else
      if !square.is_connected then some l
      else
        let removed :=
          if square.direction.val &&& DIR_NORTH != 0 then
            (l.move_idx_up_checked idx).bind (fun n => l.remove_direction n DIR_SOUTH)
          else if square.direction.val &&& DIR_EAST != 0 then
            (l.move_idx_right_checked idx).bind (fun n => l.remove_direction n DIR_WEST)
          else if square.direction.val &&& DIR_SOUTH != 0 then
            (l.move_idx_down_checked idx).bind (fun n => l.remove_direction n DIR_NORTH)
          else if square.direction.val &&& DIR_WEST != 0 then
            (l.move_idx_left_checked idx).bind (fun n => l.remove_direction n DIR_EAST)
          else some l
        removed.bind (fun l1 => l1.update idx
          (fun s => if !s.is_source then { s with direction := 0, color := 0 }
                    else { s with direction := 0 }))

/-! ## Binary level codec -/

/-- The struct `DataHolder`: a window of `size` bytes starting at `off` in
the bytes `ptr` of its owner. -/
structure DataHolder where
  size : Nat
  off : Nat
  ptr : List (Fin 256)
  deriving DecidableEq, Repr

/-- Method `DataOwner::subarea`. -/
def subarea (owner : List (Fin 256)) (area_start area_size : Nat) : DataHolder :=
  { size := area_size, off := area_start, ptr := owner }

/-- Method `DataHolder::operator[]`, as a number.  See the conventions for a
read outside the owner. -/
def DataHolder.byte (d : DataHolder) (idx : Nat) : Nat := (d.ptr.getD (d.off + idx) 0).val

/-- Method `DataHolder::read_u32`: four bytes, little-endian. -/
def DataHolder.read_u32 (d : DataHolder) (o : Nat) : Nat :=
  d.byte o + 256 * d.byte (o + 1) + 65536 * d.byte (o + 2) + 16777216 * d.byte (o + 3)

/-- Method `DataHolder::read_u16`: two bytes, little-endian. -/
def DataHolder.read_u16 (d : DataHolder) (o : Nat) : Nat :=
  d.byte o + 256 * d.byte (o + 1)

/-- The struct `Level::WallInfo`. -/
structure WallInfo where
  square : Nat
  blocked_directions : Nat
  deriving DecidableEq, Repr

/-- The call `std::map::try_emplace` on the `sources` map, kept as an
association list: the pair is added only when the key is absent. -/
def try_emplace (m : List (Nat × Nat)) (k v : Nat) : List (Nat × Nat) :=
  match m.lookup k with
  | some _ => m
  | none => m ++ [(k, v)]

/-- The value of the `u32` read at offset 0 when the first four bytes are the
characters `CLFL` (`0x43 0x4C 0x46 0x4C`). -/
def CLFL_MAGIC : Nat := 0x4C464C43

/-- The first loop of the constructor `Level::Level`: the source map, color
`i` of `1..color_count` being read at `off = 20 + 4 * (i - 1)`. -/
def read_sources (data : DataHolder) (color_count : Nat) : List (Nat × Nat) :=
  (List.range color_count).foldl
    (fun sources j =>
      let i := j + 1
      let off := 20 + 4 * j
      try_emplace (try_emplace sources (data.read_u16 off) i) (data.read_u16 (off + 2)) i)
    []

/-- The loops filling `bridges` and `holes`: `count` words from `off` on. -/
def read_u16_list (data : DataHolder) (off count : Nat) : List Nat :=
  (List.range count).map (fun k => data.read_u16 (off + 2 * k))

/-- The loop filling `walls`: `count` packed records from `off` on. -/
def read_walls (data : DataHolder) (off count : Nat) : List WallInfo :=
  (List.range count).map (fun k =>
    let v := data.read_u16 (off + 2 * k)
    { square := v &&& 0xFFF, blocked_directions := (v &&& 0xF000) >>> 12 })

/-- The last loop of the constructor `Level::Level`, over the `n` squares
still to build, with the running `square_idx`, `hole_idx`, `bridge_idx` and
`wall_idx`. -/
def build_squares (sources : List (Nat × Nat)) (bridges holes : List Nat)
    (walls : List WallInfo) : Nat → Nat → Nat → Nat → Nat → List Square
  | 0, _, _, _, _ => []
  | n + 1, square_idx, hole_idx, bridge_idx, wall_idx =>
    let square := Square.zero
    let hole_hit := decide (hole_idx < holes.length) && holes.getD hole_idx 0 == square_idx
    let bridge_hit := !hole_hit &&
      (decide (bridge_idx < bridges.length) && bridges.getD bridge_idx 0 == square_idx)
    let square :=
      if hole_hit then { square with hole := true }
      else if bridge_hit then { square with bridge := true }
      else match sources.lookup square_idx with
        | some c => { square with source := true, color := Fin.ofNat c }
        | none => square
    let hole_idx := if hole_hit then hole_idx + 1 else hole_idx
    let bridge_idx := if bridge_hit then bridge_idx + 1 else bridge_idx
    let wall_hit := decide (wall_idx < walls.length) &&
      (walls.getD wall_idx ⟨0, 0⟩).square == square_idx
    let square :=
      if wall_hit then
        { square with walls := Fin.ofNat (walls.getD wall_idx ⟨0, 0⟩).blocked_directions }
      else square
    let wall_idx := if wall_hit then wall_idx + 1 else wall_idx
    square :: build_squares sources bridges holes walls n (square_idx + 1) hole_idx
      bridge_idx wall_idx

/-- The constructor `Level::Level(DataHolder)`.  The member initialisers read
bytes 4 to 7 and value-initialise `width * height` squares before the magic
tag is compared; on a mismatch the constructor returns with those squares.
The offsets are natural numbers: list counts that would wrap a `std::size_t`
offset cannot be allocated as vectors. -/
def Level.decode (data : DataHolder) : Level :=
  let width := data.byte 4
  let height := data.byte 5
  let color_count := data.byte 6
  let warp := data.byte 7 != 0
  let squares := List.replicate (width * height) Square.zero
  let magic := data.read_u32 0
  if magic != CLFL_MAGIC then
    { width := width, height := height, color_count := color_count, warp := warp,
      squares := squares }
  else
    let bridge_count := data.read_u32 8
    let hole_count := data.read_u32 12
    let wall_count := data.read_u32 16
    let sources := read_sources data color_count
    let off := 20 + 4 * color_count
    let bridges := read_u16_list data off bridge_count
    let off := off + 2 * bridge_count
    let holes := read_u16_list data off hole_count
    let off := off + 2 * hole_count
    let walls := read_walls data off wall_count
    { width := width, height := height, color_count := color_count, warp := warp,
      squares := build_squares sources bridges holes walls squares.length 0 0 0 0 }

/-- The offsets, relative to the window, of a `read_u32` at `o`. -/
def reads_u32 (o : Nat) : List Nat := [o, o + 1, o + 2, o + 3]

/-- The offsets, relative to the window, of a `read_u16` at `o`. -/
def reads_u16 (o : Nat) : List Nat := [o, o + 1]

/-- The offsets, relative to the window, of every byte the constructor
`Level::Level` reads, in program order: `data[4]` to `data[7]`, the magic tag
and, when it matches, the three counts, two words per color and one word per
bridge, hole and wall entry. -/
def Level.decode_reads (data : DataHolder) : List Nat :=
  let header := [4, 5, 6, 7] ++ reads_u32 0
  if data.read_u32 0 != CLFL_MAGIC then header
  else
    let color_count := data.byte 6
    let bridge_count := data.read_u32 8
    let hole_count := data.read_u32 12
    let wall_count := data.read_u32 16
    let off := 20 + 4 * color_count
    header ++ reads_u32 8 ++ reads_u32 12 ++ reads_u32 16
      ++ (List.range color_count).flatMap
          (fun j => reads_u16 (20 + 4 * j) ++ reads_u16 (20 + 4 * j + 2))
      ++ (List.range bridge_count).flatMap (fun k => reads_u16 (off + 2 * k))
      ++ (List.range hole_count).flatMap
          (fun k => reads_u16 (off + 2 * bridge_count + 2 * k))
      ++ (List.range wall_count).flatMap
          (fun k => reads_u16 (off + 2 * bridge_count + 2 * hole_count + 2 * k))

/-- Every byte the constructor `Level::Level` reads lies inside the owner of
the window, so that the reads are defined. -/
def DataHolder.reads_inside (data : DataHolder) : Prop :=
  ∀ o ∈ Level.decode_reads data, data.off + o < data.ptr.length

instance (data : DataHolder) : Decidable data.reads_inside := by
  unfold DataHolder.reads_inside; infer_instance

/-- The length a level buffer has by its own header:
`20 + 4 * colorCount + 2 * (bridgeCount + holeCount + wallCount)`. -/
def Level.implied_length (data : DataHolder) : Nat :=
  20 + 4 * data.byte 6 + 2 * (data.read_u32 8 + data.read_u32 12 + data.read_u32 16)

/-! ## Save codec -/

/-- The loop of `Level::load_save` over the squares still to load, with the
running offset `off`, which advances for holes too. -/
def load_save_squares (data : DataHolder) : List Square → Nat → List Square
  | [], _ => []
  | square :: rest, off =>
    (if !square.hole then square.load_from (data.read_u16 off) else square)
      :: load_save_squares data rest (off + 2)

/-- Method `Level::load_save`. -/
def Level.load_save (l : Level) (data : DataHolder) : Level :=
  { l with squares := load_save_squares data l.squares 0 }

/-- The vector `owner` that `LevelContainer::save` fills for one pack: the
packed word of every square of every level, holes included. -/
def save_words (pack : List Level) : List Nat :=
  pack.flatMap (fun level => level.squares.map Square.pack_into)

/-- The bytes of a `std::vector<u16>` as written by `archive_write_data`
(little-endian). -/
def words_to_bytes (words : List Nat) : List (Fin 256) :=
  words.flatMap (fun w => [Fin.ofNat w, Fin.ofNat (w / 256)])

/-- The loop of `LevelContainer::load_save` over the levels of one pack, with
the running offset `off` into the bytes of the archive entry. -/
def load_save_pack (owner : List (Fin 256)) : List Level → Nat → List Level
  | [], _ => []
  | level :: rest, off =>
    let datasize := 2 * level.squares.length
    level.load_save (subarea owner off datasize) :: load_save_pack owner rest (off + datasize)

/-! ## Path editor -/

/-- The editing members of `LevelContainer`, with the level `current_level`
points to. -/
structure LevelContainer where
  current_level : Level
  playing_cursor_idx : Nat
  selected_color : Nat
  last_move_direction : Nat
  level_data_changed : Bool
  deleted_connection : Bool
  playing_bridge_above : Bool
  deriving DecidableEq, Repr

/-- The assignments of `LevelContainer::selected_level_to_play` on entering a
level. -/
def selected_level_to_play (level : Level) : LevelContainer :=
  { current_level := level, playing_cursor_idx := 0, selected_color := 0,
    last_move_direction := 0, level_data_changed := false, deleted_connection := false,
    playing_bridge_above := false }

/-- What `LevelContainer::select_square` assigns to `selected_color` for the
square under the cursor, when no color is selected. -/
def select_color (c : LevelContainer) (s : Square) : Nat :=
  if !s.hole then
    if s.is_source then
      if !s.is_connected then s.color.val else c.selected_color
    else if s.bridge then
      if c.playing_bridge_above then
        if s.bridge_above_conn_count = 1 then s.bridge_above_color.val else c.selected_color
      else
        if s.connection_count = 1 then s.color.val else c.selected_color
    else
      if s.connection_count = 1 then s.color.val else c.selected_color
  else c.selected_color

/-- Method `LevelContainer::select_square`. -/
def LevelContainer.select_square (c : LevelContainer) : Option LevelContainer :=
  if c.selected_color = 0 then
    match c.current_level.squares[c.playing_cursor_idx]? with
    | none => none
    | some s => some { c with selected_color := select_color c s }
  else some { c with selected_color := 0 }

/-- Method `LevelContainer::reset_level` (without the key timer). -/
def LevelContainer.reset_level (c : LevelContainer) : LevelContainer :=
  { c with current_level := c.current_level.reset_board, selected_color := 0,
           level_data_changed := true }

/-- The assignment `playing_bridge_above = !playing_bridge_above` of
`LevelContainer::update_play_level`. -/
def LevelContainer.toggle_bridge_above (c : LevelContainer) : LevelContainer :=
  { c with playing_bridge_above := !c.playing_bridge_above }

/-- Method `LevelContainer::move_playing_cursor`. -/
def LevelContainer.move_playing_cursor (c : LevelContainer) (new_idx dir : Nat) :
    LevelContainer :=
  if c.selected_color != 0 then
    { c with playing_cursor_idx := new_idx, last_move_direction := dir,
             deleted_connection := false }
  else { c with playing_cursor_idx := new_idx }

/-- The first test of `LevelContainer::playing_cursor_move_either`, the
bridge-axis guard, as written in the source. -/
def bridge_axis_guard (c : LevelContainer) (current_square : Square) (vertical : Bool) : Bool :=
  let bridge_dirs := if vertical then DIR_NORTH ||| DIR_SOUTH else DIR_EAST ||| DIR_WEST
  current_square.bridge &&
    ((c.deleted_connection && (c.last_move_direction &&& bridge_dirs == 0))
      || (!c.deleted_connection && (c.last_move_direction &&& bridge_dirs == 0)))

/-- The second test of `LevelContainer::playing_cursor_move_either`: the move
takes back the only connection of the current square. -/
def retraction_test (current_square : Square) (previous_square_going_to : Nat)
    (vertical : Bool) : Bool :=
  let bridge_go_back_dir :=
    if vertical then 0 else (if previous_square_going_to = DIR_EAST then 2 else 1)
  (!vertical && current_square.bridge && current_square.bridge_above_conn_count == 1
      && (current_square.bridge_above_direction.val &&& bridge_go_back_dir != 0))
    || (vertical && current_square.bridge && current_square.connection_count == 1
      && (current_square.direction.val &&& previous_square_going_to != 0))
    || (!current_square.bridge && current_square.connection_count == 1
      && (current_square.direction.val &&& previous_square_going_to != 0))

/-- The outcome of the inspection of `next_square` in
`LevelContainer::playing_cursor_move_either`. -/
inductive TargetAction where
  | refuse
  | write (completed_with_this_move : Bool) (remove_first : Bool)
  deriving DecidableEq, Repr

/-- The inspection of `next_square` in
`LevelContainer::playing_cursor_move_either`: whether the function returns,
and otherwise the value of `completed_with_this_move` and whether
`remove_single_connection` is called on the target first. -/
def inspect_target (next_square : Square) (selected_color : Nat) (vertical : Bool) :
    TargetAction :=
  if next_square.bridge then
    let connections :=
      if vertical then next_square.connection_count else next_square.bridge_above_conn_count
    if connections = 1 then
      if (if vertical then next_square.color.val else next_square.bridge_above_color.val)
          = selected_color then
        .write true false
      else .write false true
    else .write false false
  else if next_square.color.val = selected_color then
    let connections := next_square.connection_count
    if (connections = 1 && !next_square.is_source) || (connections = 0 && next_square.is_source)
    then .write true false
    else if connections = 2 then .refuse
    else .write false false
  else if !next_square.is_source then
    let connections := next_square.connection_count
    if connections ≤ 1 then .write false true else .refuse
  else .refuse

/-- Method `LevelContainer::playing_cursor_move_either`.  `current_square`
and `next_square` are references in the source: the two final
`add_direction_color` calls act on the squares as they are after a removal. -/
def LevelContainer.playing_cursor_move_either (c : LevelContainer) (new_idx : Nat)
    (previous_square_going_to new_square_coming_from : Nat) (vertical : Bool) :
    Option LevelContainer :=
  match c.current_level.squares[c.playing_cursor_idx]? with
  | none => none
  | some current_square =>
    if bridge_axis_guard c current_square vertical then some c
    else if retraction_test current_square previous_square_going_to vertical then
      (c.current_level.remove_single_connection c.playing_cursor_idx vertical).map
        (fun level =>
          let c1 := { c with current_level := level }
          let c2 := c1.move_playing_cursor new_idx previous_square_going_to
          { c2 with deleted_connection := true, level_data_changed := true })
    else
      match c.current_level.squares[new_idx]? with
      | none => none
      | some next_square =>
        match inspect_target next_square c.selected_color vertical with
        | .refuse => some c
        | .write completed_with_this_move remove_first =>
          let removed :=
            if remove_first then
              if next_square.bridge then
                c.current_level.remove_single_connection new_idx vertical
              else c.current_level.remove_single_connection new_idx
            else some c.current_level
          (removed.bind (fun l1 =>
            (l1.update new_idx
              (fun s => s.add_direction_color new_square_coming_from (c.selected_color % 256))).bind
            (fun l2 => l2.update c.playing_cursor_idx
              (fun s => s.add_direction_color previous_square_going_to
                (c.selected_color % 256))))).map
          (fun level =>
            let c1 := { c with current_level := level }
            let c2 := c1.move_playing_cursor new_idx previous_square_going_to
            let c3 := { c2 with level_data_changed := true }
            if completed_with_this_move then { c3 with selected_color := 0 } else c3)

/-- Methods `playing_cursor_right`, `playing_cursor_left`, `playing_cursor_down`
and `playing_cursor_up` after the target index is resolved: the common tail
`if(new_idx == playing_cursor_idx) return; if(selected_color) ... else ...`. -/
def LevelContainer.cursor_step (c : LevelContainer) (new_idx : Nat)
    (previous_square_going_to new_square_coming_from : Nat) (vertical : Bool) :
    Option LevelContainer :=
  if new_idx = c.playing_cursor_idx then some c
  else if c.selected_color != 0 then
    c.playing_cursor_move_either new_idx previous_square_going_to new_square_coming_from
      vertical
  else some (c.move_playing_cursor new_idx previous_square_going_to)

/-- Method `LevelContainer::playing_cursor_right`. -/
def LevelContainer.playing_cursor_right (c : LevelContainer) : Option LevelContainer :=
  (c.current_level.move_idx_right_checked c.playing_cursor_idx (c.selected_color != 0)).bind
    (fun new_idx => c.cursor_step new_idx DIR_EAST DIR_WEST false)

/-- Method `LevelContainer::playing_cursor_left`. -/
def LevelContainer.playing_cursor_left (c : LevelContainer) : Option LevelContainer :=
  (c.current_level.move_idx_left_checked c.playing_cursor_idx (c.selected_color != 0)).bind
    (fun new_idx => c.cursor_step new_idx DIR_WEST DIR_EAST false)

/-- Method `LevelContainer::playing_cursor_down`. -/
def LevelContainer.playing_cursor_down (c : LevelContainer) : Option LevelContainer :=
  (c.current_level.move_idx_down_checked c.playing_cursor_idx (c.selected_color != 0)).bind
    (fun new_idx => c.cursor_step new_idx DIR_SOUTH DIR_NORTH true)

/-- Method `LevelContainer::playing_cursor_up`. -/
def LevelContainer.playing_cursor_up (c : LevelContainer) : Option LevelContainer :=
  (c.current_level.move_idx_up_checked c.playing_cursor_idx (c.selected_color != 0)).bind
    (fun new_idx => c.cursor_step new_idx DIR_NORTH DIR_SOUTH true)

/-- The move intent `attemptMove(direction)` of the editor: the D-pad
dispatch of `LevelContainer::update_play_level`. -/
def LevelContainer.attemptMove (c : LevelContainer) : Dir → Option LevelContainer
  | .north => c.playing_cursor_up
  | .east => c.playing_cursor_right
  | .south => c.playing_cursor_down
  | .west => c.playing_cursor_left

/-- The target index `attemptMove` resolves: the `move_idx_*_checked` call of
the direction, walls being checked exactly when a color is selected. -/
def LevelContainer.target_idx (c : LevelContainer) : Dir → Option Nat
  | .north => c.current_level.move_idx_up_checked c.playing_cursor_idx (c.selected_color != 0)
  | .east => c.current_level.move_idx_right_checked c.playing_cursor_idx (c.selected_color != 0)
  | .south => c.current_level.move_idx_down_checked c.playing_cursor_idx (c.selected_color != 0)
  | .west => c.current_level.move_idx_left_checked c.playing_cursor_idx (c.selected_color != 0)

/-! ## Editor sessions -/

/-- The move intents the editor consumes. -/
inductive Intent where
  | move (d : Dir)
  | selectEndpoint
  | toggleOverlayLayer
  | resetBoard
  deriving DecidableEq, Repr

/-- One intent, dispatched as in `LevelContainer::update_play_level`. -/
def LevelContainer.apply (c : LevelContainer) : Intent → Option LevelContainer
  | .move d => c.attemptMove d
  | .selectEndpoint => c.select_square
  | .toggleOverlayLayer => some c.toggle_bridge_above
  | .resetBoard => some c.reset_level

/-- A sequence of intents, one after the other. -/
def LevelContainer.run (c : LevelContainer) : List Intent → Option LevelContainer
  | [] => some c
  | i :: rest => (c.apply i).bind (fun c1 => c1.run rest)

/-! ## Predicates and reference definitions used by the theorems -/

/-- What the constructor `Level::Level` establishes and no method changes:
`width` and `height` are `u8` and there are `width * height` squares. -/
def Level.well_formed (l : Level) : Prop :=
  l.width < 256 ∧ l.height < 256 ∧ l.squares.length = l.width * l.height

instance (l : Level) : Decidable l.well_formed := by
  unfold Level.well_formed; infer_instance

/-- Reference definition of completion, in the words of the specification: a
hole is complete, a source once it has exactly one connection, a bridge once
it has two primary connections and a full overlay, any other square once it
has exactly two connections. -/
def Square.complete_spec (s : Square) : Bool :=
  if s.hole then true
  else if s.source then decide (s.connection_count = 1)
  else if s.bridge then decide (s.connection_count = 2 ∧ s.bridge_above_direction = 3)
  else decide (s.connection_count = 2)

/-- The square next to `idx` on the torus: same column and the row above or
below, or same row and the column to the left or right, the last row and
column being followed by the first. -/
def free_target (l : Level) (idx : Nat) : Dir → Nat
  | .north => ((idx / l.width + l.height - 1) % l.height) * l.width + idx % l.width
  | .south => ((idx / l.width + 1) % l.height) * l.width + idx % l.width
  | .west => (idx / l.width) * l.width + (idx % l.width + l.width - 1) % l.width
  | .east => (idx / l.width) * l.width + (idx % l.width + 1) % l.width

/-- Closure of a relation `R` between a decoded square and its state in play
under every square update the editor performs besides
`add_direction_color`: the update of `remove_direction`, the three final
assignments of `remove_single_connection` and the body of `reset_board`. -/
structure Square.Stable (R : Square → Square → Prop) : Prop where
  remove_direction : ∀ f s d, R f s → R f (s.remove_direction d)
  clear_primary : ∀ f s, R f s → R f { s with color := 0, direction := 0 }
  clear_overlay : ∀ f s, R f s →
    R f { s with bridge_above_color := 0, bridge_above_direction := 0 }
  clear_plain : ∀ f s, R f s →
    R f (if !s.is_source then { s with direction := 0, color := 0 } else { s with direction := 0 })
  reset : ∀ f s, R f s → R f s.reset

/-- The level `l` has the dimensions of `fresh`, and its squares are related
by `R` to the squares of `fresh`, index by index. -/
def Level.related (R : Square → Square → Prop) (fresh l : Level) : Prop :=
  l.width = fresh.width ∧ l.height = fresh.height ∧ l.color_count = fresh.color_count
    ∧ l.warp = fresh.warp ∧ List.Forall₂ R fresh.squares l.squares

/-- The square `s` can be restored from its save word into the decoded
square `f`: same walls and flags, no overlay state on either when it is no
bridge, and both colors within the five bits of the save word. -/
def Square.saveable (f s : Square) : Prop :=
  s.walls = f.walls ∧ s.hole = f.hole ∧ s.source = f.source ∧ s.bridge = f.bridge
    ∧ (s.bridge = false → s.bridge_above_direction = 0 ∧ s.bridge_above_color = 0
        ∧ f.bridge_above_direction = 0 ∧ f.bridge_above_color = 0)
    ∧ s.color.val < 32 ∧ s.bridge_above_color.val < 32

/-- What `load_save` needs of a decoded square `f` to rebuild `s`: a hole is
skipped, so it must be `s` already; any other square must be `saveable`. -/
def Square.loads_as (f s : Square) : Prop :=
  f.hole = s.hole ∧ (s.hole = true → f = s) ∧ (s.hole = false → Square.saveable f s)

/-- The invariant of editing sessions behind the save round trip: every
square is `saveable` into the decoded level and the selected color fits in
five bits. -/
def save_invariant (fresh : Level) (c : LevelContainer) : Prop :=
  Level.related Square.saveable fresh c.current_level ∧ c.selected_color < 32

/-! ### Connections, neighbours and edge symmetry -/

/-- Whether the square records a connection toward `d`: a bridge keeps its
east and west halves in bits 2 and 1 of `bridge_above_direction`, every other
connection is the `DIR_*` bit of `direction`. -/
def Square.has_connection (s : Square) (d : Dir) : Bool :=
  if s.bridge && d == .east then s.bridge_above_direction.val &&& 2 != 0
  else if s.bridge && d == .west then s.bridge_above_direction.val &&& 1 != 0
  else s.direction.val &&& d.mask != 0

/-- The directions of the layer that `remove_single_connection` clears: the
vertical or the horizontal ones on a bridge, all four on any other square. -/
def Square.layer (bridge bridge_vertical : Bool) (d : Dir) : Bool :=
  if bridge then (if bridge_vertical then d.vertical else !d.vertical) else true

/-- The direction whose neighbour `remove_single_connection` updates: the
first bit found by its chain of tests. -/
def Square.first_connection (s : Square) (bridge_vertical : Bool) : Option Dir :=
  if s.bridge then
    if bridge_vertical then
      if s.direction.val &&& DIR_NORTH != 0 then some .north
      else if s.direction.val &&& DIR_SOUTH != 0 then some .south
      else none
    else
      if s.bridge_above_direction.val &&& 2 != 0 then some .east
      else if s.bridge_above_direction.val &&& 1 != 0 then some .west
      else none
  else
    if s.direction.val &&& DIR_NORTH != 0 then some .north
    else if s.direction.val &&& DIR_EAST != 0 then some .east
    else if s.direction.val &&& DIR_SOUTH != 0 then some .south
    else if s.direction.val &&& DIR_WEST != 0 then some .west
    else none

/-- The final assignments of `remove_single_connection`, by branch. -/
def Square.clear_layer (bridge bridge_vertical : Bool) (s : Square) : Square :=
  if bridge then
    if bridge_vertical then { s with color := 0, direction := 0 }
    else { s with bridge_above_color := 0, bridge_above_direction := 0 }
  else if !s.is_source then { s with direction := 0, color := 0 } else { s with direction := 0 }

/-- The precondition in the comment of `remove_single_connection` ("only use
on non-sources with <= 1 connection"), for the layer it clears. -/
def Square.layer_at_most_one (s : Square) (bridge_vertical : Bool) : Prop :=
  if s.bridge then
    (if bridge_vertical then s.connection_count ≤ 1 else s.bridge_above_conn_count ≤ 1)
  else s.connection_count ≤ 1

/-- The tests on which `remove_single_connection` returns at once. -/
def Square.returns_early (s : Square) : Bool :=
  if s.bridge then !s.is_connected && s.bridge_above_direction == 0 else !s.is_connected

/-- The `move_idx_*_checked` method of a direction. -/
def Level.move_idx_checked (l : Level) (d : Dir) (idx : Nat) (check_walls : Bool := true) :
    Option Nat :=
  match d with
  | .north => l.move_idx_up_checked idx check_walls
  | .east => l.move_idx_right_checked idx check_walls
  | .south => l.move_idx_down_checked idx check_walls
  | .west => l.move_idx_left_checked idx check_walls

/-- The square lies on the edge of the board that faces `d`: first row, last
column, last row or first column. -/
def Level.on_edge (l : Level) (idx : Nat) : Dir → Bool
  | .north => decide (idx < l.width)
  | .south => decide (idx ≥ (l.height - 1) * l.width)
  | .west => idx % l.width == 0
  | .east => idx % l.width == l.width - 1

/-- The square adjacent to `idx` toward `d`: none across the edge of a board
that does not wrap, the square across the edge on one that does. -/
def Level.adjacent (l : Level) (idx : Nat) (d : Dir) : Option Nat :=
  if !l.warp && l.on_edge idx d then none else some (free_target l idx d)

/-- The square at `idx` records a connection toward `d`. -/
def Level.conn (l : Level) (idx : Nat) (d : Dir) : Bool :=
  match l.squares[idx]? with
  | some s => s.has_connection d
  | none => false

/-- The square at `idx` has a wall toward `d`. -/
def Level.wall (l : Level) (idx : Nat) (d : Dir) : Bool :=
  match l.squares[idx]? with
  | some s => s.walls.val &&& d.mask != 0
  | none => false

/-- The square adjacent to `idx` toward `d` exists and records the
connection back. -/
def Level.conn_back (l : Level) (idx : Nat) (d : Dir) : Bool :=
  match l.adjacent idx d with
  | some n => l.conn n d.opp
  | none => false

/-- Edge symmetry: every connection a square records toward a neighbour is
matched by the opposite connection of that neighbour. -/
def Level.edge_symmetric (l : Level) : Prop :=
  ∀ idx, idx < l.squares.length → ∀ d : Dir, l.conn idx d = true → l.conn_back idx d = true

/-- No square records a connection across one of its own walls. -/
def Level.no_wall_crossed (l : Level) : Prop :=
  ∀ idx, idx < l.squares.length → ∀ d : Dir, l.conn idx d = true → l.wall idx d = false

/-- The walls are two-sided and close the board: two adjacent squares agree
on the wall between them, and a square on an edge of a board that does not
wrap is walled on that side. -/
def Level.walls_closed (l : Level) : Prop :=
  ∀ idx, idx < l.squares.length → ∀ d : Dir,
    (match l.adjacent idx d with
      | some n => l.wall n d.opp == l.wall idx d
      | none => l.wall idx d) = true

instance (l : Level) : Decidable l.edge_symmetric := by
  unfold Level.edge_symmetric; infer_instance

instance (l : Level) : Decidable l.no_wall_crossed := by
  unfold Level.no_wall_crossed; infer_instance

instance (l : Level) : Decidable l.walls_closed := by
  unfold Level.walls_closed; infer_instance

/-- The square `s` has the walls and the bridge flag of `f`. -/
def Square.same_frame (f s : Square) : Prop := s.walls = f.walls ∧ s.bridge = f.bridge

/-- The connections `remove_single_connection` takes away when called on the
square `s` at `idx`: the layer of `s`, and the connection back from the
neighbour toward which the first connection of `s` points. -/
def Level.removed_by (l : Level) (idx : Nat) (s : Square) (bv : Bool) (i : Nat) (d : Dir) : Bool :=
  (decide (i = idx) && Square.layer s.bridge bv d)
    || (match s.first_connection bv with
        | some D => decide (i = free_target l idx D) && d == D.opp
        | none => false)

/-! ### Level decoding: the lists of the constructor -/

/-- The vector `bridges` the constructor `Level::Level` fills from the buffer. -/
def Level.bridge_list (data : DataHolder) : List Nat :=
  read_u16_list data (20 + 4 * data.byte 6) (data.read_u32 8)

/-- The vector `holes` the constructor `Level::Level` fills from the buffer. -/
def Level.hole_list (data : DataHolder) : List Nat :=
  read_u16_list data (20 + 4 * data.byte 6 + 2 * data.read_u32 8) (data.read_u32 12)

/-- The vector `walls` the constructor `Level::Level` fills from the buffer. -/
def Level.wall_list (data : DataHolder) : List WallInfo :=
  read_walls data (20 + 4 * data.byte 6 + 2 * data.read_u32 8 + 2 * data.read_u32 12)
    (data.read_u32 16)

/-- Holds when `i` is one of the two source positions the buffer lists for
color `k`: the words at offsets `20 + 4 * (k - 1)` and `22 + 4 * (k - 1)`. -/
def Level.source_position (data : DataHolder) (k i : Nat) : Prop :=
  data.read_u16 (20 + 4 * (k - 1)) = i ∨ data.read_u16 (22 + 4 * (k - 1)) = i

instance (data : DataHolder) (k i : Nat) : Decidable (Level.source_position data k i) := by
  unfold Level.source_position; infer_instance

/-- The forward pointer `p` into the list `L` is in step with the square
index `k` of the constructor loop: the entries before `p` are below `k` and
the entries from `p` on are not. -/
def ptr_ok (L : List Nat) (k p : Nat) : Prop :=
  (∀ (a x : Nat), a < p → L[a]? = some x → x < k)
    ∧ (∀ (a x : Nat), p ≤ a → L[a]? = some x → k ≤ x)

/-- The test `p < L.size() && L[p] == k` of the constructor loop. -/
def ptr_hit (L : List Nat) (p k : Nat) : Bool :=
  decide (p < L.length) && L.getD p 0 == k

/-- The square the constructor loop builds at `square_idx`, given the
outcome of its three pointer tests. -/
def built_square (sources : List (Nat × Nat)) (walls : List WallInfo)
    (square_idx wall_idx : Nat) (hole_hit bridge_hit wall_hit : Bool) : Square :=
  let square := Square.zero
  let square :=
    if hole_hit then { square with hole := true }
    else if bridge_hit then { square with bridge := true }
    else match sources.lookup square_idx with
      | some c => { square with source := true, color := Fin.ofNat c }
      | none => square
  if wall_hit then
    { square with walls := Fin.ofNat (walls.getD wall_idx ⟨0, 0⟩).blocked_directions }
  else square

/-- The color member of the layer a move toward `d` writes: the overlay
color of a bridge for an east or west move, `color` otherwise. -/
def Square.layer_color (s : Square) (d : Dir) : Fin 256 :=
  if s.bridge && !d.vertical then s.bridge_above_color else s.color

/-- The number of connections of the layer a move toward `d` reads: for a
bridge `connection_count` on a vertical move and `bridge_above_conn_count`
on a horizontal one, `connection_count` for any other square. -/
def Square.layer_count (s : Square) (d : Dir) : Nat :=
  if s.bridge && !d.vertical then s.bridge_above_conn_count else s.connection_count

/-- The `bridge_dirs` mask of `playing_cursor_move_either` for a move toward
`d`: north and south for a vertical move, east and west for a horizontal
one. -/
def Dir.axis (d : Dir) : Nat :=
  if d.vertical then DIR_NORTH ||| DIR_SOUTH else DIR_EAST ||| DIR_WEST

/-! ## Concrete levels and boards -/

/-- A level buffer of one row of three squares, the two sources of color 1
at indices 0 and 1. -/
def row_level_bytes : List (Fin 256) :=
  [67, 76, 70, 76, 3, 1, 1, 0, 0, 0, 0, 0, 0, 0, 0, 0, 0, 0, 0, 0, 0, 0, 1, 0]

/-- The level decoded from `row_level_bytes`. -/
def row_level : Level := Level.decode (subarea row_level_bytes 0 24)

/-- A level buffer of two rows of two squares without wrap and without wall
records, the two sources of color 1 at indices 2 and 3. -/
def open_edge_bytes : List (Fin 256) :=
  [67, 76, 70, 76, 2, 2, 1, 0, 0, 0, 0, 0, 0, 0, 0, 0, 0, 0, 0, 0, 2, 0, 3, 0]

/-- The level decoded from `open_edge_bytes`. -/
def open_edge_level : Level := Level.decode (subarea open_edge_bytes 0 24)

/-- The session on `open_edge_level` after moving the cursor to index 2 and
picking up the source there. -/
def open_edge_state : Option LevelContainer :=
  (selected_level_to_play open_edge_level).run [.move .south, .selectEndpoint]

/-- Eight bytes whose first byte is not `C`, with `width = height = 2`. -/
def bad_magic_bytes : List (Fin 256) := [88, 76, 70, 76, 2, 2, 1, 0]

/-- A level buffer with a valid tag, one square and one color, so that its
header implies 24 bytes. -/
def one_color_bytes : List (Fin 256) :=
  [67, 76, 70, 76, 1, 1, 1, 0, 0, 0, 0, 0, 0, 0, 0, 0, 0, 0, 0, 0, 0, 0, 0, 0]

/-- A board of two squares: a connected source and a bridge that holds one
overlay half-edge. -/
def bridge_board : Level :=
  { width := 2, height := 1, color_count := 1, warp := false,
    squares := [⟨1, 2, 0, false, true, false, 0, 0⟩, ⟨0, 0, 0, false, false, true, 1, 1⟩] }

/-- A board of four by four squares without wrap, every square walled on all
four sides. -/
def walled_board_4x4 : Level :=
  { width := 4, height := 4, color_count := 0, warp := false,
    squares := List.replicate 16 { Square.zero with walls := 15 } }

/-- A session on a row of two sources of different colors, color 1 selected
on the first. -/
def two_sources_state : LevelContainer :=
  { current_level :=
      { width := 2, height := 1, color_count := 2, warp := false,
        squares := [⟨1, 0, 0, false, true, false, 0, 0⟩, ⟨2, 0, 0, false, true, false, 0, 0⟩] },
    playing_cursor_idx := 0, selected_color := 1, last_move_direction := 0,
    level_data_changed := false, deleted_connection := false, playing_bridge_above := false }

/-- A level buffer of one row of three squares, the two sources of color 1
at indices 0 and 2 and a hole at index 1. -/
def hole_level_bytes : List (Fin 256) :=
  [67, 76, 70, 76, 3, 1, 1, 0, 0, 0, 0, 0, 1, 0, 0, 0, 0, 0, 0, 0, 0, 0, 2, 0, 1, 0]

/-- A level buffer of eight by eight squares with 32 colors, the sources of
color `k + 1` at indices `2 * k` and `2 * k + 1`. -/
def many_colors_bytes : List (Fin 256) :=
  [67, 76, 70, 76, 8, 8, 32, 0, 0, 0, 0, 0, 0, 0, 0, 0, 0, 0, 0, 0]
    ++ (List.range 32).flatMap (fun k => [Fin.ofNat (2 * k), 0, Fin.ofNat (2 * k + 1), 0])

/-- The session on `row_level` after drawing from the source at index 1 to
index 2. -/
def row_drawn_state : LevelContainer :=
  { current_level :=
      { width := 3, height := 1, color_count := 1, warp := false,
        squares := [⟨1, 0, 0, false, true, false, 0, 0⟩, ⟨1, 2, 0, false, true, false, 0, 0⟩,
          ⟨1, 8, 0, false, false, false, 0, 0⟩] },
    playing_cursor_idx := 2, selected_color := 1, last_move_direction := 2,
    level_data_changed := true, deleted_connection := false, playing_bridge_above := false }

/-- A level buffer of two rows of three squares without wrap, sources of
color 1 at indices 3 and 0 and of color 2 at indices 1 and 2, and one wall
record: index 4 is walled to the north, while index 1 above it has no wall. -/
def one_sided_wall_bytes : List (Fin 256) :=
  [67, 76, 70, 76, 3, 2, 2, 0, 0, 0, 0, 0, 0, 0, 0, 0, 1, 0, 0, 0, 3, 0, 0, 0, 1, 0, 2, 0, 4, 16]

/-- The session on the level of `one_sided_wall_bytes` after drawing color 2
from index 1 south into index 4, dropping it, and picking up the source of
color 1 at index 3. -/
def one_sided_wall_state : Option LevelContainer :=
  (selected_level_to_play (Level.decode (subarea one_sided_wall_bytes 0 30))).run
    [.move .east, .selectEndpoint, .move .south, .selectEndpoint, .move .west, .selectEndpoint]

/-- A board of two by two squares that wraps, without walls, the sources of
color 1 at indices 0 and 3. -/
def torus_board : Level :=
  { width := 2, height := 2, color_count := 1, warp := true,
    squares := [⟨1, 0, 0, false, true, false, 0, 0⟩, Square.zero, Square.zero,
      ⟨1, 0, 0, false, true, false, 0, 0⟩] }

/-- The session on `torus_board` with color 1 selected on index 0. -/
def torus_state : LevelContainer :=
  { current_level := torus_board, playing_cursor_idx := 0, selected_color := 1,
    last_move_direction := 0, level_data_changed := false, deleted_connection := false,
    playing_bridge_above := false }

/-- A level buffer of one row of four squares, the sources of color 1 at
indices 0 and 3, whose hole list is `[2, 1]`. -/
def unsorted_holes_bytes : List (Fin 256) :=
  [67, 76, 70, 76, 4, 1, 1, 0, 0, 0, 0, 0, 2, 0, 0, 0, 0, 0, 0, 0, 0, 0, 3, 0, 2, 0, 1, 0]

/-- A level buffer of one row of four squares, the sources of color 1 at
indices 0 and 3, whose bridge list is `[1, 2]` and whose hole list is `[1]`. -/
def overlap_bytes : List (Fin 256) :=
  [67, 76, 70, 76, 4, 1, 1, 0, 2, 0, 0, 0, 1, 0, 0, 0, 0, 0, 0, 0, 0, 0, 3, 0, 1, 0, 2, 0, 1, 0]

/-- A level buffer of one row of four squares, the sources of color 1 at
indices 0 and 2, whose bridge list is `[1, 2]` and whose hole list is `[2]`:
index 2 is in all three lists. -/
def shared_last_bytes : List (Fin 256) :=
  [67, 76, 70, 76, 4, 1, 1, 0, 2, 0, 0, 0, 1, 0, 0, 0, 0, 0, 0, 0, 0, 0, 2, 0, 1, 0, 2, 0, 2, 0]

/-- A level buffer of one row of four squares, the sources of color 1 at
indices 0 and 2, whose bridge list is `[1, 2]` and whose hole list is `[1]`. -/
def overlap_source_bytes : List (Fin 256) :=
  [67, 76, 70, 76, 4, 1, 1, 0, 2, 0, 0, 0, 1, 0, 0, 0, 0, 0, 0, 0, 0, 0, 2, 0, 1, 0, 2, 0, 1, 0]

/-- A level buffer of one row of four squares, the sources of color 1 at
indices 0 and 3, with two wall records in the order index 2, index 1, both
blocking north. -/
def unsorted_walls_bytes : List (Fin 256) :=
  [67, 76, 70, 76, 4, 1, 1, 0, 0, 0, 0, 0, 0, 0, 0, 0, 2, 0, 0, 0, 0, 0, 3, 0, 2, 16, 1, 16]

/-- A level buffer of one row of four squares: the sources of color 1 at
indices 0 and 3, a bridge at index 1, a hole at index 2, and wall records
for index 0 (west) and index 3 (east). -/
def kinds_level_bytes : List (Fin 256) :=
  [67, 76, 70, 76, 4, 1, 1, 0, 1, 0, 0, 0, 1, 0, 0, 0, 2, 0, 0, 0, 0, 0, 3, 0, 1, 0, 2, 0,
    0, 128, 3, 32]

/-- A level buffer of two rows of three squares without wrap: the sources of
color 1 at indices 0 and 2, the sources of color 2 at indices 4 and 3, a
bridge at index 1, and a wall record for every square closing the four
edges of the board. -/
def bridge_level_bytes : List (Fin 256) :=
  [67, 76, 70, 76, 3, 2, 2, 0, 1, 0, 0, 0, 0, 0, 0, 0, 6, 0, 0, 0, 0, 0, 2, 0, 4, 0, 3, 0, 1, 0,
    0, 144, 1, 16, 2, 48, 3, 192, 4, 64, 5, 96]

/-- A level buffer of one column of six squares without wrap and without
wall records: the sources of color 1 at indices 3 and 4, the sources of
color 2 at indices 0 and 5, and a bridge at index 1. -/
def column_level_bytes : List (Fin 256) :=
  [67, 76, 70, 76, 1, 6, 2, 0, 1, 0, 0, 0, 0, 0, 0, 0, 0, 0, 0, 0, 3, 0, 4, 0, 0, 0, 5, 0, 1, 0]

/-- The intents that lead the session on `column_level_bytes` to the bridge
at index 1 with color 2 selected, the square below it holding one
connection of color 1 to the west. -/
def column_level_intents : List Intent :=
  [.move .north, .move .north, .move .north, .selectEndpoint, .move .west, .selectEndpoint,
    .move .south, .move .south, .selectEndpoint, .move .west, .move .east, .move .west,
    .move .west, .move .west, .selectEndpoint, .move .north, .selectEndpoint, .move .south]

/-- A level buffer of two rows of three squares without wrap: the sources of
color 1 at indices 1 and 5, a bridge at index 4, and a wall record for every
square closing the four edges of the board. -/
def guard_level_bytes : List (Fin 256) :=
  [67, 76, 70, 76, 3, 2, 1, 0, 1, 0, 0, 0, 0, 0, 0, 0, 6, 0, 0, 0, 1, 0, 5, 0, 4, 0,
    0, 144, 1, 16, 2, 48, 3, 192, 4, 64, 5, 96]

/-- The session on `row_level` after the source at index 1 is drawn east to
index 2 and then entered from the source at index 0: the cursor is on index
1, which holds two connections, with color 1 selected. -/
def row_fallen_state : Option LevelContainer :=
  (selected_level_to_play (Level.decode (subarea row_level_bytes 0 24))).run
    [.move .east, .selectEndpoint, .move .east, .selectEndpoint, .move .west, .move .west,
      .selectEndpoint, .move .east]

/-- The session on the level of `guard_level_bytes` after the source at
index 5 is drawn north to index 2 and dropped, and the source at index 1 is
drawn south onto the bridge at index 4. -/
def guard_level_state : Option LevelContainer :=
  (selected_level_to_play (Level.decode (subarea guard_level_bytes 0 38))).run
    [.move .east, .move .east, .move .south, .selectEndpoint, .move .north, .selectEndpoint,
      .move .west, .selectEndpoint, .move .south]

/-- A session on the squares of `row_level` with the cursor on the source at
index 0 and its color selected. -/
def row_selected_state : LevelContainer :=
  { current_level :=
      { width := 3, height := 1, color_count := 1, warp := false,
        squares := [⟨1, 0, 0, false, true, false, 0, 0⟩, ⟨1, 0, 0, false, true, false, 0, 0⟩,
          Square.zero] },
    playing_cursor_idx := 0, selected_color := 1, last_move_direction := 0,
    level_data_changed := false, deleted_connection := false, playing_bridge_above := false }

/-- The session on `row_level` after the source at index 1 is drawn east to
index 2 and the source at index 0 is picked up. -/
def row_second_state : LevelContainer :=
  { current_level :=
      { width := 3, height := 1, color_count := 1, warp := false,
        squares := [⟨1, 0, 0, false, true, false, 0, 0⟩, ⟨1, 2, 0, false, true, false, 0, 0⟩,
          ⟨1, 8, 0, false, false, false, 0, 0⟩] },
    playing_cursor_idx := 0, selected_color := 1, last_move_direction := 2,
    level_data_changed := true, deleted_connection := false, playing_bridge_above := false }

/-- A session on a row of three squares: a source of color 1 under the
cursor, a bridge whose overlay holds both half-edges in color 2, and the
square of color 2 the overlay leads to. -/
def full_bridge_state : LevelContainer :=
  { current_level :=
      { width := 3, height := 1, color_count := 2, warp := false,
        squares := [⟨1, 0, 0, false, true, false, 0, 0⟩, ⟨0, 0, 0, false, false, true, 3, 2⟩,
          ⟨2, 8, 0, false, true, false, 0, 0⟩] },
    playing_cursor_idx := 0, selected_color := 1, last_move_direction := 0,
    level_data_changed := false, deleted_connection := false, playing_bridge_above := false }

/-- A session on a row of three squares: the source of color 1 under the
cursor and selected, then a square of color 2 connected east to the source
of color 2. -/
def displace_state : LevelContainer :=
  { current_level :=
      { width := 3, height := 1, color_count := 2, warp := false,
        squares := [⟨1, 0, 0, false, true, false, 0, 0⟩, ⟨2, 2, 0, false, false, false, 0, 0⟩,
          ⟨2, 8, 0, false, true, false, 0, 0⟩] },
    playing_cursor_idx := 0, selected_color := 1, last_move_direction := 0,
    level_data_changed := true, deleted_connection := false, playing_bridge_above := false }

/-- A session on a board of two by two squares that wraps: the cursor is on
the bridge at index 0, which color 1 entered from the east side, so that
`last_move_direction` is `DIR_WEST`. -/
def bridge_cursor_state : LevelContainer :=
  { current_level :=
      { width := 2, height := 2, color_count := 1, warp := true,
        squares := [⟨0, 0, 0, false, false, true, 2, 1⟩, ⟨1, 8, 0, false, true, false, 0, 0⟩,
          Square.zero, ⟨1, 0, 0, false, true, false, 0, 0⟩] },
    playing_cursor_idx := 0, selected_color := 1, last_move_direction := 8,
    level_data_changed := true, deleted_connection := false, playing_bridge_above := false }

/-- The session on the level of `one_sided_wall_bytes` with the cursor on the
source of color 2 at index 1 and that color selected. -/
def wall_pick_state : Option LevelContainer :=
  (selected_level_to_play (Level.decode (subarea one_sided_wall_bytes 0 30))).run
    [.move .east, .selectEndpoint]

/-- The session on the level of `bridge_level_bytes` after color 1 is drawn
from index 0 onto the overlay of the bridge, color 2 from index 4 onto its
primary layer, the overlay end is picked up and the move south has taken
back the connection of color 2: the cursor is on the source of color 2 at
index 4 with color 1 selected. -/
def bridge_mismatch_state : Option LevelContainer :=
  (selected_level_to_play (Level.decode (subarea bridge_level_bytes 0 42))).run
    [.selectEndpoint, .move .east, .selectEndpoint, .move .south, .selectEndpoint,
      .move .north, .selectEndpoint, .toggleOverlayLayer, .selectEndpoint, .move .south]

/-- The session on `row_level` with the cursor on the source at index 1 and
its color selected. -/
def row_pick_state : LevelContainer :=
  { current_level :=
      { width := 3, height := 1, color_count := 1, warp := false,
        squares := [⟨1, 0, 0, false, true, false, 0, 0⟩, ⟨1, 0, 0, false, true, false, 0, 0⟩,
          Square.zero] },
    playing_cursor_idx := 1, selected_color := 1, last_move_direction := 2,
    level_data_changed := false, deleted_connection := false, playing_bridge_above := false }

/-- A level buffer of three by three squares without wrap and without wall
records, bridges or holes, the two sources of color 1 at indices 0 and 8. -/
def corner_level_bytes : List (Fin 256) :=
  [67, 76, 70, 76, 3, 3, 1, 0, 0, 0, 0, 0, 0, 0, 0, 0, 0, 0, 0, 0, 0, 0, 8, 0]

/-- The session on the level of `corner_level_bytes` after
`selectEndpoint, east, east, south, south`. -/
def corner_edge_run : Option LevelContainer :=
  (selected_level_to_play (Level.decode (subarea corner_level_bytes 0 24))).run
    [.selectEndpoint, .move .east, .move .east, .move .south, .move .south]

/-- The session on the level of `corner_level_bytes` after the path through
all nine squares: `selectEndpoint, east, east, south, west, west, south,
east, east`. -/
def corner_snake_run : Option LevelContainer :=
  (selected_level_to_play (Level.decode (subarea corner_level_bytes 0 24))).run
    [.selectEndpoint, .move .east, .move .east, .move .south, .move .west, .move .west,
      .move .south, .move .east, .move .east]

/-- The session on the level of `hole_level_bytes` after the source at index
0 is drawn east into the hole at index 1 and the color is dropped: the
cursor is on the hole, which holds one connection and color 1. -/
def hole_cursor_state : Option LevelContainer :=
  (selected_level_to_play (Level.decode (subarea hole_level_bytes 0 26))).run
    [.selectEndpoint, .move .east, .selectEndpoint]

/-- The session entered on `row_level`: the cursor on the source at index 0
and no color selected. -/
def row_start_state : LevelContainer := selected_level_to_play row_level

/-- The session on the level of `bridge_level_bytes` after color 1 is drawn
from index 0 onto the overlay of the bridge, color 2 from index 4 east to
index 5, then from index 3 east into the source at index 4 and north onto
the bridge, the overlay end of the bridge is picked up (color 1) and the
move south has taken back the bridge's connection of color 2: the cursor is
on the source at index 4, which holds its connections west and east, with
color 1 selected. -/
def displace_back_state : Option LevelContainer :=
  (selected_level_to_play (Level.decode (subarea bridge_level_bytes 0 42))).run
    [.selectEndpoint, .move .east, .selectEndpoint, .move .north, .selectEndpoint,
      .move .east, .selectEndpoint, .move .east, .selectEndpoint, .move .east, .move .north,
      .selectEndpoint, .toggleOverlayLayer, .selectEndpoint, .move .south]

/-! ## Theorems -/

/-! ### Cells: completion and reset -/

theorem number_of_bits_pos_iff (d : Fin 16) : 1 ≤ number_of_bits d.val ↔ d ≠ 0 := by
  revert d; decide

/-- C8, as stated, fails: a source that is not a hole and holds two
connections is complete for `Square::complete`, and not for the reference
definition. -/
theorem complete_differs_at_source_two :
    Square.complete ⟨1, 3, 0, false, true, false, 0, 0⟩ = true
      ∧ Square.complete_spec ⟨1, 3, 0, false, true, false, 0, 0⟩ = false := by
  decide

/-- C8, amended: `Square::complete` is true for a hole; for a source that is
not a hole exactly when it has at least one connection; for a square that is
neither hole, source nor bridge exactly when it has two connections; for a
bridge that is neither hole nor source exactly when it has two primary
connections and a full overlay; and `Level::completed` is true exactly when
every square is complete. -/
theorem complete_characterisation (s : Square) (l : Level) :
    (s.hole = true → s.complete = true)
    ∧ (s.hole = false → s.source = true → (s.complete = true ↔ 1 ≤ s.connection_count))
    ∧ (s.hole = false → s.source = false → s.bridge = false →
        (s.complete = true ↔ s.connection_count = 2))
    ∧ (s.hole = false → s.source = false → s.bridge = true →
        (s.complete = true ↔ s.connection_count = 2 ∧ s.bridge_above_direction = 3))
    ∧ (l.completed = true ↔ ∀ c ∈ l.squares, c.complete = true) := by
  refine ⟨?_, ?_, ?_, ?_, ?_⟩
  · intro h; simp [Square.complete, h]
  · intro h hs
    have := number_of_bits_pos_iff s.direction
    simp [Square.complete, h, hs, Square.is_source, Square.is_connected,
      Square.connection_count] at *
    constructor
    · intro hc
      rcases hc with hc | hc
      · exact this.mpr hc
      · omega
    · intro hc
      exact Or.inl (this.mp hc)
  · intro h hs hb
    simp [Square.complete, h, hs, hb, Square.is_source]
  · intro h hs hb
    simp [Square.complete, h, hs, hb, Square.is_source]
  · simp [Level.completed, List.all_eq_true]

theorem Square.reset_direction (s : Square) : s.reset.direction = 0 := by
  unfold Square.reset Square.is_connected Square.is_source
  by_cases h : s.direction = 0 <;> simp [h] <;> split_ifs <;> simp_all

theorem Square.reset_frame (s : Square) :
    s.reset.walls = s.walls ∧ s.reset.hole = s.hole ∧ s.reset.source = s.source
      ∧ s.reset.bridge = s.bridge ∧ (s.source = true → s.reset.color = s.color) := by
  unfold Square.reset Square.is_connected Square.is_source
  by_cases h : s.direction = 0 <;> simp [h] <;> split_ifs <;> simp_all

theorem Square.reset_overlay (s : Square)
    (h : s.bridge = false → s.bridge_above_direction = 0) :
    s.reset.bridge_above_direction = 0 := by
  unfold Square.reset Square.is_connected Square.is_source
  by_cases h : s.direction = 0 <;> simp [h] <;> split_ifs <;> simp_all

/-- C9: on a board whose squares that are no bridge carry no overlay
half-edge (the overlay is written for bridges only), `Level::reset_board`
leaves every square with `direction = 0` and `bridge_above_direction = 0`,
and keeps `width`, `height`, `warp`, the number of squares, every square's
`walls`, `hole`, `source` and `bridge`, and the color of every source. -/
theorem reset_board_clears_connections (l : Level)
    (hov : ∀ s ∈ l.squares, s.bridge = false → s.bridge_above_direction = 0) :
    (∀ s ∈ l.reset_board.squares, s.direction = 0 ∧ s.bridge_above_direction = 0)
    ∧ l.reset_board.width = l.width ∧ l.reset_board.height = l.height
    ∧ l.reset_board.warp = l.warp
    ∧ l.reset_board.squares.length = l.squares.length
    ∧ ∀ (i : Nat) (s : Square), l.squares[i]? = some s →
        ∃ r, l.reset_board.squares[i]? = some r ∧
          r.walls = s.walls ∧ r.hole = s.hole ∧ r.source = s.source ∧ r.bridge = s.bridge
          ∧ (s.source = true → r.color = s.color) := by
  refine ⟨?_, rfl, rfl, rfl, by simp [Level.reset_board], ?_⟩
  · intro s hs
    simp only [Level.reset_board, List.mem_map] at hs
    obtain ⟨t, ht, rfl⟩ := hs
    exact ⟨t.reset_direction, t.reset_overlay (hov t ht)⟩
  · intro i s hs
    refine ⟨s.reset, ?_, s.reset_frame⟩
    simp [Level.reset_board, List.getElem?_map, hs]

/-- Witness of C9 on `bridge_board`, which holds a connected source and a
bridge with an overlay half-edge. -/
theorem reset_board_clears_connections_witness :
    (∀ s ∈ bridge_board.squares, s.bridge = false → s.bridge_above_direction = 0)
    ∧ (∀ s ∈ bridge_board.reset_board.squares,
        s.direction = 0 ∧ s.bridge_above_direction = 0) :=
  ⟨by decide, (reset_board_clears_connections bridge_board (by decide)).1⟩

/-- C10, the code at the failing input: on `row_level`, after drawing from
the source at index 1 to index 2, entering that source from the source at
index 0, stepping back onto index 0 and retracting twice to the east, the
square at index 2 has no connection and still color 1; `reset_level` leaves
that color, so the board differs from the decoded level, whose square 2 has
color 0. -/
theorem reset_keeps_stale_color :
    ((selected_level_to_play row_level).run
        [.move .east, .selectEndpoint, .move .east, .selectEndpoint, .move .west, .move .west,
         .selectEndpoint, .move .east, .move .west, .move .east, .move .east, .resetBoard]).map
      (fun c => (c.current_level.squares.map Square.color, decide (c.current_level = row_level)))
      = some ([1, 1, 1], false)
    ∧ row_level.squares.map Square.color = [1, 1, 0]
    ∧ row_level.squares.map Square.source = [true, true, false] := by
  decide

/-! ### Level decoding -/

theorem byte_lt (d : DataHolder) (i : Nat) : d.byte i < 256 := by
  unfold DataHolder.byte; exact Fin.isLt _

theorem read_u32_eq_magic_iff (d : DataHolder) :
    d.read_u32 0 = CLFL_MAGIC ↔ [d.byte 0, d.byte 1, d.byte 2, d.byte 3] = [67, 76, 70, 76] := by
  have h0 := byte_lt d 0
  have h1 := byte_lt d 1
  have h2 := byte_lt d 2
  have h3 := byte_lt d 3
  simp only [DataHolder.read_u32, CLFL_MAGIC, Nat.zero_add, List.cons.injEq, and_true]
  constructor
  · intro h; omega
  · rintro ⟨a, b, c, e⟩; omega

/-- C4, as stated, fails: `bad_magic_bytes` does not start with `CLFL`, and
the decoded level has four squares. -/
theorem decode_bad_magic_has_cells :
    [(subarea bad_magic_bytes 0 8).byte 0, (subarea bad_magic_bytes 0 8).byte 1,
      (subarea bad_magic_bytes 0 8).byte 2, (subarea bad_magic_bytes 0 8).byte 3]
        ≠ [67, 76, 70, 76]
    ∧ (Level.decode (subarea bad_magic_bytes 0 8)).squares.length = 4 := by
  decide

/-- C4, amended: for a buffer whose first four bytes are not `CLFL` the
constructor reads bytes 0 to 7 only and yields `width`, `height`,
`color_count` and `warp` from bytes 4 to 7 with `width * height` squares
that are all zero (no hole, source, bridge, wall, color or connection); the
level is empty exactly when byte 4 or byte 5 is zero.  The bytes read are
taken to lie inside the owner. -/
theorem decode_bad_magic (d : DataHolder) (_hin : d.reads_inside)
    (h : [d.byte 0, d.byte 1, d.byte 2, d.byte 3] ≠ [67, 76, 70, 76]) :
    Level.decode d =
      { width := d.byte 4, height := d.byte 5, color_count := d.byte 6,
        warp := d.byte 7 != 0,
        squares := List.replicate (d.byte 4 * d.byte 5) Square.zero }
    ∧ Level.decode_reads d = [4, 5, 6, 7, 0, 1, 2, 3]
    ∧ ((Level.decode d).squares = [] ↔ d.byte 4 = 0 ∨ d.byte 5 = 0) := by
  have hm : d.read_u32 0 ≠ CLFL_MAGIC := fun e => h ((read_u32_eq_magic_iff d).mp e)
  have hd : Level.decode d =
      { width := d.byte 4, height := d.byte 5, color_count := d.byte 6,
        warp := d.byte 7 != 0,
        squares := List.replicate (d.byte 4 * d.byte 5) Square.zero } := by
    simp [Level.decode, hm]
  refine ⟨hd, ?_, ?_⟩
  · simp [Level.decode_reads, hm, reads_u32]
  · rw [hd]
    simp [List.replicate_eq_nil_iff]

/-- Witness of the amended C4 on `bad_magic_bytes`. -/
theorem decode_bad_magic_witness :
    (subarea bad_magic_bytes 0 8).reads_inside
    ∧ [(subarea bad_magic_bytes 0 8).byte 0, (subarea bad_magic_bytes 0 8).byte 1,
      (subarea bad_magic_bytes 0 8).byte 2, (subarea bad_magic_bytes 0 8).byte 3]
        ≠ [67, 76, 70, 76]
    ∧ Level.decode_reads (subarea bad_magic_bytes 0 8) = [4, 5, 6, 7, 0, 1, 2, 3] :=
  ⟨by decide, by decide,
    (decode_bad_magic (subarea bad_magic_bytes 0 8) (by decide) (by decide)).2.1⟩

theorem mem_decode_reads_iff (d : DataHolder) (h : d.read_u32 0 = CLFL_MAGIC) (o : Nat) :
    o ∈ Level.decode_reads d ↔ o < Level.implied_length d := by
  simp only [Level.decode_reads, Level.implied_length, h, bne_self_eq_false, Bool.false_eq_true,
    if_false, reads_u32, reads_u16, List.mem_append, List.mem_flatMap, List.mem_range,
    List.mem_cons, List.mem_singleton, List.not_mem_nil, or_false]
  generalize d.byte 6 = cc
  generalize d.read_u32 8 = nb
  generalize d.read_u32 12 = nh
  generalize d.read_u32 16 = nw
  constructor
  · rintro (((((((h | h) | h) | h) | ⟨j, hj, h⟩) | ⟨k, hk, h⟩) | ⟨k, hk, h⟩) | ⟨k, hk, h⟩) <;>
      omega
  · intro hlt
    by_cases h1 : o < 20
    · have : o = 0 ∨ o = 1 ∨ o = 2 ∨ o = 3 ∨ o = 4 ∨ o = 5 ∨ o = 6 ∨ o = 7 ∨ o = 8 ∨ o = 9
          ∨ o = 10 ∨ o = 11 ∨ o = 12 ∨ o = 13 ∨ o = 14 ∨ o = 15 ∨ o = 16 ∨ o = 17 ∨ o = 18
          ∨ o = 19 := by omega
      rcases this with h | h | h | h | h | h | h | h | h | h | h | h | h | h | h | h | h | h
        | h | h <;> subst h <;> simp
    · by_cases h2 : o < 20 + 4 * cc
      · refine Or.inl (Or.inl (Or.inl (Or.inr ⟨(o - 20) / 4, by omega, by omega⟩)))
      · by_cases h3 : o < 20 + 4 * cc + 2 * nb
        · refine Or.inl (Or.inl (Or.inr ⟨(o - (20 + 4 * cc)) / 2, by omega, by omega⟩))
        · by_cases h4 : o < 20 + 4 * cc + 2 * nb + 2 * nh
          · refine Or.inl (Or.inr ⟨(o - (20 + 4 * cc + 2 * nb)) / 2, by omega, by omega⟩)
          · refine Or.inr ⟨(o - (20 + 4 * cc + 2 * nb + 2 * nh)) / 2, by omega, by omega⟩

/-- C5, as stated, fails: the window of 20 bytes on `one_color_bytes` (an
owner of 24 bytes, as when more data follows the level in its pack) has a
valid tag and is shorter than the 24 bytes its header implies; the
constructor reads offsets 20 to 23, beyond the window, and yields the same
level of one square as for the window of 24 bytes. -/
theorem decode_truncated_reads_beyond :
    (subarea one_color_bytes 0 20).reads_inside
    ∧ (subarea one_color_bytes 0 20).read_u32 0 = CLFL_MAGIC
    ∧ (subarea one_color_bytes 0 20).size < Level.implied_length (subarea one_color_bytes 0 20)
    ∧ (∃ o ∈ Level.decode_reads (subarea one_color_bytes 0 20),
        (subarea one_color_bytes 0 20).size ≤ o)
    ∧ Level.decode (subarea one_color_bytes 0 20) = Level.decode (subarea one_color_bytes 0 24)
    ∧ (Level.decode (subarea one_color_bytes 0 20)).squares.length = 1 := by
  refine ⟨by decide, by decide, by decide, ⟨20, by decide, by decide⟩, rfl, by decide⟩

/-- C5, amended: for a buffer with a valid tag the constructor reads exactly
the offsets below the length the header implies, whatever the size of the
window, and its result does not depend on that size; so every read lies
inside the window exactly when the window is at least as long as the header
implies.  The bytes read are taken to lie inside the owner. -/
theorem decode_reads_within_iff (d : DataHolder)
    (_hin : d.reads_inside)
    (h : [d.byte 0, d.byte 1, d.byte 2, d.byte 3] = [67, 76, 70, 76]) :
    (∀ o, o ∈ Level.decode_reads d ↔ o < Level.implied_length d)
    ∧ ((∀ o ∈ Level.decode_reads d, o < d.size) ↔ Level.implied_length d ≤ d.size)
    ∧ ∀ n, Level.decode { d with size := n } = Level.decode d := by
  have hm := (read_u32_eq_magic_iff d).mpr h
  refine ⟨mem_decode_reads_iff d hm, ?_, fun _ => rfl⟩
  constructor
  · intro hall
    by_contra hlt
    have := hall d.size ((mem_decode_reads_iff d hm _).mpr (by omega))
    omega
  · intro hle o ho
    have := (mem_decode_reads_iff d hm o).mp ho
    omega

/-- Witness of the amended C5 on the complete window of `one_color_bytes`. -/
theorem decode_reads_within_iff_witness :
    (subarea one_color_bytes 0 24).reads_inside
    ∧ [(subarea one_color_bytes 0 24).byte 0, (subarea one_color_bytes 0 24).byte 1,
      (subarea one_color_bytes 0 24).byte 2, (subarea one_color_bytes 0 24).byte 3]
        = [67, 76, 70, 76]
    ∧ ∀ o ∈ Level.decode_reads (subarea one_color_bytes 0 24),
        o < (subarea one_color_bytes 0 24).size :=
  ⟨by decide, by decide,
    ((decode_reads_within_iff (subarea one_color_bytes 0 24) (by decide) (by decide)).2.1).mpr
      (by decide)⟩

/-! ### Neighbour resolution and cursor movement -/

/-- C3, the code at the failing input: on `open_edge_level` (no wrap, no
walls) with color 1 selected on index 2, the left column of the bottom row,
the move west resolves index 1, the cursor goes there and a connection is
written between the two squares; the move south resolves index 4, outside the
four squares of the board, which `playing_cursor_move_either` then
indexes. -/
theorem open_edge_move_not_refused :
    open_edge_level.warp = false
    ∧ open_edge_level.squares.map Square.walls = [0, 0, 0, 0]
    ∧ open_edge_state.map (fun c => (c.playing_cursor_idx, c.selected_color)) = some (2, 1)
    ∧ open_edge_state.bind (fun c => c.target_idx .west) = some 1
    ∧ (open_edge_state.bind (fun c => c.attemptMove .west)).map
        (fun c => (c.playing_cursor_idx, c.current_level.squares.map Square.direction))
        = some (1, [0, 2, 8, 0])
    ∧ open_edge_state.bind (fun c => c.target_idx .south) = some 4
    ∧ open_edge_state.bind (fun c => c.attemptMove .south) = none := by
  decide

theorem grid_facts {w h n idx : Nat} (hw : w < 256) (hh : h < 256) (hn : n = w * h)
    (hidx : idx < n) :
    0 < w ∧ 0 < h ∧ n < 65536 ∧ w * (idx / w) + idx % w = idx ∧ idx % w < w ∧ idx / w < h
      ∧ w * (idx / w) + w ≤ n := by
  have hwpos : 0 < w := by
    rcases Nat.eq_zero_or_pos w with h0 | h0
    · subst h0; simp at hn; omega
    · exact h0
  have hhpos : 0 < h := by
    rcases Nat.eq_zero_or_pos h with h0 | h0
    · subst h0; simp at hn; omega
    · exact h0
  have hbound : w * h ≤ 255 * 255 := Nat.mul_le_mul (by omega) (by omega)
  have hr : idx / w < h := Nat.div_lt_of_lt_mul (by rw [← hn]; exact hidx)
  have hmul : w * (idx / w + 1) ≤ w * h := Nat.mul_le_mul_left w hr
  rw [Nat.mul_add, Nat.mul_one] at hmul
  exact ⟨hwpos, hhpos, by omega, Nat.div_add_mod idx w, Nat.mod_lt _ hwpos, hr, by omega⟩

theorem free_north {w h n idx : Nat} (hw : w < 256) (hh : h < 256) (hn : n = w * h)
    (hidx : idx < n) :
    (if idx < w then u16 ((n : Int) - ((w : Int) - idx)) else u16 ((idx : Int) - w))
      = ((idx / w + h - 1) % h) * w + idx % w := by
  obtain ⟨hwpos, hhpos, hlt, hdm, hc, hr, hrow⟩ := grid_facts hw hh hn hidx
  by_cases htop : idx < w
  · have hr0 : idx / w = 0 := Nat.div_eq_of_lt htop
    have hc0 : idx % w = idx := Nat.mod_eq_of_lt htop
    have hm : (0 + h - 1) % h = h - 1 := by
      rw [Nat.zero_add]; exact Nat.mod_eq_of_lt (by omega)
    have hs : (h - 1) * w = w * h - w := by
      rw [Nat.sub_mul, Nat.one_mul, Nat.mul_comm]
    have hge : w ≤ w * h := Nat.le_mul_of_pos_right w hhpos
    rw [if_pos htop, hr0, hc0, hm, hs]
    unfold u16; omega
  · have hrpos : 1 ≤ idx / w := (Nat.one_le_div_iff hwpos).mpr (by omega)
    have hm : (idx / w + h - 1) % h = idx / w - 1 := by
      have : idx / w + h - 1 = (idx / w - 1) + h := by omega
      rw [this, Nat.add_mod_right, Nat.mod_eq_of_lt (by omega)]
    have hs : (idx / w - 1) * w = w * (idx / w) - w := by
      rw [Nat.sub_mul, Nat.one_mul, Nat.mul_comm]
    have hge : w ≤ w * (idx / w) := Nat.le_mul_of_pos_right w hrpos
    rw [if_neg htop, hm, hs]
    unfold u16; omega

theorem free_south {w h n idx : Nat} (hw : w < 256) (hh : h < 256) (hn : n = w * h)
    (hidx : idx < n) :
    (if idx ≥ (h - 1) * w then u16 ((idx : Int) + w - n) else u16 ((idx : Int) + w))
      = ((idx / w + 1) % h) * w + idx % w := by
  obtain ⟨hwpos, hhpos, hlt, hdm, hc, hr, hrow⟩ := grid_facts hw hh hn hidx
  have hs : (h - 1) * w = w * h - w := by
    rw [Nat.sub_mul, Nat.one_mul, Nat.mul_comm]
  have hge : w ≤ w * h := Nat.le_mul_of_pos_right w hhpos
  by_cases hbot : idx ≥ (h - 1) * w
  · have hrl : h - 1 ≤ idx / w := (Nat.le_div_iff_mul_le hwpos).mpr hbot
    have hre : idx / w + 1 = h := by omega
    have hwr : w * (idx / w) = w * h - w := by
      have : w * (idx / w + 1) = w * h := by rw [hre]
      rw [Nat.mul_add, Nat.mul_one] at this
      omega
    rw [if_pos hbot, hre, Nat.mod_self, Nat.zero_mul]
    unfold u16; omega
  · have hrl : idx / w + 1 < h := by
      by_contra hcon
      have hre : idx / w = h - 1 := by omega
      have : w * (idx / w) = (h - 1) * w := by rw [hre, Nat.mul_comm]
      omega
    have hs2 : (idx / w + 1) * w = w * (idx / w) + w := by
      rw [Nat.add_mul, Nat.one_mul, Nat.mul_comm]
    rw [if_neg hbot, Nat.mod_eq_of_lt hrl, hs2]
    unfold u16; omega

theorem free_west {w h n idx : Nat} (hw : w < 256) (hh : h < 256) (hn : n = w * h)
    (hidx : idx < n) :
    (if idx % w = 0 then u16 ((idx : Int) + w - 1) else u16 ((idx : Int) - 1))
      = (idx / w) * w + (idx % w + w - 1) % w := by
  obtain ⟨hwpos, hhpos, hlt, hdm, hc, hr, hrow⟩ := grid_facts hw hh hn hidx
  rw [Nat.mul_comm (idx / w) w]
  by_cases hl : idx % w = 0
  · rw [if_pos hl, hl, Nat.zero_add, Nat.mod_eq_of_lt (by omega)]
    unfold u16; omega
  · have hm : (idx % w + w - 1) % w = idx % w - 1 := by
      have : idx % w + w - 1 = (idx % w - 1) + w := by omega
      rw [this, Nat.add_mod_right, Nat.mod_eq_of_lt (by omega)]
    rw [if_neg hl, hm]
    unfold u16; omega

theorem free_east {w h n idx : Nat} (hw : w < 256) (hh : h < 256) (hn : n = w * h)
    (hidx : idx < n) :
    (if idx % w = w - 1 then u16 ((idx : Int) - w + 1) else u16 ((idx : Int) + 1))
      = (idx / w) * w + (idx % w + 1) % w := by
  obtain ⟨hwpos, hhpos, hlt, hdm, hc, hr, hrow⟩ := grid_facts hw hh hn hidx
  rw [Nat.mul_comm (idx / w) w]
  by_cases hl : idx % w = w - 1
  · have : idx % w + 1 = w := by omega
    rw [if_pos hl, this, Nat.mod_self]
    unfold u16; omega
  · rw [if_neg hl, Nat.mod_eq_of_lt (by omega)]
    unfold u16; omega

theorem free_target_idx (c : LevelContainer) (d : Dir) (hsel : c.selected_color = 0)
    (hwf : c.current_level.well_formed)
    (hcur : c.playing_cursor_idx < c.current_level.squares.length) :
    c.target_idx d = some (free_target c.current_level c.playing_cursor_idx d) := by
  obtain ⟨hw, hh, hn⟩ := hwf
  obtain ⟨hwpos, -⟩ := grid_facts hw hh hn hcur
  have hw0 : c.current_level.width ≠ 0 := by omega
  cases d
  · have := free_north hw hh hn hcur
    simp only [LevelContainer.target_idx, hsel, Level.move_idx_up_checked, Level.wall_blocks,
      Level.square_is_top_row, Level.move_idx_up, free_target] at *
    simp only [bne_self_eq_false, Bool.false_eq_true, if_false, Bool.not_false, Bool.or_true,
      Bool.true_and, decide_eq_true_eq]
    split_ifs at * <;> simp_all
  · have := free_east hw hh hn hcur
    simp only [LevelContainer.target_idx, hsel, Level.move_idx_right_checked, Level.wall_blocks,
      Level.square_is_right_column, Level.move_idx_right, free_target, hw0] at *
    simp only [bne_self_eq_false, Bool.false_eq_true, if_false, Bool.not_false, Bool.or_true,
      if_true]
    split_ifs at this with hl
    · rw [beq_iff_eq.mpr hl, this]
    · rw [beq_eq_false_iff_ne.mpr hl, this]
  · have := free_south hw hh hn hcur
    simp only [LevelContainer.target_idx, hsel, Level.move_idx_down_checked, Level.wall_blocks,
      Level.square_is_bottom_row, Level.move_idx_down, free_target] at *
    simp only [bne_self_eq_false, Bool.false_eq_true, if_false, Bool.not_false, Bool.or_true,
      Bool.true_and, decide_eq_true_eq]
    split_ifs at * <;> simp_all
  · have := free_west hw hh hn hcur
    simp only [LevelContainer.target_idx, hsel, Level.move_idx_left_checked, Level.wall_blocks,
      Level.square_is_left_column, Level.move_idx_left, free_target, hw0] at *
    simp only [bne_self_eq_false, Bool.false_eq_true, if_false, Bool.not_false, Bool.or_true,
      if_true]
    split_ifs at this with hl
    · rw [beq_iff_eq.mpr hl, this]
    · rw [beq_eq_false_iff_ne.mpr hl, this]

theorem attemptMove_eq (c : LevelContainer) (d : Dir) :
    c.attemptMove d
      = (c.target_idx d).bind (fun n => c.cursor_step n d.mask d.opp.mask d.vertical) := by
  cases d <;> rfl

/-- C7: with no color selected and the cursor on a square of a well-formed
board, `attemptMove` returns the session with only the cursor changed, the
level and every other member being the same; the cursor goes to the square in
the same column and the row above or below, or in the same row and the column
to the left or right, the first and last row and column being adjacent,
whatever `warp` and the walls are. -/
theorem free_cursor_movement (c : LevelContainer) (d : Dir) (hsel : c.selected_color = 0)
    (hwf : c.current_level.well_formed)
    (hcur : c.playing_cursor_idx < c.current_level.squares.length) :
    c.attemptMove d
      = some { c with
          playing_cursor_idx := free_target c.current_level c.playing_cursor_idx d } := by
  rw [attemptMove_eq, free_target_idx c d hsel hwf hcur]
  have hs : (c.selected_color != 0) = false := by simp [hsel]
  simp only [Option.some_bind, LevelContainer.cursor_step, LevelContainer.move_playing_cursor, hs]
  by_cases he : free_target c.current_level c.playing_cursor_idx d = c.playing_cursor_idx
  · rw [if_pos he, he]
  · rw [if_neg he]; simp

/-- Witness of C7: north from row 0 of `walled_board_4x4`, which does not
wrap and is walled everywhere, lands on index 12, row 3 of column 0. -/
theorem free_cursor_movement_witness :
    (selected_level_to_play walled_board_4x4).selected_color = 0
    ∧ (selected_level_to_play walled_board_4x4).current_level.well_formed
    ∧ (selected_level_to_play walled_board_4x4).attemptMove .north
        = some { selected_level_to_play walled_board_4x4 with playing_cursor_idx := 12 } :=
  ⟨rfl, by decide,
    free_cursor_movement (selected_level_to_play walled_board_4x4) .north rfl (by decide)
      (by decide)⟩

/-! ### Refused moves -/

/-- C6: with a color selected and the cursor on the square `cur`,
`attemptMove` returns the session unchanged (level, cursor, selected color
and every other member) when (a) the walls of `cur` block the direction, or
when the retraction test fails on `cur` and the resolved target is (b) a
source of another color (a source is never a bridge: the decoder sets one of
the flags only) or (c) a square that is no bridge and holds two
connections. -/
theorem refusal_is_noop (c : LevelContainer) (d : Dir) (cur : Square)
    (hsel : c.selected_color ≠ 0)
    (hcur : c.current_level.squares[c.playing_cursor_idx]? = some cur)
    (h : (cur.walls.val &&& d.mask ≠ 0)
      ∨ (∃ t tgt, c.target_idx d = some t ∧ c.current_level.squares[t]? = some tgt
          ∧ retraction_test cur d.mask d.vertical = false
          ∧ ((tgt.source = true ∧ tgt.bridge = false ∧ tgt.color.val ≠ c.selected_color)
            ∨ (tgt.bridge = false ∧ tgt.connection_count = 2)))) :
    c.attemptMove d = some c := by
  rw [attemptMove_eq]
  rcases h with hwall | ⟨t, tgt, ht, htgt, hret, hcase⟩
  · have hs : (c.selected_color != 0) = true := by simpa using hsel
    have hb : (cur.walls.val &&& d.mask != 0) = true := by simpa using hwall
    have : c.target_idx d = some c.playing_cursor_idx := by
      cases d <;> simp only [Dir.mask] at hb <;>
        simp only [LevelContainer.target_idx, Level.move_idx_up_checked,
          Level.move_idx_right_checked, Level.move_idx_down_checked,
          Level.move_idx_left_checked, Level.wall_blocks, hs, hcur, hb, if_true]
    rw [this]
    simp [LevelContainer.cursor_step]
  · rw [ht]
    simp only [Option.some_bind, LevelContainer.cursor_step]
    by_cases he : t = c.playing_cursor_idx
    · rw [if_pos he]
    · have hs : (c.selected_color != 0) = true := by simpa using hsel
      rw [if_neg he, if_pos hs]
      simp only [LevelContainer.playing_cursor_move_either, hcur, hret, htgt]
      by_cases hg : bridge_axis_guard c cur d.vertical = true
      · rw [if_pos hg]
      · rw [if_neg hg]
        have hin : inspect_target tgt c.selected_color d.vertical = .refuse := by
          rcases hcase with ⟨hsrc, hb, hcol⟩ | ⟨hb, hcount⟩
          · simp [inspect_target, hsrc, hb, hcol, Square.is_source]
          · simp [inspect_target, hb, hcount, Square.is_source]
        simp [hin]

/-- Witness of C6: on `two_sources_state` the move east from the source of
color 1 meets the source of color 2 and changes nothing. -/
theorem refusal_is_noop_witness :
    two_sources_state.selected_color ≠ 0
    ∧ two_sources_state.target_idx .east = some 1
    ∧ two_sources_state.attemptMove .east = some two_sources_state :=
  ⟨by decide, by decide,
    refusal_is_noop two_sources_state .east ⟨1, 0, 0, false, true, false, 0, 0⟩ (by decide)
      (by decide)
      (Or.inr ⟨1, ⟨2, 0, 0, false, true, false, 0, 0⟩, by decide, by decide, by decide,
        Or.inl ⟨rfl, rfl, by decide⟩⟩)⟩

/-! ### Save round trip -/

theorem and_mask (x : Nat) (n : Nat) (m : Nat) (hm : m = 2 ^ n - 1) : x &&& m = x % 2 ^ n := by
  subst hm; exact Nat.and_pow_two_sub_one_eq_mod x n

theorem or_shift (a b i : Nat) (h : a < 2 ^ i) : a ||| b <<< i = a + 2 ^ i * b := by
  rw [Nat.shiftLeft_eq, Nat.or_comm, Nat.mul_comm b, ← Nat.mul_add_lt_is_or h, Nat.add_comm]

theorem shiftRight_and (v m i : Nat) : (v &&& m) >>> i = (v >>> i) &&& (m >>> i) := by
  apply Nat.eq_of_testBit_eq
  intro j
  simp [Nat.testBit_shiftRight, Nat.testBit_and]

theorem pack_arith (d c od oc : Nat) (hd : d < 16) (hc : c < 32) (hod : od < 4) (hoc : oc < 32) :
    (0 ||| (d &&& 0xF) ||| ((c &&& 0x1F) <<< 4) ||| ((od &&& 0x3) <<< (5 + 4))
      ||| ((oc &&& 0x1F) <<< (2 + 5 + 4))) = d + 16 * c + 512 * od + 2048 * oc
    ∧ (0 ||| (d &&& 0xF) ||| ((c &&& 0x1F) <<< 4)) = d + 16 * c := by
  have e1 : d &&& 0xF = d := by
    rw [and_mask d 4 _ (by norm_num)]; exact Nat.mod_eq_of_lt hd
  have e2 : c &&& 0x1F = c := by
    rw [and_mask c 5 _ (by norm_num)]; exact Nat.mod_eq_of_lt hc
  have e3 : od &&& 0x3 = od := by
    rw [and_mask od 2 _ (by norm_num)]; exact Nat.mod_eq_of_lt hod
  have e4 : oc &&& 0x1F = oc := by
    rw [and_mask oc 5 _ (by norm_num)]; exact Nat.mod_eq_of_lt hoc
  rw [e1, e2, e3, e4, Nat.zero_or]
  have s1 : d ||| c <<< 4 = d + 16 * c := or_shift d c 4 (by norm_num; omega)
  have s2 : (d + 16 * c) ||| od <<< (5 + 4) = d + 16 * c + 512 * od :=
    or_shift _ od 9 (by norm_num; omega)
  have s3 : (d + 16 * c + 512 * od) ||| oc <<< (2 + 5 + 4) = d + 16 * c + 512 * od + 2048 * oc :=
    or_shift _ oc 11 (by norm_num; omega)
  rw [s1, s2, s3]
  exact ⟨rfl, rfl⟩

theorem unpack_arith (v : Nat) :
    v &&& 0xF = v % 16 ∧ (v &&& (0x1F <<< 4)) >>> 4 = (v / 16) % 32
    ∧ (v &&& (0x3 <<< (5 + 4))) >>> (5 + 4) = (v / 512) % 4
    ∧ (v &&& (0x1F <<< (2 + 5 + 4))) >>> (2 + 5 + 4) = (v / 2048) % 32 := by
  refine ⟨and_mask v 4 _ (by norm_num), ?_, ?_, ?_⟩
  · rw [shiftRight_and, Nat.shiftRight_eq_div_pow]
    exact and_mask _ 5 _ (by decide)
  · rw [shiftRight_and, Nat.shiftRight_eq_div_pow]
    exact and_mask _ 2 _ (by decide)
  · rw [shiftRight_and, Nat.shiftRight_eq_div_pow]
    exact and_mask _ 5 _ (by decide)

theorem pack_into_lt (s : Square) : s.pack_into < 65536 := by
  unfold Square.pack_into
  split_ifs <;> exact Nat.mod_lt _ (by norm_num)

theorem load_from_pack_into (f s : Square) (h : Square.saveable f s) :
    f.load_from s.pack_into = s := by
  obtain ⟨c, d, w, ho, sr, b, od, oc⟩ := s
  obtain ⟨fc, fd, fw, fho, fsr, fb, fod, foc⟩ := f
  obtain ⟨h1, h2, h3, h4, h5, h6, h7⟩ := h
  simp only at h1 h2 h3 h4 h5 h6 h7
  subst h1 h2 h3 h4
  have hd : d.val < 16 := d.isLt
  have hod : od.val < 4 := od.isLt
  obtain ⟨p1, p2⟩ := pack_arith d.val c.val od.val oc.val hd h6 hod h7
  cases b
  · obtain ⟨rfl, rfl, rfl, rfl⟩ := h5 rfl
    obtain ⟨u1, u2, -, -⟩ := unpack_arith ((d.val + 16 * c.val) % 65536)
    simp only [Square.load_from, Square.pack_into, p2, Bool.false_eq_true, if_false, u1, u2,
      Square.mk.injEq, and_true, true_and]
    constructor
    · apply Fin.ext; simp only [Fin.ofNat]; omega
    · apply Fin.ext; simp only [Fin.ofNat]; omega
  · obtain ⟨u1, u2, u3, u4⟩ :=
      unpack_arith ((d.val + 16 * c.val + 512 * od.val + 2048 * oc.val) % 65536)
    simp only [Square.load_from, Square.pack_into, p1, if_true, u1, u2, u3, u4,
      Square.mk.injEq, and_true, true_and]
    refine ⟨?_, ?_, ?_, ?_⟩ <;> apply Fin.ext <;> simp only [Fin.ofNat] <;> omega

theorem words_to_bytes_cons (w : Nat) (ws : List Nat) :
    words_to_bytes (w :: ws) = Fin.ofNat w :: Fin.ofNat (w / 256) :: words_to_bytes ws := by
  simp [words_to_bytes]

theorem read_u16_words (n : Nat) : ∀ (ws : List Nat) (k : Nat) (w : Nat),
    ws[k]? = some w → w < 65536 →
    (subarea (words_to_bytes ws) 0 n).read_u16 (2 * k) = w := by
  intro ws
  induction ws with
  | nil => intro k w h; simp at h
  | cons a ws ih =>
    intro k w h hw
    cases k with
    | zero =>
      simp only [List.getElem?_cons_zero, Option.some.injEq] at h
      subst h
      simp only [DataHolder.read_u16, DataHolder.byte, subarea, words_to_bytes_cons,
        Nat.mul_zero, Nat.zero_add, List.getD_cons_zero, List.getD_cons_succ, Fin.ofNat]
      omega
    | succ k =>
      simp only [List.getElem?_cons_succ] at h
      have := ih k w h hw
      simp only [DataHolder.read_u16, DataHolder.byte, subarea, words_to_bytes_cons,
        Nat.zero_add] at this ⊢
      have e1 : 2 * (k + 1) = 2 * k + 1 + 1 := by omega
      rw [e1]
      simp only [List.getD_cons_succ]
      exact this

theorem load_save_squares_eq (data : DataHolder) (fs ss : List Square)
    (h : List.Forall₂ Square.loads_as fs ss) :
    ∀ off, (∀ k s, ss[k]? = some s → data.read_u16 (off + 2 * k) = s.pack_into) →
      load_save_squares data fs off = ss := by
  induction h with
  | nil => intro off _; rfl
  | @cons f s fs ss hr _ ih =>
    intro off hread
    obtain ⟨hh, hhole, hsave⟩ := hr
    have hhead : (if !f.hole then f.load_from (data.read_u16 off) else f) = s := by
      cases hs : s.hole
      · have := hread 0 s (by simp)
        simp only [Nat.mul_zero, Nat.add_zero] at this
        rw [hh, hs, this]
        simpa using load_from_pack_into f s (hsave hs)
      · rw [hh, hs]; simpa using hhole hs
    have htail := ih (off + 2) (fun k t hk => by
      have := hread (k + 1) t (by simpa using hk)
      rw [← this]; congr 1; omega)
    simp only [load_save_squares, hhead, htail]

theorem forall2_set {R : Square → Square → Prop} {fs ss : List Square}
    (h : List.Forall₂ R fs ss) (g : Square → Square) (hg : ∀ f s, R f s → R f (g s)) :
    ∀ (i : Nat) (s : Square), ss[i]? = some s → List.Forall₂ R fs (ss.set i (g s)) := by
  induction h with
  | nil => intro i s hs; simp at hs
  | @cons f t fs ss hr htail ih =>
    intro i s hs
    cases i with
    | zero =>
      simp only [List.getElem?_cons_zero, Option.some.injEq] at hs
      subst hs
      exact List.Forall₂.cons (hg _ _ hr) htail
    | succ i =>
      simp only [List.getElem?_cons_succ] at hs
      exact List.Forall₂.cons hr (ih i s hs)

theorem update_related {R : Square → Square → Prop} {fresh l l1 : Level} {idx : Nat}
    {g : Square → Square} (hg : ∀ f s, R f s → R f (g s)) (h : Level.related R fresh l)
    (hu : l.update idx g = some l1) : Level.related R fresh l1 := by
  unfold Level.update at hu
  split at hu
  · next s hs =>
    simp only [Option.some.injEq] at hu
    subst hu
    obtain ⟨h1, h2, h3, h4, h5⟩ := h
    exact ⟨h1, h2, h3, h4, forall2_set h5 g hg idx s hs⟩
  · simp at hu

theorem bind_remove_direction_related {R : Square → Square → Prop} (hR : Square.Stable R)
    {fresh l l1 : Level} (h : Level.related R fresh l) (o : Option Nat) (d : Nat)
    (hu : o.bind (fun n => l.remove_direction n d) = some l1) : Level.related R fresh l1 := by
  cases o with
  | none => simp at hu
  | some n =>
    simp only [Option.some_bind, Level.remove_direction] at hu
    exact update_related (fun f s hfs => hR.remove_direction f s d hfs) h hu

theorem bind_update_related {R : Square → Square → Prop} {fresh l2 : Level}
    (o : Option Level) (idx : Nat) (g : Square → Square) (hg : ∀ f s, R f s → R f (g s))
    (ho : ∀ l1, o = some l1 → Level.related R fresh l1)
    (hu : o.bind (fun l1 => l1.update idx g) = some l2) : Level.related R fresh l2 := by
  cases o with
  | none => simp at hu
  | some l1 =>
    simp only [Option.some_bind] at hu
    exact update_related hg (ho l1 rfl) hu

theorem remove_single_connection_related {R : Square → Square → Prop} (hR : Square.Stable R)
    {fresh l l1 : Level} (h : Level.related R fresh l) (idx : Nat) (bv : Bool)
    (hu : l.remove_single_connection idx bv = some l1) : Level.related R fresh l1 := by
  unfold Level.remove_single_connection at hu
  split at hu
  · simp at hu
  · next square hsq =>
    split_ifs at hu
    all_goals first
      | (simp only [Option.some.injEq] at hu; subst hu; exact h)
      | (refine bind_update_related _ idx _ ?_ ?_ hu
         · first
            | exact hR.clear_primary
            | exact hR.clear_overlay
            | exact hR.clear_plain
         · intro l0 hl0
           first
            | exact bind_remove_direction_related hR h _ _ hl0
            | (simp only [Option.some.injEq] at hl0; subst hl0; exact h))

theorem move_playing_cursor_frame (c : LevelContainer) (n d : Nat) :
    (c.move_playing_cursor n d).current_level = c.current_level
      ∧ (c.move_playing_cursor n d).selected_color = c.selected_color := by
  unfold LevelContainer.move_playing_cursor
  split_ifs <;> exact ⟨rfl, rfl⟩

theorem playing_cursor_move_either_related {R : Square → Square → Prop} (hR : Square.Stable R)
    {fresh : Level} {c c1 : LevelContainer} (new_idx gt cf : Nat) (vertical : Bool)
    (hadd : ∀ f s d, R f s → R f (s.add_direction_color d (c.selected_color % 256)))
    (h : Level.related R fresh c.current_level)
    (hu : c.playing_cursor_move_either new_idx gt cf vertical = some c1) :
    Level.related R fresh c1.current_level
      ∧ (c1.selected_color = c.selected_color ∨ c1.selected_color = 0) := by
  unfold LevelContainer.playing_cursor_move_either at hu
  split at hu
  · simp at hu
  · next cur hcur =>
    split_ifs at hu with hg hr
    · simp only [Option.some.injEq] at hu; subst hu; exact ⟨h, Or.inl rfl⟩
    · simp only [Option.map_eq_some'] at hu
      obtain ⟨l1, hl1, rfl⟩ := hu
      have := move_playing_cursor_frame { c with current_level := l1 } new_idx gt
      exact ⟨by simpa [this.1] using remove_single_connection_related hR h _ _ hl1,
        Or.inl (by simpa using this.2)⟩
    · split at hu
      · simp at hu
      · next tgt htgt =>
        split at hu
        · simp only [Option.some.injEq] at hu; subst hu; exact ⟨h, Or.inl rfl⟩
        · next completed remove_first hin =>
          simp only [Option.map_eq_some'] at hu
          obtain ⟨l3, hl3, rfl⟩ := hu
          have hrel3 : Level.related R fresh l3 := by
            simp only [Option.bind_eq_some] at hl3
            obtain ⟨l1, hl1, l2, hl2, hl3⟩ := hl3
            have hrel1 : Level.related R fresh l1 := by
              split_ifs at hl1
              · exact remove_single_connection_related hR h _ _ hl1
              · exact remove_single_connection_related hR h _ _ hl1
              · simp only [Option.some.injEq] at hl1; subst hl1; exact h
            exact update_related (fun f s => hadd f s _)
              (update_related (fun f s => hadd f s _) hrel1 hl2) hl3
          have := move_playing_cursor_frame { c with current_level := l3 } new_idx gt
          constructor
          · split_ifs <;> simpa [this.1] using hrel3
          · split_ifs
            · exact Or.inr rfl
            · exact Or.inl (by simpa using this.2)

theorem attemptMove_related {R : Square → Square → Prop} (hR : Square.Stable R)
    {fresh : Level} {c c1 : LevelContainer} (d : Dir)
    (hadd : ∀ f s d, R f s → R f (s.add_direction_color d (c.selected_color % 256)))
    (h : Level.related R fresh c.current_level)
    (hu : c.attemptMove d = some c1) :
    Level.related R fresh c1.current_level
      ∧ (c1.selected_color = c.selected_color ∨ c1.selected_color = 0) := by
  rw [attemptMove_eq] at hu
  simp only [Option.bind_eq_some] at hu
  obtain ⟨n, -, hstep⟩ := hu
  unfold LevelContainer.cursor_step at hstep
  split_ifs at hstep
  · simp only [Option.some.injEq] at hstep; subst hstep; exact ⟨h, Or.inl rfl⟩
  · exact playing_cursor_move_either_related hR _ _ _ _ hadd h hstep
  · simp only [Option.some.injEq] at hstep; subst hstep
    have := move_playing_cursor_frame c n d.mask
    exact ⟨by rw [this.1]; exact h, Or.inl this.2⟩

theorem saveable_stable : Square.Stable Square.saveable := by
  constructor
  · intro f s d h
    unfold Square.saveable Square.remove_direction at *
    obtain ⟨c, dd, w, ho, sr, b, od, oc⟩ := s
    cases b <;> simp_all
    split_ifs <;> simp_all
  · intro f s h
    unfold Square.saveable at *
    simp_all
  · intro f s h
    unfold Square.saveable at *
    simp_all
  · intro f s h
    unfold Square.saveable Square.is_source at *
    split_ifs <;> simp_all
  · intro f s h
    unfold Square.saveable Square.reset Square.is_connected Square.is_source at *
    obtain ⟨c, dd, w, ho, sr, b, od, oc⟩ := s
    cases b <;> simp_all <;> split_ifs <;> simp_all

theorem saveable_add (col : Nat) (hcol : col < 32) (f s : Square) (d : Nat)
    (h : Square.saveable f s) : Square.saveable f (s.add_direction_color d (col % 256)) := by
  have hc : col % 256 % 256 < 32 := by omega
  unfold Square.saveable Square.add_direction_color at *
  obtain ⟨c, dd, w, ho, sr, b, od, oc⟩ := s
  cases b <;> simp_all [Fin.ofNat]
  split_ifs <;> simp_all

theorem forall2_right {R : Square → Square → Prop} {fs ss : List Square}
    (h : List.Forall₂ R fs ss) : ∀ (i : Nat) (s : Square), ss[i]? = some s →
      ∃ f, fs[i]? = some f ∧ R f s := by
  induction h with
  | nil => intro i s hs; simp at hs
  | @cons f t fs ss hr _ ih =>
    intro i s hs
    cases i with
    | zero =>
      simp only [List.getElem?_cons_zero, Option.some.injEq] at hs
      subst hs
      exact ⟨f, by simp, hr⟩
    | succ i =>
      simp only [List.getElem?_cons_succ] at hs ⊢
      exact ih i s hs

theorem select_color_cases (c : LevelContainer) (s : Square) :
    select_color c s = c.selected_color ∨ select_color c s = s.color.val
      ∨ select_color c s = s.bridge_above_color.val := by
  unfold select_color
  split_ifs <;> simp

theorem apply_save_invariant {fresh : Level} {c c1 : LevelContainer} (i : Intent)
    (h : save_invariant fresh c) (hu : c.apply i = some c1) : save_invariant fresh c1 := by
  obtain ⟨hrel, hsel⟩ := h
  cases i with
  | move d =>
    have := attemptMove_related saveable_stable d
      (fun f s d => saveable_add c.selected_color hsel f s d) hrel hu
    refine ⟨this.1, ?_⟩
    rcases this.2 with e | e <;> rw [e] <;> omega
  | selectEndpoint =>
    simp only [LevelContainer.apply, LevelContainer.select_square] at hu
    split_ifs at hu
    · split at hu
      · simp at hu
      · next s hs =>
        simp only [Option.some.injEq] at hu
        subst hu
        refine ⟨hrel, ?_⟩
        obtain ⟨f, -, hf⟩ := forall2_right hrel.2.2.2.2 _ s hs
        have h6 := hf.2.2.2.2.2.1
        have h7 := hf.2.2.2.2.2.2
        rcases select_color_cases c s with e | e | e <;> simp only [e] <;> omega
    · simp only [Option.some.injEq] at hu
      subst hu
      exact ⟨hrel, by simp⟩
  | toggleOverlayLayer =>
    simp only [LevelContainer.apply, Option.some.injEq] at hu
    subst hu
    exact ⟨hrel, hsel⟩
  | resetBoard =>
    simp only [LevelContainer.apply, Option.some.injEq] at hu
    subst hu
    obtain ⟨h1, h2, h3, h4, h5⟩ := hrel
    refine ⟨⟨h1, h2, h3, h4, ?_⟩, by simp [LevelContainer.reset_level]⟩
    simp only [LevelContainer.reset_level, Level.reset_board]
    rw [List.forall₂_map_right_iff]
    exact h5.imp (fun _ _ hfs => saveable_stable.reset _ _ hfs)

theorem run_save_invariant {fresh : Level} (intents : List Intent) :
    ∀ {c c1 : LevelContainer}, save_invariant fresh c → c.run intents = some c1 →
      save_invariant fresh c1 := by
  induction intents with
  | nil =>
    intro c c1 h hu
    simp only [LevelContainer.run, Option.some.injEq] at hu
    subst hu; exact h
  | cons i rest ih =>
    intro c c1 h hu
    simp only [LevelContainer.run, Option.bind_eq_some] at hu
    obtain ⟨c2, h2, hrest⟩ := hu
    exact ih (apply_save_invariant i h h2) hrest

theorem mem_try_emplace {m : List (Nat × Nat)} {k v : Nat} {p : Nat × Nat}
    (h : p ∈ try_emplace m k v) : p ∈ m ∨ p = (k, v) := by
  unfold try_emplace at h
  split at h
  · exact Or.inl h
  · simpa using h

theorem read_sources_values (data : DataHolder) (cc : Nat) :
    ∀ p ∈ read_sources data cc, 1 ≤ p.2 ∧ p.2 ≤ cc := by
  unfold read_sources
  have key : ∀ (js : List Nat) (init : List (Nat × Nat)),
      (∀ j ∈ js, j < cc) → (∀ p ∈ init, 1 ≤ p.2 ∧ p.2 ≤ cc) →
      ∀ p ∈ js.foldl (fun sources j =>
          try_emplace (try_emplace sources (data.read_u16 (20 + 4 * j)) (j + 1))
            (data.read_u16 (20 + 4 * j + 2)) (j + 1)) init, 1 ≤ p.2 ∧ p.2 ≤ cc := by
    intro js
    induction js with
    | nil => intro init _ hinit p hp; exact hinit p hp
    | cons j js ih =>
      intro init hjs hinit p hp
      simp only [List.foldl_cons] at hp
      refine ih _ (fun x hx => hjs x (List.mem_cons_of_mem _ hx)) ?_ p hp
      intro q hq
      have hj := hjs j (List.mem_cons_self _ _)
      rcases mem_try_emplace hq with hq | rfl
      · rcases mem_try_emplace hq with hq | rfl
        · exact hinit q hq
        · simp only; omega
      · simp only; omega
  exact key _ [] (fun j hj => List.mem_range.mp hj) (by simp)

theorem lookup_mem {l : List (Nat × Nat)} {k v : Nat} (h : l.lookup k = some v) :
    (k, v) ∈ l := by
  induction l with
  | nil => simp at h
  | cons p l ih =>
    obtain ⟨a, b⟩ := p
    simp only [List.lookup_cons] at h
    split at h
    · next heq =>
      simp only [Option.some.injEq] at h
      have : k = a := by simpa using heq
      subst h; subst this
      exact List.mem_cons_self _ _
    · exact List.mem_cons_of_mem _ (ih h)

theorem build_squares_fresh (sources : List (Nat × Nat)) (bridges holes : List Nat)
    (walls : List WallInfo) :
    ∀ (n square_idx hole_idx bridge_idx wall_idx : Nat),
      ∀ s ∈ build_squares sources bridges holes walls n square_idx hole_idx bridge_idx wall_idx,
        s.direction = 0 ∧ s.bridge_above_direction = 0 ∧ s.bridge_above_color = 0
          ∧ (s.color = 0 ∨ ∃ k v, (k, v) ∈ sources ∧ s.color = Fin.ofNat v) := by
  intro n
  induction n with
  | zero => intro _ _ _ _ s hs; simp [build_squares] at hs
  | succ n ih =>
    intro square_idx hole_idx bridge_idx wall_idx s hs
    simp only [build_squares, List.mem_cons] at hs
    rcases hs with rfl | hs
    · split_ifs
      all_goals first
        | (refine ⟨rfl, rfl, rfl, Or.inl rfl⟩)
        | (split
           · next c hc => exact ⟨rfl, rfl, rfl, Or.inr ⟨_, c, lookup_mem hc, rfl⟩⟩
           · exact ⟨rfl, rfl, rfl, Or.inl rfl⟩)
    · exact ih _ _ _ _ s hs

theorem decode_saveable (data : DataHolder) (hcc : (Level.decode data).color_count ≤ 31) :
    ∀ s ∈ (Level.decode data).squares, Square.saveable s s := by
  intro s hs
  have hfresh : s.bridge_above_direction = 0 ∧ s.bridge_above_color = 0
      ∧ s.color.val ≤ data.byte 6 := by
    unfold Level.decode at hs
    simp only at hs
    split_ifs at hs
    · simp only [List.mem_replicate] at hs
      obtain ⟨-, rfl⟩ := hs
      exact ⟨rfl, rfl, by simp [Square.zero]⟩
    · obtain ⟨-, h2, h3, h4⟩ := build_squares_fresh _ _ _ _ _ _ _ _ _ s hs
      refine ⟨h2, h3, ?_⟩
      rcases h4 with h4 | ⟨k, v, hv, h4⟩
      · rw [h4]; simp
      · have := read_sources_values data _ _ hv
        rw [h4]
        simp only [Fin.ofNat]
        exact le_trans (Nat.mod_le _ _) this.2
  have hcc2 : data.byte 6 ≤ 31 := by
    unfold Level.decode at hcc
    simp only at hcc
    split_ifs at hcc <;> exact hcc
  obtain ⟨h1, h2, h3⟩ := hfresh
  refine ⟨rfl, rfl, rfl, rfl, fun _ => ⟨h1, h2, h1, h2⟩, by omega, by rw [h2]; simp⟩

theorem forall2_loads_as {fs ss : List Square} (h : List.Forall₂ Square.saveable fs ss) :
    (∀ (i : Nat) (s : Square), ss[i]? = some s → s.hole = true → fs[i]? = some s) →
      List.Forall₂ Square.loads_as fs ss := by
  induction h with
  | nil => intro _; exact List.Forall₂.nil
  | @cons f s fs ss hr _ ih =>
    intro hholes
    refine List.Forall₂.cons ⟨hr.2.1.symm, ?_, fun _ => hr⟩ (ih (fun i t ht hh => ?_))
    · intro hh
      have := hholes 0 s (by simp) hh
      simpa using this
    · have := hholes (i + 1) t (by simpa using ht) hh
      simpa using this

/-- C2, amended: for a level with at most 31 colors and every session
reached from the decoded level through `attemptMove`, `selectEndpoint`,
`toggleOverlayLayer` and `resetBoard` whose holes are still as decoded,
saving the level and loading the saved bytes into the decoded level gives
back the level of the session, equal in every member of every square.  The
bytes of the level buffer are taken to lie inside its owner. -/
theorem save_round_trip (data : DataHolder) (intents : List Intent) (c : LevelContainer)
    (_hin : data.reads_inside)
    (hcc : (Level.decode data).color_count ≤ 31)
    (hrun : (selected_level_to_play (Level.decode data)).run intents = some c)
    (hholes : ∀ (i : Nat) (s : Square), c.current_level.squares[i]? = some s → s.hole = true →
        (Level.decode data).squares[i]? = some s) :
    load_save_pack (words_to_bytes (save_words [c.current_level])) [Level.decode data] 0
      = [c.current_level] := by
  have inv0 : save_invariant (Level.decode data) (selected_level_to_play (Level.decode data)) :=
    ⟨⟨rfl, rfl, rfl, rfl, List.forall₂_same.mpr (decode_saveable data hcc)⟩, by
      simp [selected_level_to_play]⟩
  obtain ⟨⟨h1, h2, h3, h4, h5⟩, -⟩ := run_save_invariant intents inv0 hrun
  have hsq := load_save_squares_eq
    (subarea (words_to_bytes (save_words [c.current_level])) 0
      (2 * (Level.decode data).squares.length))
    _ _ (forall2_loads_as h5 hholes) 0 (fun k s hk => by
      rw [Nat.zero_add]
      refine read_u16_words _ _ k _ ?_ (pack_into_lt s)
      simp [save_words, List.getElem?_map, hk])
  simp only [load_save_pack, Level.load_save, hsq, List.cons.injEq, and_true]
  rw [← h1, ← h2, ← h3, ← h4]

/-- C2, as stated, fails: on the level of `hole_level_bytes` the move east
from the selected source writes a connection into the hole, which `load_save`
skips; and the level of `many_colors_bytes` has sources of color 32, whose
color does not fit the five bits of the save word, so that already the
decoded level is not restored. -/
theorem save_round_trip_fails :
    (((selected_level_to_play (Level.decode (subarea hole_level_bytes 0 26))).run
        [.selectEndpoint, .move .east]).map
      (fun c => decide (load_save_pack (words_to_bytes (save_words [c.current_level]))
          [Level.decode (subarea hole_level_bytes 0 26)] 0 = [c.current_level]))) = some false
    ∧ load_save_pack
        (words_to_bytes (save_words [Level.decode (subarea many_colors_bytes 0 148)]))
        [Level.decode (subarea many_colors_bytes 0 148)] 0
      ≠ [Level.decode (subarea many_colors_bytes 0 148)] := by
  decide

/-- Witness of the amended C2: `row_level` after drawing one step. -/
theorem save_round_trip_witness :
    (subarea row_level_bytes 0 24).reads_inside
    ∧ (Level.decode (subarea row_level_bytes 0 24)).color_count ≤ 31
    ∧ (selected_level_to_play (Level.decode (subarea row_level_bytes 0 24))).run
        [.move .east, .selectEndpoint, .move .east] = some row_drawn_state
    ∧ load_save_pack (words_to_bytes (save_words [row_drawn_state.current_level]))
        [Level.decode (subarea row_level_bytes 0 24)] 0 = [row_drawn_state.current_level] :=
  ⟨by decide, by decide, by decide,
    save_round_trip (subarea row_level_bytes 0 24) [.move .east, .selectEndpoint, .move .east]
      row_drawn_state (by decide) (by decide) (by decide) (fun i s hs hh => by
        have hmem : s ∈ row_drawn_state.current_level.squares := List.getElem?_mem hs
        have hall : ∀ t ∈ row_drawn_state.current_level.squares, t.hole = false := by decide
        rw [hall s hmem] at hh
        exact absurd hh (by decide))⟩

/-! ### Edge symmetry -/

theorem has_connection_remove_direction (s : Square) (D d : Dir) :
    (s.remove_direction D.mask).has_connection d = (s.has_connection d && d != D) := by
  obtain ⟨c, dir, w, ho, sr, b, od, oc⟩ := s
  cases b <;> cases D <;> cases d <;>
    simp only [Square.has_connection, Square.remove_direction, Dir.mask, DIR_NORTH, DIR_EAST,
      DIR_SOUTH, DIR_WEST, Bool.false_and, Bool.true_and, Bool.false_eq_true, if_false, if_true,
      beq_self_eq_true, reduceCtorEq, beq_iff_eq, Nat.reduceEqDiff,
      bne_self_eq_false, Bool.and_false, Bool.and_true, Nat.reduceBEq] <;>
    (revert dir od; decide)

theorem has_connection_add (s : Square) (D d : Dir) (col : Nat) :
    (s.add_direction_color D.mask col).has_connection d = (s.has_connection d || d == D) := by
  obtain ⟨c, dir, w, ho, sr, b, od, oc⟩ := s
  cases b <;> cases D <;> cases d <;>
    simp only [Square.has_connection, Square.add_direction_color, Dir.mask, DIR_NORTH, DIR_EAST,
      DIR_SOUTH, DIR_WEST, Bool.false_and, Bool.true_and, Bool.false_eq_true, if_false, if_true,
      beq_self_eq_true, reduceCtorEq, beq_iff_eq, Nat.reduceEqDiff,
      bne_self_eq_false, Bool.and_false, Bool.and_true, Nat.reduceBEq, Bool.or_false,
      Bool.or_true] <;>
    (revert dir od; decide)

theorem has_connection_clear_layer (s : Square) (bv : Bool) (d : Dir) :
    (Square.clear_layer s.bridge bv s).has_connection d
      = (s.has_connection d && !Square.layer s.bridge bv d) := by
  obtain ⟨c, dir, w, ho, sr, b, od, oc⟩ := s
  cases b <;> cases bv <;> cases d <;> cases sr <;>
    simp only [Square.has_connection, Square.clear_layer, Square.layer, Square.is_source,
      Dir.vertical, Dir.mask, DIR_NORTH, DIR_EAST,
      DIR_SOUTH, DIR_WEST, Bool.false_and, Bool.true_and, Bool.false_eq_true, if_false, if_true,
      beq_self_eq_true, reduceCtorEq, beq_iff_eq, Nat.reduceEqDiff, Bool.not_true, Bool.not_false,
      bne_self_eq_false, Bool.and_false, Bool.and_true, Nat.reduceBEq, Bool.or_false,
      Bool.or_true] <;>
    (revert dir od; decide)

theorem first_connection_some (s : Square) (bv : Bool) (D : Dir)
    (h : s.first_connection bv = some D) :
    s.has_connection D = true ∧ Square.layer s.bridge bv D = true := by
  obtain ⟨c, dir, w, ho, sr, b, od, oc⟩ := s
  cases b <;> cases bv <;> cases D <;> revert h <;>
    dsimp only [Square.has_connection, Square.first_connection, Square.layer,
      Dir.vertical, Dir.mask, DIR_NORTH, DIR_EAST, DIR_SOUTH, DIR_WEST] <;>
    simp only [Bool.false_and, Bool.true_and, Bool.false_eq_true, if_false, if_true,
      beq_self_eq_true, reduceCtorEq, beq_iff_eq, Nat.reduceEqDiff, Bool.not_true, Bool.not_false,
      bne_self_eq_false, Bool.and_false, Bool.and_true, Nat.reduceBEq, Bool.or_false,
      Bool.or_true] <;>
    (revert dir od; decide)

theorem first_connection_none (s : Square) (bv : Bool) (d : Dir)
    (h : s.first_connection bv = none) (hl : Square.layer s.bridge bv d = true) :
    s.has_connection d = false := by
  obtain ⟨c, dir, w, ho, sr, b, od, oc⟩ := s
  cases b <;> cases bv <;> cases d <;> revert h hl <;>
    dsimp only [Square.has_connection, Square.first_connection, Square.layer,
      Dir.vertical, Dir.mask, DIR_NORTH, DIR_EAST, DIR_SOUTH, DIR_WEST] <;>
    simp only [Bool.false_and, Bool.true_and, Bool.false_eq_true, if_false, if_true,
      beq_self_eq_true, reduceCtorEq, beq_iff_eq, Nat.reduceEqDiff, Bool.not_true, Bool.not_false,
      bne_self_eq_false, Bool.and_false, Bool.and_true, Nat.reduceBEq, Bool.or_false,
      Bool.or_true] <;>
    (revert dir od; decide)

theorem first_connection_unique (s : Square) (bv : Bool) (D d : Dir)
    (hp : s.layer_at_most_one bv) (h : s.first_connection bv = some D)
    (hl : Square.layer s.bridge bv d = true) (hc : s.has_connection d = true) : d = D := by
  obtain ⟨c, dir, w, ho, sr, b, od, oc⟩ := s
  cases b <;> cases bv <;> cases d <;> cases D <;> revert hp h hl hc <;>
    dsimp only [Square.has_connection, Square.first_connection, Square.layer,
      Square.layer_at_most_one, Square.connection_count, Square.bridge_above_conn_count,
      Dir.vertical, Dir.mask, DIR_NORTH, DIR_EAST, DIR_SOUTH, DIR_WEST] <;>
    simp only [Bool.false_and, Bool.true_and, Bool.false_eq_true, if_false, if_true,
      beq_self_eq_true, reduceCtorEq, beq_iff_eq, Nat.reduceEqDiff, Bool.not_true, Bool.not_false,
      bne_self_eq_false, Bool.and_false, Bool.and_true, Nat.reduceBEq, Bool.or_false,
      Bool.or_true] <;>
    (revert dir od; decide)

theorem returns_early_no_connection (s : Square) (d : Dir)
    (h : s.returns_early = true) : s.has_connection d = false := by
  obtain ⟨c, dir, w, ho, sr, b, od, oc⟩ := s
  cases b <;> cases d <;> revert h <;>
    dsimp only [Square.has_connection, Square.returns_early, Square.is_connected,
      Dir.vertical, Dir.mask, DIR_NORTH, DIR_EAST, DIR_SOUTH, DIR_WEST] <;>
    simp only [Bool.false_and, Bool.true_and, Bool.false_eq_true, if_false, if_true,
      beq_self_eq_true, reduceCtorEq, beq_iff_eq, Nat.reduceEqDiff, Bool.not_true, Bool.not_false,
      bne_self_eq_false, Bool.and_false, Bool.and_true, Nat.reduceBEq, Bool.or_false,
      Bool.or_true] <;>
    (revert dir od; decide)

theorem torus_step {a m : Nat} (h : a < m) :
    ((a + m - 1) % m + 1) % m = a ∧ ((a + 1) % m + m - 1) % m = a
      ∧ (a + m - 1) % m < m ∧ (a + 1) % m < m := by
  have hm : 0 < m := by omega
  refine ⟨?_, ?_, Nat.mod_lt _ hm, Nat.mod_lt _ hm⟩
  · rcases Nat.eq_zero_or_pos a with h0 | h0
    · subst h0
      rw [Nat.zero_add, Nat.mod_eq_of_lt (by omega : m - 1 < m)]
      have : m - 1 + 1 = m := by omega
      rw [this, Nat.mod_self]
    · have : a + m - 1 = (a - 1) + m := by omega
      rw [this, Nat.add_mod_right, Nat.mod_eq_of_lt (by omega : a - 1 < m)]
      have : a - 1 + 1 = a := by omega
      rw [this, Nat.mod_eq_of_lt h]
  · by_cases h1 : a + 1 = m
    · rw [h1, Nat.mod_self, Nat.zero_add, Nat.mod_eq_of_lt (by omega : m - 1 < m)]
      omega
    · rw [Nat.mod_eq_of_lt (by omega : a + 1 < m)]
      have : a + 1 + m - 1 = a + m := by omega
      rw [this, Nat.add_mod_right, Nat.mod_eq_of_lt h]

theorem row_col {w r c : Nat} (hc : c < w) : (r * w + c) / w = r ∧ (r * w + c) % w = c := by
  have hw : 0 < w := by omega
  constructor
  · rw [Nat.add_comm, Nat.add_mul_div_right _ _ hw, Nat.div_eq_of_lt hc, Nat.zero_add]
  · rw [Nat.add_comm, Nat.add_mul_mod_self_right, Nat.mod_eq_of_lt hc]

theorem row_col_lt {w h r c : Nat} (hr : r < h) (hc : c < w) : r * w + c < w * h := by
  have : (r + 1) * w ≤ h * w := Nat.mul_le_mul_right w hr
  rw [Nat.add_mul, Nat.one_mul] at this
  rw [Nat.mul_comm w h]
  omega

theorem free_target_lt (l : Level) (hwf : l.well_formed) (idx : Nat)
    (hidx : idx < l.squares.length) (d : Dir) : free_target l idx d < l.squares.length := by
  obtain ⟨hw, hh, hn⟩ := hwf
  obtain ⟨hwpos, hhpos, -, -, hc, hr, -⟩ := grid_facts hw hh hn hidx
  rw [hn]
  cases d <;> simp only [free_target]
  · exact row_col_lt (torus_step hr).2.2.1 hc
  · exact row_col_lt hr (torus_step hc).2.2.2
  · exact row_col_lt (torus_step hr).2.2.2 hc
  · exact row_col_lt hr (torus_step hc).2.2.1

theorem free_target_opp (l : Level) (hwf : l.well_formed) (idx : Nat)
    (hidx : idx < l.squares.length) (d : Dir) :
    free_target l (free_target l idx d) d.opp = idx := by
  obtain ⟨hw, hh, hn⟩ := hwf
  obtain ⟨hwpos, hhpos, -, hdm, hc, hr, -⟩ := grid_facts hw hh hn hidx
  have hdm2 : idx / l.width * l.width + idx % l.width = idx := by
    rw [Nat.mul_comm]; exact hdm
  cases d <;> simp only [free_target, Dir.opp]
  · obtain ⟨e1, e2⟩ := row_col (r := (idx / l.width + l.height - 1) % l.height) hc
    rw [e1, e2, (torus_step hr).1, hdm2]
  · obtain ⟨e1, e2⟩ := row_col (r := idx / l.width) (torus_step hc).2.2.2
    rw [e1, e2, (torus_step hc).2.1, hdm2]
  · obtain ⟨e1, e2⟩ := row_col (r := (idx / l.width + 1) % l.height) hc
    rw [e1, e2, (torus_step hr).2.1, hdm2]
  · obtain ⟨e1, e2⟩ := row_col (r := idx / l.width) (torus_step hc).2.2.1
    rw [e1, e2, (torus_step hc).1, hdm2]

/-- C1, as stated, fails: in `one_sided_wall_state` the board is edge
symmetric; the move east into index 4 displaces the connection of that
square toward index 1, but `remove_single_connection` resolves the neighbour
with the walls checked, the wall north of index 4 sends it back to index 4
itself, and index 1 keeps its connection south with nothing to match it. -/
theorem attemptMove_breaks_edge_symmetry :
    one_sided_wall_state.map (fun c => decide c.current_level.edge_symmetric) = some true
    ∧ (one_sided_wall_state.bind (fun c => c.attemptMove .east)).map
        (fun c => decide c.current_level.edge_symmetric) = some false := by
  decide

theorem same_frame_stable : Square.Stable Square.same_frame := by
  constructor
  · intro f s d h
    unfold Square.same_frame Square.remove_direction at *
    split_ifs <;> exact h
  · intro f s h; exact h
  · intro f s h; exact h
  · intro f s h
    unfold Square.same_frame at *
    split_ifs <;> exact h
  · intro f s h
    unfold Square.same_frame Square.reset at *
    simp only
    split_ifs <;> exact h

theorem same_frame_add (f s : Square) (d col : Nat) (h : Square.same_frame f s) :
    Square.same_frame f (s.add_direction_color d col) := by
  unfold Square.same_frame Square.add_direction_color at *
  split_ifs <;> exact h

theorem related_refl (l : Level) : Level.related Square.same_frame l l :=
  ⟨rfl, rfl, rfl, rfl, List.forall₂_same.mpr (fun _ _ => ⟨rfl, rfl⟩)⟩

theorem forall2_left {R : Square → Square → Prop} {fs ss : List Square}
    (h : List.Forall₂ R fs ss) : ∀ (i : Nat) (f : Square), fs[i]? = some f →
      ∃ s, ss[i]? = some s ∧ R f s := by
  induction h with
  | nil => intro i s hs; simp at hs
  | @cons f t fs ss hr _ ih =>
    intro i s hs
    cases i with
    | zero =>
      simp only [List.getElem?_cons_zero, Option.some.injEq] at hs
      subst hs
      exact ⟨t, by simp, hr⟩
    | succ i =>
      simp only [List.getElem?_cons_succ] at hs ⊢
      exact ih i s hs

theorem related_frame {l l1 : Level} (h : Level.related Square.same_frame l l1) :
    l1.squares.length = l.squares.length
      ∧ (∀ i d, l1.wall i d = l.wall i d)
      ∧ (∀ i d, l1.adjacent i d = l.adjacent i d)
      ∧ (∀ i d, free_target l1 i d = free_target l i d)
      ∧ (∀ (i : Nat) (s1 : Square), l1.squares[i]? = some s1 →
          ∃ s, l.squares[i]? = some s ∧ s1.bridge = s.bridge) := by
  obtain ⟨h1, h2, h3, h4, h5⟩ := h
  have hlen := h5.length_eq
  have hft : ∀ i d, free_target l1 i d = free_target l i d := by
    intro i d; cases d <;> simp only [free_target, h1, h2]
  refine ⟨hlen.symm, ?_, ?_, hft, ?_⟩
  · intro i d
    unfold Level.wall
    cases hs : l.squares[i]? with
    | none =>
      have : l1.squares[i]? = none := by
        rw [List.getElem?_eq_none_iff] at hs ⊢; omega
      rw [this]
    | some s =>
      obtain ⟨s1, hs1, hr⟩ := forall2_left h5 i s hs
      rw [hs1]; simp only [hr.1]
  · intro i d
    unfold Level.adjacent
    rw [hft, h4]
    cases d <;> simp only [Level.on_edge, h1, h2]
  · intro i s1 hs1
    obtain ⟨s, hs, hr⟩ := forall2_right h5 i s1 hs1
    exact ⟨s, hs, hr.2⟩

theorem update_some {l : Level} {idx : Nat} {s : Square} (g : Square → Square)
    (hs : l.squares[idx]? = some s) :
    l.update idx g = some { l with squares := l.squares.set idx (g s) } := by
  simp [Level.update, hs]

theorem update_squares {l l1 : Level} {idx : Nat} {g : Square → Square}
    (hu : l.update idx g = some l1) (i : Nat) :
    l1.squares[i]? = if i = idx then (l.squares[idx]?).map g else l.squares[i]? := by
  unfold Level.update at hu
  split at hu
  · next s hs =>
    simp only [Option.some.injEq] at hu
    subst hu
    have hlt : idx < l.squares.length := by
      by_contra hcon
      rw [List.getElem?_eq_none_iff.mpr (by omega)] at hs
      exact absurd hs (by simp)
    simp only [List.getElem?_set, hs, Option.map_some']
    by_cases hi : i = idx
    · subst hi; simp [hlt]
    · have : ¬ idx = i := fun e => hi e.symm
      simp [hi, this]
  · simp at hu

theorem conn_update_of_remove {l l1 : Level} {idx : Nat} {g : Square → Square}
    (rm : Dir → Bool) (hu : l.update idx g = some l1)
    (hg : ∀ s, l.squares[idx]? = some s →
      ∀ d, (g s).has_connection d = (s.has_connection d && !rm d)) :
    ∀ i d, l1.conn i d = (l.conn i d && !(decide (i = idx) && rm d)) := by
  intro i d
  unfold Level.conn
  rw [update_squares hu i]
  by_cases hi : i = idx
  · subst hi
    cases hs : l.squares[i]? with
    | none => simp
    | some s => simp [hg s hs d]
  · simp [hi]

theorem conn_update_of_add {l l1 : Level} {idx : Nat} {g : Square → Square}
    (D : Dir) (hu : l.update idx g = some l1)
    (hg : ∀ s, l.squares[idx]? = some s →
      ∀ d, (g s).has_connection d = (s.has_connection d || d == D)) :
    ∀ i d, l1.conn i d = (l.conn i d || (decide (i = idx) && d == D)) := by
  intro i d
  have hex : ∃ s, l.squares[idx]? = some s := by
    unfold Level.update at hu
    split at hu
    · next s hs => exact ⟨s, hs⟩
    · simp at hu
  obtain ⟨s, hs⟩ := hex
  unfold Level.conn
  rw [update_squares hu i]
  by_cases hi : i = idx
  · subst hi
    simp [hs, hg s hs d]
  · simp [hi]

theorem remove_single_connection_eq (l : Level) (idx : Nat) (bv : Bool) (s : Square)
    (hs : l.squares[idx]? = some s) :
    l.remove_single_connection idx bv =
      if s.returns_early then some l
      else ((match s.first_connection bv with
            | some D => (l.move_idx_checked D idx).bind
                (fun n => l.remove_direction n D.opp.mask)
            | none => some l).bind
          (fun l1 => l1.update idx (Square.clear_layer s.bridge bv))) := by
  simp only [Level.remove_single_connection, hs, Square.returns_early, Square.first_connection,
    Square.clear_layer, Level.move_idx_checked, Dir.opp, Dir.mask]
  cases hb : s.bridge <;> cases bv <;> simp only [Bool.false_eq_true, if_false, if_true] <;>
    split_ifs <;> rfl

theorem wall_eq {l : Level} {idx : Nat} {s : Square} (hs : l.squares[idx]? = some s) (d : Dir) :
    l.wall idx d = (s.walls.val &&& d.mask != 0) := by
  simp [Level.wall, hs]

theorem conn_eq {l : Level} {idx : Nat} {s : Square} (hs : l.squares[idx]? = some s) (d : Dir) :
    l.conn idx d = s.has_connection d := by
  simp [Level.conn, hs]

theorem move_idx_checked_of_no_wall (l : Level) (hwf : l.well_formed) (hwalls : l.walls_closed)
    (idx : Nat) (hidx : idx < l.squares.length) (d : Dir) (hw : l.wall idx d = false) :
    l.move_idx_checked d idx true = some (free_target l idx d)
      ∧ l.adjacent idx d = some (free_target l idx d)
      ∧ l.wall (free_target l idx d) d.opp = false := by
  have hcl := hwalls idx hidx d
  have hadj : l.adjacent idx d = some (free_target l idx d) := by
    unfold Level.adjacent at hcl ⊢
    split_ifs at hcl ⊢ with he
    · simp only [hw] at hcl; exact absurd hcl (by simp)
    · rfl
  rw [hadj] at hcl
  simp only [hw, beq_iff_eq] at hcl
  refine ⟨?_, hadj, hcl⟩
  have hedge : l.warp = true ∨ l.on_edge idx d = false := by
    unfold Level.adjacent at hadj
    split_ifs at hadj with he
    simp only [Bool.and_eq_true, Bool.not_eq_true', not_and, Bool.not_eq_true] at he
    cases hwp : l.warp
    · exact Or.inr (he hwp)
    · exact Or.inl rfl
  obtain ⟨s, hs⟩ : ∃ s, l.squares[idx]? = some s := ⟨_, List.getElem?_eq_getElem hidx⟩
  have hwb : ∀ m, m = d.mask → l.wall_blocks idx m true = some false := by
    intro m hm
    rw [wall_eq hs] at hw
    simp only [Level.wall_blocks, hs, if_true, hm, hw]
  obtain ⟨hw8, hh8, hn⟩ := hwf
  obtain ⟨hwpos, -⟩ := grid_facts hw8 hh8 hn hidx
  have hw0 : l.width ≠ 0 := by omega
  cases d
  · have := free_north hw8 hh8 hn hidx
    simp only [Level.move_idx_checked, Level.move_idx_up_checked, hwb DIR_NORTH rfl,
      Level.square_is_top_row, Level.move_idx_up, free_target, Bool.not_true, Bool.or_false,
      Bool.and_eq_true, decide_eq_true_eq] at this ⊢
    simp only [Level.on_edge, decide_eq_false_iff_not] at hedge
    rcases hedge with hwp | hne
    · simp only [hwp, true_and]
      split_ifs at this ⊢ <;> rw [this]
    · rw [if_neg hne] at this
      rw [if_neg (fun hc => hne hc.2), this]
  · have := free_east hw8 hh8 hn hidx
    simp only [Level.move_idx_checked, Level.move_idx_right_checked, hwb DIR_EAST rfl,
      Level.square_is_right_column, Level.move_idx_right, free_target, Bool.not_true,
      Bool.or_false, hw0, if_false] at this ⊢
    simp only [Level.on_edge, beq_eq_false_iff_ne, ne_eq] at hedge
    rcases hedge with hwp | hne
    · simp only [hwp, if_true]
      split_ifs at this with hl
      · rw [beq_iff_eq.mpr hl, this]
      · rw [beq_eq_false_iff_ne.mpr hl, this]
    · rw [if_neg hne] at this
      by_cases hwp : l.warp = true
      · simp only [hwp, if_true]
        rw [beq_eq_false_iff_ne.mpr hne, this]
      · simp only [hwp, Bool.false_eq_true, if_false, this]
  · have := free_south hw8 hh8 hn hidx
    simp only [Level.move_idx_checked, Level.move_idx_down_checked, hwb DIR_SOUTH rfl,
      Level.square_is_bottom_row, Level.move_idx_down, free_target, Bool.not_true, Bool.or_false,
      Bool.and_eq_true, decide_eq_true_eq] at this ⊢
    simp only [Level.on_edge, decide_eq_false_iff_not] at hedge
    rcases hedge with hwp | hne
    · simp only [hwp, true_and]
      split_ifs at this ⊢ <;> rw [this]
    · rw [if_neg hne] at this
      rw [if_neg (fun hc => hne hc.2), this]
  · have := free_west hw8 hh8 hn hidx
    simp only [Level.move_idx_checked, Level.move_idx_left_checked, hwb DIR_WEST rfl,
      Level.square_is_left_column, Level.move_idx_left, free_target, Bool.not_true,
      Bool.or_false, hw0, if_false] at this ⊢
    simp only [Level.on_edge, beq_eq_false_iff_ne, ne_eq] at hedge
    rcases hedge with hwp | hne
    · simp only [hwp, if_true]
      split_ifs at this with hl
      · rw [beq_iff_eq.mpr hl, this]
      · rw [beq_eq_false_iff_ne.mpr hl, this]
    · rw [if_neg hne] at this
      by_cases hwp : l.warp = true
      · simp only [hwp, if_true]
        rw [beq_eq_false_iff_ne.mpr hne, this]
      · simp only [hwp, Bool.false_eq_true, if_false, this]

theorem update_exists {l : Level} {idx : Nat} (g : Square → Square)
    (hidx : idx < l.squares.length) : ∃ l1, l.update idx g = some l1 :=
  ⟨_, update_some g (List.getElem?_eq_getElem hidx)⟩

theorem remove_single_connection_spec (l : Level) (hwf : l.well_formed)
    (hwalls : l.walls_closed) (hcross : l.no_wall_crossed) (idx : Nat) (s : Square)
    (hs : l.squares[idx]? = some s) (bv : Bool) :
    ∃ l1, l.remove_single_connection idx bv = some l1
      ∧ ∀ i d, l1.conn i d = (l.conn i d && !l.removed_by idx s bv i d) := by
  have hidx : idx < l.squares.length := by
    by_contra hcon
    rw [List.getElem?_eq_none_iff.mpr (by omega)] at hs
    exact absurd hs (by simp)
  rw [remove_single_connection_eq l idx bv s hs]
  by_cases hearly : s.returns_early = true
  · refine ⟨l, by rw [if_pos hearly], ?_⟩
    intro i d
    have hnone : s.first_connection bv = none := by
      cases hfc : s.first_connection bv with
      | none => rfl
      | some D =>
        have := (first_connection_some s bv D hfc).1
        rw [returns_early_no_connection s D hearly] at this
        exact absurd this (by simp)
    simp only [Level.removed_by, hnone, Bool.or_false]
    by_cases hi : i = idx
    · subst hi
      rw [conn_eq hs, returns_early_no_connection s d hearly]
      simp
    · simp [hi]
  · rw [if_neg hearly]
    cases hfc : s.first_connection bv with
    | none =>
      obtain ⟨l1, hl1⟩ := update_exists (Square.clear_layer s.bridge bv) hidx
      refine ⟨l1, by simpa using hl1, ?_⟩
      intro i d
      rw [conn_update_of_remove (Square.layer s.bridge bv) hl1 (fun t ht d => by
        have : t = s := by rw [hs] at ht; exact (Option.some.inj ht).symm
        subst this
        exact has_connection_clear_layer t bv d) i d]
      simp [Level.removed_by, hfc]
    | some D =>
      obtain ⟨hcD, hlD⟩ := first_connection_some s bv D hfc
      have hwD : l.wall idx D = false := hcross idx hidx D (by rw [conn_eq hs]; exact hcD)
      obtain ⟨hmove, -, -⟩ := move_idx_checked_of_no_wall l hwf hwalls idx hidx D hwD
      have hn := free_target_lt l hwf idx hidx D
      obtain ⟨l0, hl0⟩ := update_exists (l := l) (fun t => t.remove_direction D.opp.mask) hn
      have hrel0 : Level.related Square.same_frame l l0 :=
        update_related (fun f t h => same_frame_stable.remove_direction f t _ h)
          (related_refl l) hl0
      obtain ⟨hlen0, -, -, -, hbr0⟩ := related_frame hrel0
      obtain ⟨l1, hl1⟩ := update_exists (l := l0) (Square.clear_layer s.bridge bv)
        (by rw [hlen0]; exact hidx)
      refine ⟨l1, by simp [hmove, Level.remove_direction, hl0, hl1], ?_⟩
      intro i d
      rw [conn_update_of_remove (Square.layer s.bridge bv) hl1 (fun t ht d => by
        obtain ⟨t0, ht0, hb⟩ := hbr0 idx t ht
        have : t0 = s := by rw [hs] at ht0; exact (Option.some.inj ht0).symm
        subst this
        rw [← hb]
        exact has_connection_clear_layer t bv d) i d]
      rw [conn_update_of_remove (fun d => d == D.opp) hl0 (fun t _ d => by
        rw [has_connection_remove_direction]
        cases d <;> cases D <;> rfl) i d]
      simp only [Level.removed_by, hfc]
      cases l.conn i d <;> cases decide (i = idx) <;> cases decide (i = free_target l idx D)
        <;> cases (d == D.opp) <;> cases Square.layer s.bridge bv d <;> rfl

theorem Dir.opp_opp (d : Dir) : d.opp.opp = d := by cases d <;> rfl

theorem adjacent_eq_some {l : Level} {i m : Nat} {d : Dir} (h : l.adjacent i d = some m) :
    m = free_target l i d := by
  unfold Level.adjacent at h
  split_ifs at h
  exact (Option.some.inj h).symm

theorem related_frame_transfer {l l1 : Level} (h : Level.related Square.same_frame l l1) :
    (l.well_formed → l1.well_formed) ∧ (l.walls_closed → l1.walls_closed) := by
  obtain ⟨hlen, hwall, hadj, -, -⟩ := related_frame h
  obtain ⟨h1, h2, -, -, -⟩ := h
  constructor
  · rintro ⟨a, b, c⟩
    exact ⟨by rw [h1]; exact a, by rw [h2]; exact b, by rw [hlen, h1, h2]; exact c⟩
  · intro hw idx hidx d
    have := hw idx (by rw [← hlen]; exact hidx) d
    rw [hadj, hwall]
    cases hm : l.adjacent idx d with
    | none => rw [hm] at this; exact this
    | some m => rw [hm] at this; simp only [hwall]; exact this

theorem edge_symmetric_of_removal (l l1 : Level) (hwf : l.well_formed)
    (hrel : Level.related Square.same_frame l l1)
    (idx : Nat) (s : Square) (bv : Bool) (hs : l.squares[idx]? = some s)
    (hp : s.layer_at_most_one bv)
    (hconn : ∀ i d, l1.conn i d = (l.conn i d && !l.removed_by idx s bv i d))
    (hsym : l.edge_symmetric) (hcross : l.no_wall_crossed) :
    l1.edge_symmetric ∧ l1.no_wall_crossed := by
  obtain ⟨hlen, hwall, hadj, -, -⟩ := related_frame hrel
  constructor
  · intro i hi d hc
    rw [hconn] at hc
    simp only [Bool.and_eq_true, Bool.not_eq_true'] at hc
    obtain ⟨hci, hri⟩ := hc
    have hil : i < l.squares.length := by rw [← hlen]; exact hi
    have hback := hsym i hil d hci
    unfold Level.conn_back at hback ⊢
    rw [hadj]
    cases hm : l.adjacent i d with
    | none => rw [hm] at hback; exact absurd hback (by simp)
    | some m =>
      rw [hm] at hback
      simp only at hback ⊢
      have hmft := adjacent_eq_some hm
      rw [hconn, hback, Bool.true_and, Bool.not_eq_true']
      by_contra hrm
      simp only [Bool.not_eq_false] at hrm
      have hinv := free_target_opp l hwf i hil d
      rw [← hmft] at hinv
      unfold Level.removed_by at hrm hri
      simp only [Bool.or_eq_true, Bool.and_eq_true, decide_eq_true_eq] at hrm
      rcases hrm with ⟨hmi, hlay⟩ | hrm
      · subst hmi
        rw [conn_eq hs] at hback
        cases hfc : s.first_connection bv with
        | none =>
          rw [first_connection_none s bv d.opp hfc hlay] at hback
          exact absurd hback (by simp)
        | some D =>
          have hD := first_connection_unique s bv D d.opp hp hfc hlay hback
          rw [hfc] at hri
          subst hD
          simp [hinv, Dir.opp_opp] at hri
      · cases hfc : s.first_connection bv with
        | none => rw [hfc] at hrm; exact absurd hrm (by simp)
        | some D =>
          rw [hfc] at hrm hri
          simp only [Bool.and_eq_true, decide_eq_true_eq, beq_iff_eq] at hrm
          obtain ⟨hmD, hdD⟩ := hrm
          have hdeq : d = D := by
            have := congrArg Dir.opp hdD
            rwa [Dir.opp_opp, Dir.opp_opp] at this
          subst hdeq
          have hidx : idx < l.squares.length := by
            by_contra hcon
            rw [List.getElem?_eq_none_iff.mpr (by omega)] at hs
            exact absurd hs (by simp)
          have hinv2 := free_target_opp l hwf idx hidx d
          rw [← hmD, hinv] at hinv2
          have hlay := (first_connection_some s bv d hfc).2
          simp [hinv2, hlay] at hri
  · intro i hi d hc
    rw [hconn] at hc
    simp only [Bool.and_eq_true] at hc
    rw [hwall]
    exact hcross i (by rw [← hlen]; exact hi) d hc.1

theorem edge_symmetric_of_add (l l3 : Level) (hwf : l.well_formed) (hwalls : l.walls_closed)
    (hrel : Level.related Square.same_frame l l3) (C : Nat) (D : Dir)
    (hC : C < l.squares.length) (hwall : l.wall C D = false)
    (hconn : ∀ i d, l3.conn i d
      = (l.conn i d || (decide (i = free_target l C D) && d == D.opp)
          || (decide (i = C) && d == D)))
    (hsym : l.edge_symmetric) (hcross : l.no_wall_crossed) :
    l3.edge_symmetric ∧ l3.no_wall_crossed := by
  obtain ⟨hlen, hwall3, hadj, -, -⟩ := related_frame hrel
  obtain ⟨-, hadjC, hwT⟩ := move_idx_checked_of_no_wall l hwf hwalls C hC D hwall
  have hT := free_target_lt l hwf C hC D
  obtain ⟨-, hadjT, -⟩ :=
    move_idx_checked_of_no_wall l hwf hwalls (free_target l C D) hT D.opp hwT
  rw [free_target_opp l hwf C hC D] at hadjT
  constructor
  · intro i hi d hc
    rw [hconn] at hc
    simp only [Bool.or_eq_true, Bool.and_eq_true, decide_eq_true_eq, beq_iff_eq] at hc
    unfold Level.conn_back
    rw [hadj]
    rcases hc with (hc | ⟨hiT, hd⟩) | ⟨hiC, hd⟩
    · have hback := hsym i (by rw [← hlen]; exact hi) d hc
      unfold Level.conn_back at hback
      cases hm : l.adjacent i d with
      | none => rw [hm] at hback; exact absurd hback (by simp)
      | some m =>
        rw [hm] at hback
        simp only at hback ⊢
        rw [hconn, hback]; simp
    · subst hiT; subst hd
      rw [hadjT]
      simp only
      rw [hconn]; simp [Dir.opp_opp]
    · subst hiC; subst hd
      rw [hadjC]
      simp only
      rw [hconn]; simp
  · intro i hi d hc
    rw [hconn] at hc
    simp only [Bool.or_eq_true, Bool.and_eq_true, decide_eq_true_eq, beq_iff_eq] at hc
    rw [hwall3]
    rcases hc with (hc | ⟨hiT, hd⟩) | ⟨hiC, hd⟩
    · exact hcross i (by rw [← hlen]; exact hi) d hc
    · subst hiT; subst hd; exact hwT
    · subst hiC; subst hd; exact hwall

theorem retraction_test_layer (s : Square) (D : Dir)
    (h : retraction_test s D.mask D.vertical = true) : s.layer_at_most_one D.vertical := by
  obtain ⟨c, dir, w, ho, sr, b, od, oc⟩ := s
  cases b <;> cases D <;> revert h <;>
    dsimp only [retraction_test, Square.layer_at_most_one, Square.connection_count,
      Square.bridge_above_conn_count, Dir.vertical, Dir.mask, DIR_NORTH, DIR_EAST, DIR_SOUTH,
      DIR_WEST] <;>
    simp only [Bool.false_and, Bool.true_and, Bool.false_eq_true, if_false, if_true,
      beq_self_eq_true, reduceCtorEq, beq_iff_eq, Nat.reduceEqDiff, Bool.not_true, Bool.not_false,
      bne_self_eq_false, Bool.and_false, Bool.and_true, Nat.reduceBEq, Bool.or_false,
      Bool.or_true, Bool.false_or] <;>
    (revert dir od; decide)

theorem inspect_target_layer (t : Square) (sel : Nat) (v : Bool) (cm : Bool)
    (h : inspect_target t sel v = .write cm true) :
    t.layer_at_most_one (if t.bridge then v else false) := by
  unfold inspect_target at h
  unfold Square.layer_at_most_one
  cases hb : t.bridge <;> cases v <;>
    simp only [hb, Bool.false_eq_true, if_false, if_true] at h ⊢ <;>
    split_ifs at h <;>
    first
      | assumption
      | omega
      | (simp only [TargetAction.write.injEq, Bool.false_eq_true, and_false, and_true,
          Bool.true_eq_false, reduceCtorEq] at h)

theorem write_connection_symmetry (l l1 : Level) (hwf : l.well_formed) (hwalls : l.walls_closed)
    (hrel : Level.related Square.same_frame l l1) (C : Nat) (D : Dir) (col : Nat)
    (hC : C < l.squares.length) (hwall : l.wall C D = false)
    (hsym : l1.edge_symmetric) (hcross : l1.no_wall_crossed) :
    ∃ l3, ((l1.update (free_target l C D)
          (fun s => s.add_direction_color D.opp.mask col)).bind
        (fun l2 => l2.update C (fun s => s.add_direction_color D.mask col))) = some l3
      ∧ Level.related Square.same_frame l l3 ∧ l3.edge_symmetric ∧ l3.no_wall_crossed := by
  obtain ⟨hlen, hwall1, -, hft, -⟩ := related_frame hrel
  obtain ⟨hwf1, hwalls1⟩ := related_frame_transfer hrel
  have hT := free_target_lt l hwf C hC D
  obtain ⟨l2, hl2⟩ := update_exists (l := l1)
    (fun s => s.add_direction_color D.opp.mask col) (by rw [hlen]; exact hT)
  have hrel2 : Level.related Square.same_frame l l2 :=
    update_related (fun f s h => same_frame_add f s _ _ h) hrel hl2
  obtain ⟨l3, hl3⟩ := update_exists (l := l2)
    (fun s => s.add_direction_color D.mask col) (by rw [(related_frame hrel2).1]; exact hC)
  have hrel3 : Level.related Square.same_frame l l3 :=
    update_related (fun f s h => same_frame_add f s _ _ h) hrel2 hl3
  have hrel13 : Level.related Square.same_frame l1 l3 :=
    update_related (fun f s h => same_frame_add f s _ _ h)
      (update_related (fun f s h => same_frame_add f s _ _ h) (related_refl l1) hl2) hl3
  have hconn : ∀ i d, l3.conn i d
      = (l1.conn i d || (decide (i = free_target l1 C D) && d == D.opp)
          || (decide (i = C) && d == D)) := by
    intro i d
    rw [conn_update_of_add D hl3 (fun s _ d => has_connection_add s D d col) i d,
      conn_update_of_add D.opp hl2 (fun s _ d => has_connection_add s D.opp d col) i d, hft]
  obtain ⟨h1, h2⟩ := edge_symmetric_of_add l1 l3 (hwf1 hwf) (hwalls1 hwalls) hrel13 C D
    (by rw [hlen]; exact hC) (by rw [hwall1]; exact hwall) hconn hsym hcross
  exact ⟨l3, by simp [hl2, hl3], hrel3, h1, h2⟩

theorem playing_cursor_move_either_symmetry (c : LevelContainer) (D : Dir)
    (hwf : c.current_level.well_formed) (hwalls : c.current_level.walls_closed)
    (hcur : c.playing_cursor_idx < c.current_level.squares.length)
    (hsym : c.current_level.edge_symmetric) (hcross : c.current_level.no_wall_crossed)
    (hwall : c.current_level.wall c.playing_cursor_idx D = false) :
    ∃ c1, c.playing_cursor_move_either (free_target c.current_level c.playing_cursor_idx D)
          D.mask D.opp.mask D.vertical = some c1
      ∧ Level.related Square.same_frame c.current_level c1.current_level
      ∧ c1.current_level.edge_symmetric ∧ c1.current_level.no_wall_crossed
      ∧ (c1.playing_cursor_idx = c.playing_cursor_idx
          ∨ c1.playing_cursor_idx = free_target c.current_level c.playing_cursor_idx D) := by
  have hcs : c.current_level.squares[c.playing_cursor_idx]?
      = some c.current_level.squares[c.playing_cursor_idx] := List.getElem?_eq_getElem hcur
  have hT := free_target_lt c.current_level hwf c.playing_cursor_idx hcur D
  have hts : c.current_level.squares[free_target c.current_level c.playing_cursor_idx D]?
      = some c.current_level.squares[free_target c.current_level c.playing_cursor_idx D] :=
    List.getElem?_eq_getElem hT
  have hmpc : ∀ (c0 : LevelContainer) (n d : Nat),
      (c0.move_playing_cursor n d).playing_cursor_idx = n := by
    intro c0 n d
    unfold LevelContainer.move_playing_cursor
    split_ifs <;> rfl
  simp only [LevelContainer.playing_cursor_move_either, hcs]
  by_cases hg : bridge_axis_guard c c.current_level.squares[c.playing_cursor_idx] D.vertical = true
  · rw [if_pos hg]
    exact ⟨c, rfl, related_refl _, hsym, hcross, Or.inl rfl⟩
  rw [if_neg hg]
  by_cases hr : retraction_test c.current_level.squares[c.playing_cursor_idx] D.mask D.vertical
      = true
  · rw [if_pos hr]
    obtain ⟨l1, hl1, hconn⟩ := remove_single_connection_spec c.current_level hwf hwalls hcross
      c.playing_cursor_idx _ hcs D.vertical
    have hrel := remove_single_connection_related same_frame_stable
      (related_refl c.current_level) _ _ hl1
    obtain ⟨h1, h2⟩ := edge_symmetric_of_removal c.current_level l1 hwf hrel _ _ _ hcs
      (retraction_test_layer _ D hr) hconn hsym hcross
    rw [hl1]
    refine ⟨_, rfl, ?_, ?_, ?_, Or.inr ?_⟩
    · simpa [(move_playing_cursor_frame _ _ _).1] using hrel
    · simpa [(move_playing_cursor_frame _ _ _).1] using h1
    · simpa [(move_playing_cursor_frame _ _ _).1] using h2
    · simp [hmpc]
  rw [if_neg hr]
  simp only [hts]
  cases hin : inspect_target
      c.current_level.squares[free_target c.current_level c.playing_cursor_idx D]
      c.selected_color D.vertical with
  | refuse => exact ⟨c, rfl, related_refl _, hsym, hcross, Or.inl rfl⟩
  | write cm rf =>
    simp only
    have hl1 : ∃ l1, (if rf = true then
          if c.current_level.squares[free_target c.current_level c.playing_cursor_idx D].bridge
              = true then
            c.current_level.remove_single_connection
              (free_target c.current_level c.playing_cursor_idx D) D.vertical
          else c.current_level.remove_single_connection
              (free_target c.current_level c.playing_cursor_idx D)
        else some c.current_level) = some l1
        ∧ Level.related Square.same_frame c.current_level l1
        ∧ l1.edge_symmetric ∧ l1.no_wall_crossed := by
      cases rf with
      | false => exact ⟨_, by simp, related_refl _, hsym, hcross⟩
      | true =>
        have hp := inspect_target_layer _ _ _ _ hin
        obtain ⟨l1, hl1, hconn⟩ := remove_single_connection_spec c.current_level hwf hwalls
          hcross _ _ hts
          (if c.current_level.squares[free_target c.current_level c.playing_cursor_idx D].bridge
            then D.vertical else false)
        have hrel := remove_single_connection_related same_frame_stable
          (related_refl c.current_level) _ _ hl1
        obtain ⟨h1, h2⟩ := edge_symmetric_of_removal c.current_level l1 hwf hrel _ _ _ hts
          hp hconn hsym hcross
        refine ⟨l1, ?_, hrel, h1, h2⟩
        simp only [if_true]
        by_cases hb :
            c.current_level.squares[free_target c.current_level c.playing_cursor_idx D].bridge
              = true
        · rw [if_pos hb] at hl1 ⊢; exact hl1
        · rw [if_neg hb] at hl1 ⊢; exact hl1
    obtain ⟨l1, hl1, hrel1, hsym1, hcross1⟩ := hl1
    obtain ⟨l3, hl3, hrel3, hsym3, hcross3⟩ := write_connection_symmetry c.current_level l1 hwf
      hwalls hrel1 c.playing_cursor_idx D (c.selected_color % 256) hcur hwall hsym1 hcross1
    rw [hl1]
    simp only [Option.some_bind, hl3, Option.map_some']
    refine ⟨_, rfl, ?_, ?_, ?_, Or.inr ?_⟩
    · split_ifs <;> simpa [(move_playing_cursor_frame _ _ _).1] using hrel3
    · split_ifs <;> simpa [(move_playing_cursor_frame _ _ _).1] using hsym3
    · split_ifs <;> simpa [(move_playing_cursor_frame _ _ _).1] using hcross3
    · split_ifs <;> simp [hmpc]

theorem target_idx_eq (c : LevelContainer) (d : Dir) :
    c.target_idx d
      = c.current_level.move_idx_checked d c.playing_cursor_idx (c.selected_color != 0) := by
  cases d <;> rfl

theorem move_idx_checked_of_wall (l : Level) (idx : Nat) (hidx : idx < l.squares.length)
    (d : Dir) (hw : l.wall idx d = true) : l.move_idx_checked d idx true = some idx := by
  have hs : l.squares[idx]? = some l.squares[idx] := List.getElem?_eq_getElem hidx
  rw [wall_eq hs] at hw
  cases d <;> simp only [Dir.mask] at hw <;>
    simp only [Level.move_idx_checked, Level.move_idx_up_checked, Level.move_idx_right_checked,
      Level.move_idx_down_checked, Level.move_idx_left_checked, Level.wall_blocks, hs, hw,
      if_true]

/-- C1, amended: on a well-formed board whose walls are two-sided and close
every edge that does not wrap, and on which no connection crosses a wall,
with the cursor on the board, `attemptMove` returns, and if the board was
edge symmetric before it is edge symmetric after, for every walls, wrap flag,
bridges, holes, session and direction; the other conditions hold again
after the move. -/
theorem attemptMove_preserves_edge_symmetry (c : LevelContainer) (d : Dir)
    (hwf : c.current_level.well_formed) (hwalls : c.current_level.walls_closed)
    (hcur : c.playing_cursor_idx < c.current_level.squares.length)
    (hsym : c.current_level.edge_symmetric) (hcross : c.current_level.no_wall_crossed) :
    ∃ c1, c.attemptMove d = some c1
      ∧ c1.current_level.edge_symmetric ∧ c1.current_level.no_wall_crossed
      ∧ c1.current_level.walls_closed ∧ c1.current_level.well_formed
      ∧ c1.playing_cursor_idx < c1.current_level.squares.length := by
  by_cases hsel : c.selected_color = 0
  · have hs0 : (c.selected_color != 0) = false := by simp [hsel]
    rw [attemptMove_eq, free_target_idx c d hsel hwf hcur]
    simp only [Option.some_bind, LevelContainer.cursor_step, hs0]
    by_cases he : free_target c.current_level c.playing_cursor_idx d = c.playing_cursor_idx
    · rw [if_pos he]
      exact ⟨c, rfl, hsym, hcross, hwalls, hwf, hcur⟩
    · rw [if_neg he]
      have hfr := move_playing_cursor_frame c
        (free_target c.current_level c.playing_cursor_idx d) d.mask
      refine ⟨_, rfl, ?_, ?_, ?_, ?_, ?_⟩
      · rw [hfr.1]; exact hsym
      · rw [hfr.1]; exact hcross
      · rw [hfr.1]; exact hwalls
      · rw [hfr.1]; exact hwf
      · rw [hfr.1]
        simp only [LevelContainer.move_playing_cursor, hs0, Bool.false_eq_true, if_false]
        exact free_target_lt _ hwf _ hcur d
  have hs : (c.selected_color != 0) = true := by simpa using hsel
  rw [attemptMove_eq, target_idx_eq, hs]
  cases hw : c.current_level.wall c.playing_cursor_idx d with
  | true =>
    rw [move_idx_checked_of_wall _ _ hcur d hw]
    simp only [Option.some_bind, LevelContainer.cursor_step, if_true]
    exact ⟨c, rfl, hsym, hcross, hwalls, hwf, hcur⟩
  | false =>
    rw [(move_idx_checked_of_no_wall _ hwf hwalls _ hcur d hw).1]
    simp only [Option.some_bind, LevelContainer.cursor_step, hs, if_true]
    by_cases he : free_target c.current_level c.playing_cursor_idx d = c.playing_cursor_idx
    · rw [if_pos he]
      exact ⟨c, rfl, hsym, hcross, hwalls, hwf, hcur⟩
    · rw [if_neg he]
      obtain ⟨c1, hc1, hrel, h1, h2, hcursor⟩ :=
        playing_cursor_move_either_symmetry c d hwf hwalls hcur hsym hcross hw
      obtain ⟨t1, t2⟩ := related_frame_transfer hrel
      refine ⟨c1, hc1, h1, h2, t2 hwalls, t1 hwf, ?_⟩
      rw [(related_frame hrel).1]
      rcases hcursor with e | e <;> rw [e]
      · exact hcur
      · exact free_target_lt _ hwf _ hcur d

/-- Witness of the amended C1: the move north from index 0 of `torus_state`
wraps to index 2 and writes a connection on both squares. -/
theorem attemptMove_preserves_edge_symmetry_witness :
    torus_state.current_level.well_formed ∧ torus_state.current_level.walls_closed
    ∧ torus_state.current_level.edge_symmetric ∧ torus_state.current_level.no_wall_crossed
    ∧ ∃ c1, torus_state.attemptMove .north = some c1
      ∧ c1.current_level.edge_symmetric ∧ c1.current_level.no_wall_crossed
      ∧ c1.current_level.walls_closed ∧ c1.current_level.well_formed
      ∧ c1.playing_cursor_idx < c1.current_level.squares.length :=
  ⟨by decide, by decide, by decide, by decide,
    attemptMove_preserves_edge_symmetry torus_state .north (by decide) (by decide) (by decide)
      (by decide) (by decide)⟩

/-! ### Save word layout -/

theorem pack_into_value (s : Square) :
    s.pack_into =
      if s.bridge then
        s.direction.val + 16 * (s.color.val % 32) + 512 * s.bridge_above_direction.val
          + 2048 * (s.bridge_above_color.val % 32)
      else s.direction.val + 16 * (s.color.val % 32) := by
  have hd : s.direction.val < 16 := s.direction.isLt
  have hod : s.bridge_above_direction.val < 4 := s.bridge_above_direction.isLt
  have hc : s.color.val % 32 < 32 := Nat.mod_lt _ (by norm_num)
  have hoc : s.bridge_above_color.val % 32 < 32 := Nat.mod_lt _ (by norm_num)
  have e1 : s.color.val &&& 0x1F = (s.color.val % 32) &&& 0x1F := by
    rw [and_mask _ 5 _ (by norm_num), and_mask _ 5 _ (by norm_num)]; simp
  have e2 : s.bridge_above_color.val &&& 0x1F = (s.bridge_above_color.val % 32) &&& 0x1F := by
    rw [and_mask _ 5 _ (by norm_num), and_mask _ 5 _ (by norm_num)]; simp
  obtain ⟨p1, p2⟩ := pack_arith s.direction.val (s.color.val % 32) s.bridge_above_direction.val
    (s.bridge_above_color.val % 32) hd hc hod hoc
  unfold Square.pack_into
  simp only [e1, e2]
  split_ifs
  · rw [p1]; omega
  · rw [p2]; omega

/-- C11: the word `Square::pack_into` builds holds `direction` in bits 0-3
and the low five bits of `color` in bits 4-8; for a bridge it holds
`bridge_above_direction` in bits 9-10 and the low five bits of
`bridge_above_color` in bits 11-15, and for any other square bits 9-15 are
zero.  `Square::load_from` assigns the same bit fields of a word `v` back to
the same members: bits 0-3 to `direction`, bits 4-8 to `color` and, on a
bridge, bits 9-10 to `bridge_above_direction` and bits 11-15 to
`bridge_above_color`; on a square that is no bridge the overlay members are
left as they are, and `walls` and the three flags are never touched. -/
theorem save_word_layout (s : Square) (v : Nat) :
    s.pack_into < 65536
    ∧ s.pack_into % 16 = s.direction.val
    ∧ s.pack_into / 16 % 32 = s.color.val % 32
    ∧ (s.bridge = true → s.pack_into / 512 % 4 = s.bridge_above_direction.val
        ∧ s.pack_into / 2048 = s.bridge_above_color.val % 32)
    ∧ (s.bridge = false → s.pack_into / 512 = 0)
    ∧ (s.load_from v).direction.val = v % 16
    ∧ (s.load_from v).color.val = v / 16 % 32
    ∧ (s.bridge = true → (s.load_from v).bridge_above_direction.val = v / 512 % 4
        ∧ (s.load_from v).bridge_above_color.val = v / 2048 % 32)
    ∧ (s.bridge = false → (s.load_from v).bridge_above_direction = s.bridge_above_direction
        ∧ (s.load_from v).bridge_above_color = s.bridge_above_color)
    ∧ (s.load_from v).walls = s.walls ∧ (s.load_from v).hole = s.hole
    ∧ (s.load_from v).source = s.source ∧ (s.load_from v).bridge = s.bridge := by
  have hd : s.direction.val < 16 := s.direction.isLt
  have hod : s.bridge_above_direction.val < 4 := s.bridge_above_direction.isLt
  have hc : s.color.val % 32 < 32 := Nat.mod_lt _ (by norm_num)
  have hoc : s.bridge_above_color.val % 32 < 32 := Nat.mod_lt _ (by norm_num)
  obtain ⟨u1, u2, u3, u4⟩ := unpack_arith v
  have hp := pack_into_value s
  refine ⟨pack_into_lt s, ?_, ?_, ?_, ?_, ?_, ?_, ?_, ?_, ?_, ?_, ?_, ?_⟩
  · rw [hp]; split_ifs <;> omega
  · rw [hp]; split_ifs <;> omega
  · intro hb; rw [hp, if_pos hb]; constructor <;> omega
  · intro hb; rw [hp, hb]; simp only [Bool.false_eq_true, if_false]; omega
  · unfold Square.load_from
    simp only [u1]
    split_ifs <;> simp only [Fin.ofNat] <;> omega
  · unfold Square.load_from
    simp only [u2]
    split_ifs <;> simp only [Fin.ofNat] <;> omega
  · intro hb
    unfold Square.load_from
    simp only [hb, if_true, u3, u4, Fin.ofNat]
    constructor <;> omega
  · intro hb
    unfold Square.load_from
    simp only [hb, Bool.false_eq_true, if_false, and_self]
  · unfold Square.load_from; simp only; split_ifs <;> rfl
  · unfold Square.load_from; simp only; split_ifs <;> rfl
  · unfold Square.load_from; simp only; split_ifs <;> rfl
  · unfold Square.load_from; simp only; split_ifs <;> rfl

/-! ### Save buffer: one word per square -/

theorem load_save_squares_getElem (data : DataHolder) :
    ∀ (squares : List Square) (off i : Nat) (s : Square), squares[i]? = some s →
      (load_save_squares data squares off)[i]?
        = some (if s.hole = true then s else s.load_from (data.read_u16 (off + 2 * i))) := by
  intro squares
  induction squares with
  | nil => intro off i s h; simp at h
  | cons t rest ih =>
    intro off i s h
    cases i with
    | zero =>
      simp only [List.getElem?_cons_zero, Option.some.injEq] at h
      subst h
      simp only [load_save_squares, List.getElem?_cons_zero, Nat.mul_zero, Nat.add_zero]
      cases t.hole <;> rfl
    | succ i =>
      simp only [List.getElem?_cons_succ] at h
      simp only [load_save_squares, List.getElem?_cons_succ]
      rw [ih (off + 2) i s h]
      have e : off + 2 + 2 * i = off + 2 * (i + 1) := by omega
      rw [e]

theorem words_to_bytes_length (ws : List Nat) : (words_to_bytes ws).length = 2 * ws.length := by
  induction ws with
  | nil => rfl
  | cons w ws ih =>
    rw [words_to_bytes_cons]
    simp only [List.length_cons, ih]
    omega

/-- C12, the claim as stated fails: the level of `hole_level_bytes` has three
squares, two of which are no hole, and its save holds three words (six
bytes), the second one being the word of the hole; loading the words
`0x11, 0x12, 0x18` gives the first word to square 0 and the third word to
square 2, the second non-hole square, while the second word is skipped. -/
theorem save_has_word_for_hole :
    ((Level.decode (subarea hole_level_bytes 0 26)).squares.filter (fun s => !s.hole)).length = 2
    ∧ (words_to_bytes (save_words [Level.decode (subarea hole_level_bytes 0 26)])).length = 6
    ∧ ((Level.decode (subarea hole_level_bytes 0 26)).load_save
          (subarea (words_to_bytes [0x11, 0x12, 0x18]) 0 6)).squares.map
        (fun s => (s.hole, s.pack_into)) = [(false, 0x11), (true, 0), (false, 0x18)] := by
  decide

/-- C12, amended: the save of a level holds exactly one 2-byte word per
square, holes included, in index order (the word of square `i` is its
`pack_into` word and the save is `2 * squares.length` bytes long), and
`Level::load_save` reads the word at offset `2 * i` for square `i`: it is
loaded into a square that is no hole and skipped for a hole, which is left
as it is. -/
theorem save_one_word_per_square (l : Level) (data : DataHolder) :
    save_words [l] = l.squares.map Square.pack_into
    ∧ (words_to_bytes (save_words [l])).length = 2 * l.squares.length
    ∧ (l.load_save data).squares.length = l.squares.length
    ∧ ∀ (i : Nat) (s : Square), l.squares[i]? = some s →
        (l.load_save data).squares[i]?
          = some (if s.hole = true then s else s.load_from (data.read_u16 (2 * i))) := by
  have h1 : save_words [l] = l.squares.map Square.pack_into := by
    simp [save_words]
  refine ⟨h1, ?_, ?_, ?_⟩
  · rw [words_to_bytes_length, h1, List.length_map]
  · have : ∀ (sq : List Square) (off : Nat), (load_save_squares data sq off).length = sq.length := by
      intro sq
      induction sq with
      | nil => intro _; rfl
      | cons t rest ih => intro off; simp only [load_save_squares, List.length_cons, ih]
    exact this _ _
  · intro i s h
    have := load_save_squares_getElem data l.squares 0 i s h
    rw [Nat.zero_add] at this
    exact this

/-! ### Level decoding: the merge of the hole, bridge and wall lists -/

theorem decode_squares (data : DataHolder) (hmagic : data.read_u32 0 = CLFL_MAGIC) :
    (Level.decode data).squares
      = build_squares (read_sources data (data.byte 6)) (Level.bridge_list data)
          (Level.hole_list data) (Level.wall_list data) (data.byte 4 * data.byte 5) 0 0 0 0 := by
  unfold Level.decode Level.bridge_list Level.hole_list Level.wall_list
  simp only [hmagic, bne_self_eq_false, Bool.false_eq_true, if_false, List.length_replicate]

theorem decode_header (data : DataHolder) :
    (Level.decode data).width = data.byte 4 ∧ (Level.decode data).height = data.byte 5
      ∧ (Level.decode data).color_count = data.byte 6 := by
  unfold Level.decode
  simp only
  split_ifs <;> exact ⟨rfl, rfl, rfl⟩

theorem ptr_ok_zero (L : List Nat) : ptr_ok L 0 0 :=
  ⟨fun a _ h _ => absurd h (Nat.not_lt_zero a), fun _ x _ _ => Nat.zero_le x⟩

theorem ptr_hit_true {L : List Nat} {p k : Nat} (h : ptr_hit L p k = true) : L[p]? = some k := by
  unfold ptr_hit at h
  simp only [Bool.and_eq_true, decide_eq_true_eq, beq_iff_eq] at h
  obtain ⟨h1, h2⟩ := h
  rw [List.getElem?_eq_getElem h1]
  rw [List.getD_eq_getElem _ _ h1] at h2
  rw [h2]

theorem ptr_hit_iff {L : List Nat} (hs : L.Pairwise (· < ·)) {k p : Nat} (hp : ptr_ok L k p) :
    ptr_hit L p k = true ↔ k ∈ L := by
  constructor
  · intro h
    exact List.getElem?_mem (ptr_hit_true h)
  · intro h
    obtain ⟨a, ha, rfl⟩ := List.getElem_of_mem h
    have hsi := List.pairwise_iff_getElem.mp hs
    have hpa : p ≤ a := by
      by_contra hlt
      have := hp.1 a L[a] (by omega) (List.getElem?_eq_getElem ha)
      omega
    have hpl : p < L.length := by omega
    have h1 := hp.2 p L[p] (le_refl _) (List.getElem?_eq_getElem hpl)
    have hpa2 : p = a := by
      by_contra hne
      have := hsi p a hpl ha (by omega)
      omega
    subst hpa2
    unfold ptr_hit
    simp only [Bool.and_eq_true, decide_eq_true_eq, beq_iff_eq]
    exact ⟨hpl, List.getD_eq_getElem _ _ hpl⟩

theorem ptr_ok_step {L : List Nat} (hs : L.Pairwise (· < ·)) {k p : Nat} (hp : ptr_ok L k p) :
    ptr_ok L (k + 1) (if ptr_hit L p k = true then p + 1 else p) := by
  have hsi := List.pairwise_iff_getElem.mp hs
  split_ifs with h
  · have hk := ptr_hit_true h
    have hpl : p < L.length := by
      by_contra hn
      rw [List.getElem?_eq_none (by omega)] at hk
      exact absurd hk (by simp)
    have hk2 : L[p] = k := by
      rw [List.getElem?_eq_getElem hpl] at hk
      exact Option.some.inj hk
    constructor
    · intro a x ha hx
      by_cases hap : a < p
      · have := hp.1 a x hap hx
        omega
      · have : a = p := by omega
        subst this
        rw [hk] at hx
        have := Option.some.inj hx
        omega
    · intro a x ha hx
      have hal : a < L.length := by
        by_contra hn
        rw [List.getElem?_eq_none (by omega)] at hx
        exact absurd hx (by simp)
      rw [List.getElem?_eq_getElem hal] at hx
      have hx2 := Option.some.inj hx
      have := hsi p a hpl hal (by omega)
      omega
  · constructor
    · intro a x ha hx
      have := hp.1 a x ha hx
      omega
    · intro a x ha hx
      have h1 := hp.2 a x ha hx
      by_contra hlt
      have hxk : x = k := by omega
      subst hxk
      have hmem : x ∈ L := List.getElem?_mem hx
      exact h ((ptr_hit_iff hs hp).mpr hmem)



theorem wall_ptr_hit (walls : List WallInfo) (wi k : Nat) :
    (decide (wi < walls.length) && (walls.getD wi ⟨0, 0⟩).square == k)
      = ptr_hit (walls.map (fun r => r.square)) wi k := by
  unfold ptr_hit
  by_cases h : wi < walls.length
  · simp [h, List.getD_eq_getElem]
  · simp [h]

theorem build_squares_succ (sources : List (Nat × Nat)) (bridges holes : List Nat)
    (walls : List WallInfo) (n k hi bi wi : Nat) :
    build_squares sources bridges holes walls (n + 1) k hi bi wi
      = built_square sources walls k wi (ptr_hit holes hi k)
          (!ptr_hit holes hi k && ptr_hit bridges bi k)
          (ptr_hit (walls.map (fun r => r.square)) wi k)
        :: build_squares sources bridges holes walls n (k + 1)
            (if ptr_hit holes hi k = true then hi + 1 else hi)
            (if (!ptr_hit holes hi k && ptr_hit bridges bi k) = true then bi + 1 else bi)
            (if ptr_hit (walls.map (fun r => r.square)) wi k = true then wi + 1 else wi) := by
  rw [← wall_ptr_hit]
  rfl

theorem built_square_fields (sources : List (Nat × Nat)) (walls : List WallInfo)
    (k wi : Nat) (hh bh wh : Bool) :
    (built_square sources walls k wi hh bh wh).hole = hh
      ∧ (built_square sources walls k wi hh bh wh).bridge = (!hh && bh)
      ∧ (built_square sources walls k wi hh bh wh).source
          = (!hh && !bh && (sources.lookup k).isSome)
      ∧ (built_square sources walls k wi hh bh wh).color
          = (if (!hh && !bh) = true then
              match sources.lookup k with
              | some c => Fin.ofNat c
              | none => 0
            else 0)
      ∧ (built_square sources walls k wi hh bh wh).walls
          = (if wh = true then Fin.ofNat (walls.getD wi ⟨0, 0⟩).blocked_directions else 0)
      ∧ (built_square sources walls k wi hh bh wh).direction = 0
      ∧ (built_square sources walls k wi hh bh wh).bridge_above_direction = 0
      ∧ (built_square sources walls k wi hh bh wh).bridge_above_color = 0 := by
  unfold built_square
  cases hh <;> cases bh <;> cases wh <;> cases sources.lookup k <;>
    exact ⟨rfl, rfl, rfl, rfl, rfl, rfl, rfl, rfl⟩

theorem build_squares_holes (sources : List (Nat × Nat)) (bridges holes : List Nat)
    (walls : List WallInfo) (hs : holes.Pairwise (· < ·)) :
    ∀ (n k hi bi wi : Nat), ptr_ok holes k hi →
      ∀ (j : Nat) (s : Square), (build_squares sources bridges holes walls n k hi bi wi)[j]? = some s →
        (s.hole = true ↔ k + j ∈ holes) := by
  intro n
  induction n with
  | zero => intro _ _ _ _ _ j s h; simp [build_squares] at h
  | succ n ih =>
    intro k hi bi wi hp j s h
    rw [build_squares_succ] at h
    cases j with
    | zero =>
      simp only [List.getElem?_cons_zero, Option.some.injEq] at h
      subst h
      rw [Nat.add_zero, ← ptr_hit_iff hs hp, (built_square_fields _ _ _ _ _ _ _).1]
    | succ j =>
      simp only [List.getElem?_cons_succ] at h
      have := ih (k + 1) _ _ _ (ptr_ok_step hs hp) j s h
      rw [this]
      have e : k + 1 + j = k + (j + 1) := by omega
      rw [e]

theorem build_squares_walls (sources : List (Nat × Nat)) (bridges holes : List Nat)
    (walls : List WallInfo) (hs : (walls.map (fun r => r.square)).Pairwise (· < ·)) :
    ∀ (n k hi bi wi : Nat), ptr_ok (walls.map (fun r => r.square)) k wi →
      ∀ (j : Nat) (s : Square), (build_squares sources bridges holes walls n k hi bi wi)[j]? = some s →
        (∀ r ∈ walls, r.square = k + j → s.walls = Fin.ofNat r.blocked_directions)
          ∧ ((∀ r ∈ walls, r.square ≠ k + j) → s.walls = 0) := by
  intro n
  induction n with
  | zero => intro _ _ _ _ _ j s h; simp [build_squares] at h
  | succ n ih =>
    intro k hi bi wi hp j s h
    rw [build_squares_succ] at h
    cases j with
    | zero =>
      simp only [List.getElem?_cons_zero, Option.some.injEq] at h
      subst h
      rw [Nat.add_zero]
      have hit := ptr_hit_iff hs hp
      have hsi := List.pairwise_iff_getElem.mp hs
      rw [(built_square_fields _ _ _ _ _ _ _).2.2.2.2.1]
      cases hh : ptr_hit (walls.map (fun r => r.square)) wi k
      · have hnot : k ∉ walls.map (fun r => r.square) := by
          rw [← hit, hh]; simp
        constructor
        · intro r hr hrk
          exact absurd (List.mem_map.mpr ⟨r, hr, hrk⟩) hnot
        · intro _
          simp only [Bool.false_eq_true, if_false]
      · have hk := ptr_hit_true hh
        have hwl : wi < walls.length := by
          by_contra hn
          rw [List.getElem?_eq_none (by simpa using hn)] at hk
          exact absurd hk (by simp)
        have hwk : walls[wi].square = k := by
          rw [List.getElem?_eq_getElem (by simpa using hwl)] at hk
          simpa using hk
        constructor
        · intro r hr hrk
          simp only [if_true]
          obtain ⟨a, ha, rfl⟩ := List.getElem_of_mem hr
          have hawi : a = wi := by
            by_contra hne
            have hla : a < (walls.map (fun r => r.square)).length := by simpa using ha
            have hlw : wi < (walls.map (fun r => r.square)).length := by simpa using hwl
            rcases Nat.lt_or_gt_of_ne hne with hlt | hgt
            · have := hsi a wi hla hlw hlt
              simp only [List.getElem_map] at this
              omega
            · have := hsi wi a hlw hla hgt
              simp only [List.getElem_map] at this
              omega
          subst hawi
          rw [List.getD_eq_getElem _ _ hwl]
        · intro hno
          exact absurd hwk (hno _ (List.getElem_mem hwl))
    | succ j =>
      simp only [List.getElem?_cons_succ] at h
      have := ih (k + 1) _ _ _ (ptr_ok_step hs hp) j s h
      have e : k + 1 + j = k + (j + 1) := by omega
      rw [e] at this
      exact this

theorem build_squares_bridges (sources : List (Nat × Nat)) (bridges holes : List Nat)
    (walls : List WallInfo) (hs : bridges.Pairwise (· < ·))
    (hdis : ∀ x ∈ holes, x ∉ bridges) :
    ∀ (n k hi bi wi : Nat), ptr_ok bridges k bi →
      ∀ (j : Nat) (s : Square), (build_squares sources bridges holes walls n k hi bi wi)[j]? = some s →
        (s.bridge = true ↔ k + j ∈ bridges) := by
  intro n
  induction n with
  | zero => intro _ _ _ _ _ j s h; simp [build_squares] at h
  | succ n ih =>
    intro k hi bi wi hp j s h
    rw [build_squares_succ] at h
    have hraw : (!ptr_hit holes hi k && ptr_hit bridges bi k) = ptr_hit bridges bi k := by
      cases hh : ptr_hit holes hi k
      · rfl
      · have hk : k ∈ holes := List.getElem?_mem (ptr_hit_true hh)
        have : ptr_hit bridges bi k = false := by
          cases hb : ptr_hit bridges bi k
          · rfl
          · exact absurd (List.getElem?_mem (ptr_hit_true hb)) (hdis k hk)
        rw [this]; rfl
    rw [hraw] at h
    cases j with
    | zero =>
      simp only [List.getElem?_cons_zero, Option.some.injEq] at h
      subst h
      rw [Nat.add_zero, ← ptr_hit_iff hs hp, (built_square_fields _ _ _ _ _ _ _).2.1]
      cases hh : ptr_hit holes hi k
      · simp
      · have hk : k ∈ holes := List.getElem?_mem (ptr_hit_true hh)
        have : ptr_hit bridges bi k = false := by
          cases hb : ptr_hit bridges bi k
          · rfl
          · exact absurd (List.getElem?_mem (ptr_hit_true hb)) (hdis k hk)
        simp [this]
    | succ j =>
      simp only [List.getElem?_cons_succ] at h
      have := ih (k + 1) _ _ _ (ptr_ok_step hs hp) j s h
      rw [this]
      have e : k + 1 + j = k + (j + 1) := by omega
      rw [e]

theorem build_squares_stalled (sources : List (Nat × Nat)) (bridges holes : List Nat)
    (walls : List WallInfo) (bi m : Nat) (hm : bridges[bi]? = some m) :
    ∀ (n k hi wi : Nat), m < k →
      ∀ (j : Nat) (s : Square), (build_squares sources bridges holes walls n k hi bi wi)[j]? = some s →
        s.bridge = false := by
  intro n
  induction n with
  | zero => intro _ _ _ _ j s h; simp [build_squares] at h
  | succ n ih =>
    intro k hi wi hk j s h
    rw [build_squares_succ] at h
    have hb : ptr_hit bridges bi k = false := by
      cases hb : ptr_hit bridges bi k
      · rfl
      · have := ptr_hit_true hb
        rw [hm] at this
        have := Option.some.inj this
        omega
    rw [hb] at h
    simp only [Bool.and_false, Bool.false_eq_true, if_false] at h
    cases j with
    | zero =>
      simp only [List.getElem?_cons_zero, Option.some.injEq] at h
      subst h
      rw [(built_square_fields _ _ _ _ _ _ _).2.1]
      simp
    | succ j =>
      simp only [List.getElem?_cons_succ] at h
      exact ih (k + 1) _ _ (by omega) j s h

theorem build_squares_bridges_overlap (sources : List (Nat × Nat)) (bridges holes : List Nat)
    (walls : List WallInfo) (hsb : bridges.Pairwise (· < ·)) (hsh : holes.Pairwise (· < ·)) :
    ∀ (n k hi bi wi : Nat), ptr_ok holes k hi → ptr_ok bridges k bi →
      (∀ x ∈ bridges, x ∈ holes → k ≤ x) →
      ∀ (j : Nat) (s : Square), (build_squares sources bridges holes walls n k hi bi wi)[j]? = some s →
        (s.bridge = true ↔ (k + j ∈ bridges ∧ ∀ x ∈ bridges, x ∈ holes → k + j < x)) := by
  intro n
  induction n with
  | zero => intro _ _ _ _ _ _ _ j s h; simp [build_squares] at h
  | succ n ih =>
    intro k hi bi wi hph hpb hshared j s h
    have h0 := h
    rw [build_squares_succ] at h
    have hH := ptr_hit_iff hsh hph
    have hB := ptr_hit_iff hsb hpb
    cases j with
    | zero =>
      simp only [List.getElem?_cons_zero, Option.some.injEq] at h
      subst h
      rw [Nat.add_zero, (built_square_fields _ _ _ _ _ _ _).2.1]
      simp only [Bool.and_eq_true, Bool.not_eq_true', Bool.and_self_left]
      constructor
      · rintro ⟨h1, h2⟩
        have hkh : k ∉ holes := by
          rw [← hH, h1]; simp
        refine ⟨hB.mp h2, fun x hx hxh => ?_⟩
        have := hshared x hx hxh
        have hne : x ≠ k := fun e => hkh (e ▸ hxh)
        omega
      · rintro ⟨h1, h2⟩
        refine ⟨?_, hB.mpr h1⟩
        cases hh : ptr_hit holes hi k
        · rfl
        · have := h2 k h1 (hH.mp hh)
          omega
    | succ j =>
      simp only [List.getElem?_cons_succ] at h
      have e : k + 1 + j = k + (j + 1) := by omega
      by_cases hst : ptr_hit holes hi k = true ∧ ptr_hit bridges bi k = true
      · -- the hole takes the entry the bridge pointer is on: it stays there for good
        have hkb := ptr_hit_true hst.2
        have hnew : (if (!ptr_hit holes hi k && ptr_hit bridges bi k) = true then bi + 1 else bi)
            = bi := by
          simp [hst.1]
        rw [hnew] at h
        have hfalse := build_squares_stalled sources bridges holes walls bi k hkb n (k + 1) _ _
          (by omega) j s h
        rw [hfalse]
        constructor
        · intro hc; exact absurd hc (by decide)
        · rintro ⟨-, h2⟩
          have := h2 k (hB.mp hst.2) (hH.mp hst.1)
          omega
      · have hnew : (if (!ptr_hit holes hi k && ptr_hit bridges bi k) = true then bi + 1 else bi)
            = (if ptr_hit bridges bi k = true then bi + 1 else bi) := by
          cases hh : ptr_hit holes hi k <;> cases hb : ptr_hit bridges bi k <;>
            simp_all
        rw [hnew] at h
        have hshared2 : ∀ x ∈ bridges, x ∈ holes → k + 1 ≤ x := by
          intro x hx hxh
          have := hshared x hx hxh
          have hne : x ≠ k := by
            intro e
            subst e
            exact hst ⟨hH.mpr hxh, hB.mpr hx⟩
          omega
        have := ih (k + 1) _ _ _ (ptr_ok_step hsh hph) (ptr_ok_step hsb hpb) hshared2 j s h
        rw [e] at this
        exact this

theorem build_squares_sources (sources : List (Nat × Nat)) (bridges holes : List Nat)
    (walls : List WallInfo) :
    ∀ (n k hi bi wi : Nat) (j : Nat) (s : Square),
      (build_squares sources bridges holes walls n k hi bi wi)[j]? = some s →
        (s.hole = true → s.bridge = false ∧ s.source = false)
        ∧ (s.bridge = true → s.source = false)
        ∧ (s.source = true ↔ (s.hole = false ∧ s.bridge = false
              ∧ (sources.lookup (k + j)).isSome = true))
        ∧ (s.source = true → ∃ c, sources.lookup (k + j) = some c ∧ s.color = Fin.ofNat c)
        ∧ (s.source = false → s.color = 0)
        ∧ s.direction = 0 ∧ s.bridge_above_direction = 0 ∧ s.bridge_above_color = 0 := by
  intro n
  induction n with
  | zero => intro _ _ _ _ j s h; simp [build_squares] at h
  | succ n ih =>
    intro k hi bi wi j s h
    rw [build_squares_succ] at h
    cases j with
    | zero =>
      simp only [List.getElem?_cons_zero, Option.some.injEq] at h
      subst h
      obtain ⟨f1, f2, f3, f4, -, f6, f7, f8⟩ := built_square_fields sources walls k wi
        (ptr_hit holes hi k) (!ptr_hit holes hi k && ptr_hit bridges bi k)
        (ptr_hit (walls.map (fun r => r.square)) wi k)
      rw [Nat.add_zero, f1, f2, f3, f4]
      refine ⟨?_, ?_, ?_, ?_, ?_, f6, f7, f8⟩
      all_goals
        cases ptr_hit holes hi k <;> cases ptr_hit bridges bi k <;>
          cases sources.lookup k <;> simp
    | succ j =>
      simp only [List.getElem?_cons_succ] at h
      have := ih (k + 1) _ _ _ j s h
      have e : k + 1 + j = k + (j + 1) := by omega
      rw [e] at this
      exact this

theorem lookup_try_emplace_self (m : List (Nat × Nat)) (k v : Nat) :
    ((try_emplace m k v).lookup k).isSome = true := by
  unfold try_emplace
  cases h : m.lookup k with
  | some c => simp [h]
  | none => simp [List.lookup_append, h]

theorem lookup_try_emplace_mono (m : List (Nat × Nat)) (k v x : Nat)
    (h : (m.lookup x).isSome = true) : ((try_emplace m k v).lookup x).isSome = true := by
  unfold try_emplace
  cases hk : m.lookup k with
  | some c => simpa using h
  | none =>
    obtain ⟨c, hc⟩ := Option.isSome_iff_exists.mp h
    simp [List.lookup_append, hc]

theorem read_sources_mem (data : DataHolder) (cc : Nat) :
    ∀ p ∈ read_sources data cc,
      1 ≤ p.2 ∧ p.2 ≤ cc ∧ Level.source_position data p.2 p.1 := by
  unfold read_sources
  have key : ∀ (js : List Nat) (init : List (Nat × Nat)),
      (∀ j ∈ js, j < cc) →
      (∀ p ∈ init, 1 ≤ p.2 ∧ p.2 ≤ cc ∧ Level.source_position data p.2 p.1) →
      ∀ p ∈ js.foldl (fun sources j =>
          try_emplace (try_emplace sources (data.read_u16 (20 + 4 * j)) (j + 1))
            (data.read_u16 (20 + 4 * j + 2)) (j + 1)) init,
        1 ≤ p.2 ∧ p.2 ≤ cc ∧ Level.source_position data p.2 p.1 := by
    intro js
    induction js with
    | nil => intro init _ hinit p hp; exact hinit p hp
    | cons j js ih =>
      intro init hjs hinit p hp
      simp only [List.foldl_cons] at hp
      refine ih _ (fun x hx => hjs x (List.mem_cons_of_mem _ hx)) ?_ p hp
      intro q hq
      have hj := hjs j (List.mem_cons_self _ _)
      rcases mem_try_emplace hq with hq | rfl
      · rcases mem_try_emplace hq with hq | rfl
        · exact hinit q hq
        · refine ⟨by simp, by simp only; omega, Or.inl ?_⟩
          simp only [Nat.add_sub_cancel]
      · refine ⟨by simp, by simp only; omega, Or.inr ?_⟩
        simp only [Nat.add_sub_cancel]
        congr 1; omega
  exact key _ [] (fun j hj => List.mem_range.mp hj) (by simp)

theorem read_sources_lookup (data : DataHolder) (cc k i : Nat) (h1 : 1 ≤ k) (h2 : k ≤ cc)
    (hpos : Level.source_position data k i) :
    ((read_sources data cc).lookup i).isSome = true := by
  unfold read_sources
  have key : ∀ (js : List Nat) (init : List (Nat × Nat)),
      ((init.lookup i).isSome = true ∨ k - 1 ∈ js) →
      ((js.foldl (fun sources j =>
          try_emplace (try_emplace sources (data.read_u16 (20 + 4 * j)) (j + 1))
            (data.read_u16 (20 + 4 * j + 2)) (j + 1)) init).lookup i).isSome = true := by
    intro js
    induction js with
    | nil =>
      intro init h
      rcases h with h | h
      · exact h
      · simp at h
    | cons j js ih =>
      intro init h
      simp only [List.foldl_cons]
      apply ih
      rcases h with h | h
      · exact Or.inl (lookup_try_emplace_mono _ _ _ _ (lookup_try_emplace_mono _ _ _ _ h))
      · rcases List.mem_cons.mp h with h | h
        · left
          subst h
          rcases hpos with hp | hp
          · rw [← hp]
            exact lookup_try_emplace_mono _ _ _ _ (lookup_try_emplace_self _ _ _)
          · have e : 20 + 4 * (k - 1) + 2 = 22 + 4 * (k - 1) := by omega
            rw [e, hp]
            exact lookup_try_emplace_self _ _ _
        · exact Or.inr h
  exact key _ [] (Or.inr (List.mem_range.mpr (by omega)))

/-! ### Level decoding: classification of the squares -/

theorem build_squares_length (sources : List (Nat × Nat)) (bridges holes : List Nat)
    (walls : List WallInfo) :
    ∀ (n k hi bi wi : Nat), (build_squares sources bridges holes walls n k hi bi wi).length = n := by
  intro n
  induction n with
  | zero => intro _ _ _ _; rfl
  | succ n ih =>
    intro k hi bi wi
    rw [build_squares_succ, List.length_cons, ih]

theorem decode_length (data : DataHolder) (hmagic : data.read_u32 0 = CLFL_MAGIC) :
    (Level.decode data).squares.length = (Level.decode data).width * (Level.decode data).height := by
  rw [decode_squares data hmagic, build_squares_length, (decode_header data).1,
    (decode_header data).2.1]

/-- C13, the claim as stated fails: the buffer `unsorted_holes_bytes` has a
valid magic tag and the hole list `[2, 1]`; index 1 is below
`width * height = 4` and is in the hole list, but the square decoded at
index 1 is no hole (only index 2 is). -/
theorem decode_unsorted_holes_missed :
    (subarea unsorted_holes_bytes 0 28).reads_inside
    ∧ (subarea unsorted_holes_bytes 0 28).read_u32 0 = CLFL_MAGIC
    ∧ Level.hole_list (subarea unsorted_holes_bytes 0 28) = [2, 1]
    ∧ (Level.decode (subarea unsorted_holes_bytes 0 28)).squares.map (fun s => s.hole)
        = [false, false, true, false] := by
  decide

/-- C13, amended: for every level buffer with a valid magic tag whose hole
list is strictly ascending, every index below `width * height` that appears
in the hole list is decoded as a square with `hole = true`, and no other
square is a hole.  The bytes of the level buffer are taken to lie inside its
owner. -/
theorem decode_holes (data : DataHolder) (_hin : data.reads_inside)
    (hmagic : data.read_u32 0 = CLFL_MAGIC)
    (hsorted : (Level.hole_list data).Pairwise (fun a b => a < b)) :
    (∀ i ∈ Level.hole_list data, i < (Level.decode data).width * (Level.decode data).height →
        ∃ s, (Level.decode data).squares[i]? = some s ∧ s.hole = true)
    ∧ (∀ (i : Nat) (s : Square), (Level.decode data).squares[i]? = some s → s.hole = true →
        i ∈ Level.hole_list data) := by
  have key : ∀ (i : Nat) (s : Square), (Level.decode data).squares[i]? = some s →
      (s.hole = true ↔ i ∈ Level.hole_list data) := by
    intro i s hs
    rw [decode_squares data hmagic] at hs
    have := build_squares_holes _ _ _ _ hsorted _ 0 0 0 0 (ptr_ok_zero _) i s hs
    rw [Nat.zero_add] at this
    exact this
  constructor
  · intro i hi hlt
    rw [← decode_length data hmagic] at hlt
    refine ⟨(Level.decode data).squares[i], List.getElem?_eq_getElem hlt, ?_⟩
    exact (key i _ (List.getElem?_eq_getElem hlt)).mpr hi
  · intro i s hs hh
    exact (key i s hs).mp hh

/-- Witness of the amended C13 on `kinds_level_bytes`, whose hole list is
`[2]`. -/
theorem decode_holes_witness :
    (subarea kinds_level_bytes 0 32).reads_inside
    ∧ (subarea kinds_level_bytes 0 32).read_u32 0 = CLFL_MAGIC
    ∧ (Level.hole_list (subarea kinds_level_bytes 0 32)).Pairwise (fun a b => a < b)
    ∧ 2 ∈ Level.hole_list (subarea kinds_level_bytes 0 32)
    ∧ ∃ s, (Level.decode (subarea kinds_level_bytes 0 32)).squares[2]? = some s ∧ s.hole = true :=
  ⟨by decide, by decide, by decide, by decide,
    (decode_holes (subarea kinds_level_bytes 0 32) (by decide) (by decide) (by decide)).1 2
      (by decide) (by decide)⟩

/-- C14, the claim as stated fails.  The buffer `overlap_bytes` has a valid
magic tag, the bridge list `[1, 2]` and the hole list `[1]`, both strictly
ascending and below `width * height = 4`; index 2 is in the bridge list and
not in the hole list, but the square decoded at index 2 is no bridge.  The
buffer `overlap_source_bytes` has the same two lists and index 2 is a source
position of color 1: the square decoded at index 2 is a source, although
its index is in the bridge list. -/
theorem decode_overlap_bridge_missed :
    (subarea overlap_bytes 0 30).reads_inside
    ∧ (subarea overlap_bytes 0 30).read_u32 0 = CLFL_MAGIC
    ∧ Level.bridge_list (subarea overlap_bytes 0 30) = [1, 2]
    ∧ Level.hole_list (subarea overlap_bytes 0 30) = [1]
    ∧ (Level.decode (subarea overlap_bytes 0 30)).squares.map
        (fun s => (s.hole, s.bridge, s.source))
        = [(false, false, true), (true, false, false), (false, false, false),
            (false, false, true)]
    ∧ (subarea overlap_source_bytes 0 30).reads_inside
    ∧ (subarea overlap_source_bytes 0 30).read_u32 0 = CLFL_MAGIC
    ∧ Level.bridge_list (subarea overlap_source_bytes 0 30) = [1, 2]
    ∧ Level.hole_list (subarea overlap_source_bytes 0 30) = [1]
    ∧ Level.source_position (subarea overlap_source_bytes 0 30) 1 2
    ∧ (Level.decode (subarea overlap_source_bytes 0 30)).squares.map
        (fun s => (s.hole, s.bridge, s.source))
        = [(false, false, true), (true, false, false), (false, false, true),
            (false, false, false)] := by
  refine ⟨?_, ?_, ?_, ?_, ?_, ?_, ?_, ?_, ?_, ?_, ?_⟩ <;> decide

/-- C14, amended: for every level buffer with a valid magic tag whose hole
list and bridge list are strictly ascending, each decoded square is a hole
exactly when its index is in the hole list; a bridge exactly when its index
is in the bridge list, not in the hole list, and below every entry of the
bridge list that is also in the hole list; and a source exactly when its
index is a source position of one of the colors `1..color_count`, is not in
the hole list, and the square is no such bridge.  When every entry of the
bridge list that follows an entry shared with the hole list is itself in
the hole list, this is the classification by priority: a bridge exactly
when its index is in the bridge list and not in the hole list, a source
exactly when its index is a source position and in neither list.  All of
this holds when the hole, bridge and source lists share indices, and no
square gets more than one of the three flags.  The bytes of the level
buffer are taken to lie inside its owner. -/
theorem decode_classification (data : DataHolder) (_hin : data.reads_inside)
    (hmagic : data.read_u32 0 = CLFL_MAGIC)
    (hholes : (Level.hole_list data).Pairwise (fun a b => a < b))
    (hbridges : (Level.bridge_list data).Pairwise (fun a b => a < b)) :
    ∀ (i : Nat) (s : Square), (Level.decode data).squares[i]? = some s →
      (s.hole = true ↔ i ∈ Level.hole_list data)
      ∧ (s.bridge = true ↔ (i ∈ Level.bridge_list data ∧ i ∉ Level.hole_list data
          ∧ ∀ x ∈ Level.bridge_list data, x ∈ Level.hole_list data → i < x))
      ∧ (s.source = true ↔
          ((∃ k, 1 ≤ k ∧ k ≤ (Level.decode data).color_count ∧ Level.source_position data k i)
            ∧ i ∉ Level.hole_list data
            ∧ ¬(i ∈ Level.bridge_list data
                ∧ ∀ x ∈ Level.bridge_list data, x ∈ Level.hole_list data → i < x)))
      ∧ ((∀ x ∈ Level.bridge_list data, x ∈ Level.hole_list data →
            ∀ y ∈ Level.bridge_list data, x < y → y ∈ Level.hole_list data) →
          (s.bridge = true ↔ (i ∈ Level.bridge_list data ∧ i ∉ Level.hole_list data))
          ∧ (s.source = true ↔
              ((∃ k, 1 ≤ k ∧ k ≤ (Level.decode data).color_count
                  ∧ Level.source_position data k i)
                ∧ i ∉ Level.hole_list data ∧ i ∉ Level.bridge_list data)))
      ∧ ¬(s.hole = true ∧ s.bridge = true) ∧ ¬(s.hole = true ∧ s.source = true)
      ∧ ¬(s.bridge = true ∧ s.source = true) := by
  intro i s hs
  rw [decode_squares data hmagic] at hs
  have hH := build_squares_holes _ _ _ _ hholes _ 0 0 0 0 (ptr_ok_zero _) i s hs
  have hB := build_squares_bridges_overlap _ _ _ _ hbridges hholes _ 0 0 0 0 (ptr_ok_zero _)
    (ptr_ok_zero _) (fun x _ _ => Nat.zero_le x) i s hs
  obtain ⟨e1, e2, e3, -, -, -, -, -⟩ := build_squares_sources _ _ _ _ _ 0 0 0 0 i s hs
  rw [Nat.zero_add] at hH hB e3
  rw [(decode_header data).2.2]
  have hpos : (List.lookup i (read_sources data (data.byte 6))).isSome = true ↔
      ∃ k, 1 ≤ k ∧ k ≤ data.byte 6 ∧ Level.source_position data k i := by
    constructor
    · intro h
      obtain ⟨c, hc⟩ := Option.isSome_iff_exists.mp h
      obtain ⟨h1, h2, h3⟩ := read_sources_mem data _ _ (lookup_mem hc)
      exact ⟨c, h1, h2, h3⟩
    · rintro ⟨k, h1, h2, h3⟩
      exact read_sources_lookup data _ k i h1 h2 h3
  have hbr : s.bridge = true ↔ (i ∈ Level.bridge_list data ∧ i ∉ Level.hole_list data
      ∧ ∀ x ∈ Level.bridge_list data, x ∈ Level.hole_list data → i < x) := by
    rw [hB]
    constructor
    · rintro ⟨h1, h2⟩
      exact ⟨h1, fun hh => absurd (h2 i h1 hh) (lt_irrefl i), h2⟩
    · rintro ⟨h1, -, h2⟩
      exact ⟨h1, h2⟩
  have hsrc : s.source = true ↔
      ((∃ k, 1 ≤ k ∧ k ≤ data.byte 6 ∧ Level.source_position data k i)
        ∧ i ∉ Level.hole_list data
        ∧ ¬(i ∈ Level.bridge_list data
            ∧ ∀ x ∈ Level.bridge_list data, x ∈ Level.hole_list data → i < x)) := by
    rw [e3, hpos, ← hH, ← hB]
    constructor
    · rintro ⟨h1, h2, h3⟩
      exact ⟨h3, by simp [h1], by simp [h2]⟩
    · rintro ⟨h3, h1, h2⟩
      exact ⟨by simpa using h1, by simpa using h2, h3⟩
  refine ⟨hH, hbr, hsrc, ?_, ?_, ?_, ?_⟩
  · intro hlast
    have hkey : i ∉ Level.hole_list data →
        ((i ∈ Level.bridge_list data
          ∧ ∀ x ∈ Level.bridge_list data, x ∈ Level.hole_list data → i < x)
          ↔ i ∈ Level.bridge_list data) := by
      intro hnh
      constructor
      · intro h; exact h.1
      · intro hi
        refine ⟨hi, fun x hx hxh => ?_⟩
        by_contra hlt
        have hne : x ≠ i := fun e => hnh (e ▸ hxh)
        exact hnh (hlast x hx hxh i hi (by omega))
    constructor
    · rw [hbr]
      constructor
      · rintro ⟨h1, h2, -⟩; exact ⟨h1, h2⟩
      · rintro ⟨h1, h2⟩; exact ⟨h1, h2, ((hkey h2).mpr h1).2⟩
    · rw [hsrc]
      constructor
      · rintro ⟨h1, h2, h3⟩
        exact ⟨h1, h2, fun hi => h3 ((hkey h2).mpr hi)⟩
      · rintro ⟨h1, h2, h3⟩
        exact ⟨h1, h2, fun hi => h3 hi.1⟩
  · rintro ⟨h1, h2⟩
    rw [(e1 h1).1] at h2
    exact absurd h2 (by decide)
  · rintro ⟨h1, h2⟩
    rw [(e1 h1).2] at h2
    exact absurd h2 (by decide)
  · rintro ⟨h1, h2⟩
    rw [e2 h1] at h2
    exact absurd h2 (by decide)

/-- Witness of the amended C14 on `shared_last_bytes`, whose bridge list
`[1, 2]` and hole list `[2]` share index 2, which is also a source position:
the square decoded at index 2 is a hole, no bridge and no source. -/
theorem decode_classification_witness :
    (subarea shared_last_bytes 0 30).reads_inside
    ∧ (subarea shared_last_bytes 0 30).read_u32 0 = CLFL_MAGIC
    ∧ (Level.hole_list (subarea shared_last_bytes 0 30)).Pairwise (fun a b => a < b)
    ∧ (Level.bridge_list (subarea shared_last_bytes 0 30)).Pairwise (fun a b => a < b)
    ∧ Level.bridge_list (subarea shared_last_bytes 0 30) = [1, 2]
    ∧ Level.hole_list (subarea shared_last_bytes 0 30) = [2]
    ∧ Level.source_position (subarea shared_last_bytes 0 30) 1 2
    ∧ (∀ x ∈ Level.bridge_list (subarea shared_last_bytes 0 30),
        x ∈ Level.hole_list (subarea shared_last_bytes 0 30) →
        ∀ y ∈ Level.bridge_list (subarea shared_last_bytes 0 30), x < y →
          y ∈ Level.hole_list (subarea shared_last_bytes 0 30))
    ∧ (Level.decode (subarea shared_last_bytes 0 30)).squares[2]?
        = some ⟨0, 0, 0, true, false, false, 0, 0⟩
    ∧ ((⟨0, 0, 0, true, false, false, 0, 0⟩ : Square).bridge = true ↔
        (2 ∈ Level.bridge_list (subarea shared_last_bytes 0 30)
          ∧ 2 ∉ Level.hole_list (subarea shared_last_bytes 0 30)))
    ∧ ((⟨0, 0, 0, true, false, false, 0, 0⟩ : Square).source = true ↔
        ((∃ k, 1 ≤ k ∧ k ≤ (Level.decode (subarea shared_last_bytes 0 30)).color_count
            ∧ Level.source_position (subarea shared_last_bytes 0 30) k 2)
          ∧ 2 ∉ Level.hole_list (subarea shared_last_bytes 0 30)
          ∧ 2 ∉ Level.bridge_list (subarea shared_last_bytes 0 30))) :=
  ⟨by decide, by decide, by decide, by decide, by decide, by decide, by decide, by decide,
    by decide,
    (decode_classification (subarea shared_last_bytes 0 30) (by decide) (by decide) (by decide)
      (by decide) 2 ⟨0, 0, 0, true, false, false, 0, 0⟩ (by decide)).2.2.2.1 (by decide)⟩

/-- C15: for every level buffer with a valid magic tag, a decoded square
that is neither hole nor bridge and whose index is a source position of a
color `k` of `1..color_count` (one of the words at offsets `20 + 4 * (k - 1)`
and `22 + 4 * (k - 1)`) is a source whose color is such a `k` listing that
index; every decoded source has a color in `1..color_count`; every square
that is no source has color 0, and no decoded square has a connection.  The
bytes of the level buffer are taken to lie inside its owner. -/
theorem decode_sources (data : DataHolder) (_hin : data.reads_inside)
    (hmagic : data.read_u32 0 = CLFL_MAGIC) :
    ∀ (i : Nat) (s : Square), (Level.decode data).squares[i]? = some s →
      (s.hole = false → s.bridge = false →
        (∃ k, 1 ≤ k ∧ k ≤ (Level.decode data).color_count ∧ Level.source_position data k i) →
        s.source = true ∧ ∃ k, 1 ≤ k ∧ k ≤ (Level.decode data).color_count
          ∧ Level.source_position data k i ∧ s.color.val = k)
      ∧ (s.source = true → 1 ≤ s.color.val ∧ s.color.val ≤ (Level.decode data).color_count)
      ∧ (s.source = false → s.color = 0)
      ∧ s.direction = 0 ∧ s.bridge_above_direction = 0 := by
  intro i s hs
  rw [decode_squares data hmagic] at hs
  obtain ⟨-, -, e3, e4, e5, e6, e7, -⟩ := build_squares_sources _ _ _ _ _ 0 0 0 0 i s hs
  rw [Nat.zero_add] at e3 e4
  rw [(decode_header data).2.2]
  have hcolor : s.source = true → ∃ k, 1 ≤ k ∧ k ≤ data.byte 6
      ∧ Level.source_position data k i ∧ s.color.val = k := by
    intro h
    obtain ⟨c, hc, hcol⟩ := e4 h
    obtain ⟨h1, h2, h3⟩ := read_sources_mem data _ _ (lookup_mem hc)
    refine ⟨c, h1, h2, h3, ?_⟩
    rw [hcol]
    have := byte_lt data 6
    simp only [Fin.ofNat]
    simp only at h2
    exact Nat.mod_eq_of_lt (by omega)
  refine ⟨?_, ?_, e5, e6, e7⟩
  · rintro hh hb ⟨k, h1, h2, h3⟩
    have hsrc : s.source = true := e3.mpr ⟨hh, hb, read_sources_lookup data _ k i h1 h2 h3⟩
    exact ⟨hsrc, hcolor hsrc⟩
  · intro h
    obtain ⟨k, h1, h2, -, h4⟩ := hcolor h
    rw [h4]
    exact ⟨h1, h2⟩

/-- Witness of C15 on `kinds_level_bytes` at index 3, a source position of
color 1. -/
theorem decode_sources_witness :
    (subarea kinds_level_bytes 0 32).reads_inside
    ∧ (subarea kinds_level_bytes 0 32).read_u32 0 = CLFL_MAGIC
    ∧ (Level.decode (subarea kinds_level_bytes 0 32)).squares[3]?
        = some ⟨1, 0, 2, false, true, false, 0, 0⟩
    ∧ Level.source_position (subarea kinds_level_bytes 0 32) 1 3
    ∧ 1 ≤ (⟨1, 0, 2, false, true, false, 0, 0⟩ : Square).color.val
    ∧ (⟨1, 0, 2, false, true, false, 0, 0⟩ : Square).color.val
        ≤ (Level.decode (subarea kinds_level_bytes 0 32)).color_count :=
  ⟨by decide, by decide, by decide, by decide,
    (decode_sources (subarea kinds_level_bytes 0 32) (by decide) (by decide) 3
      ⟨1, 0, 2, false, true, false, 0, 0⟩ (by decide)).2.1 (by decide)⟩

theorem read_walls_mask (data : DataHolder) (off count : Nat) :
    ∀ r ∈ read_walls data off count, r.blocked_directions < 16 := by
  intro r hr
  unfold read_walls at hr
  simp only [List.mem_map, List.mem_range] at hr
  obtain ⟨k, -, rfl⟩ := hr
  simp only
  have h1 : data.read_u16 (off + 2 * k) &&& 0xF000 ≤ 0xF000 := Nat.and_le_right
  rw [Nat.shiftRight_eq_div_pow]
  have : (2 : Nat) ^ 12 = 4096 := by norm_num
  rw [this]
  omega

/-- C16, the claim as stated fails: the buffer `unsorted_walls_bytes` has a
valid magic tag and the wall records index 2, mask 1 and index 1, mask 1, in
this order; the square decoded at index 1 has `walls = 0`, not the mask 1 of
its record. -/
theorem decode_unsorted_walls_missed :
    (subarea unsorted_walls_bytes 0 28).reads_inside
    ∧ (subarea unsorted_walls_bytes 0 28).read_u32 0 = CLFL_MAGIC
    ∧ Level.wall_list (subarea unsorted_walls_bytes 0 28) = [⟨2, 1⟩, ⟨1, 1⟩]
    ∧ (Level.decode (subarea unsorted_walls_bytes 0 28)).squares.map (fun s => s.walls)
        = [0, 0, 1, 0] := by
  decide

/-- C16, amended: for every level buffer with a valid magic tag whose wall
records are strictly ascending in their square index (the low 12 bits), the
square decoded at the index of a record has `walls` equal to the record's
high 4 bits, whether it is a hole, a bridge, a source or none of them, and a
square named by no record has `walls = 0`.  The bytes of the level buffer
are taken to lie inside its owner. -/
theorem decode_walls (data : DataHolder) (_hin : data.reads_inside)
    (hmagic : data.read_u32 0 = CLFL_MAGIC)
    (hsorted : ((Level.wall_list data).map (fun r => r.square)).Pairwise (fun a b => a < b)) :
    ∀ (i : Nat) (s : Square), (Level.decode data).squares[i]? = some s →
      (∀ r ∈ Level.wall_list data, r.square = i → s.walls.val = r.blocked_directions)
      ∧ ((∀ r ∈ Level.wall_list data, r.square ≠ i) → s.walls = 0) := by
  intro i s hs
  rw [decode_squares data hmagic] at hs
  obtain ⟨h1, h2⟩ := build_squares_walls _ _ _ _ hsorted _ 0 0 0 0 (ptr_ok_zero _) i s hs
  rw [Nat.zero_add] at h1 h2
  refine ⟨?_, h2⟩
  intro r hr hri
  rw [h1 r hr hri]
  have := read_walls_mask data _ _ r hr
  simp only [Fin.ofNat]
  exact Nat.mod_eq_of_lt this

/-- Witness of the amended C16 on `kinds_level_bytes` at index 3, a source
with the wall record index 3, mask 2. -/
theorem decode_walls_witness :
    (subarea kinds_level_bytes 0 32).reads_inside
    ∧ (subarea kinds_level_bytes 0 32).read_u32 0 = CLFL_MAGIC
    ∧ ((Level.wall_list (subarea kinds_level_bytes 0 32)).map (fun r => r.square)).Pairwise
        (fun a b => a < b)
    ∧ (Level.decode (subarea kinds_level_bytes 0 32)).squares[3]?
        = some ⟨1, 0, 2, false, true, false, 0, 0⟩
    ∧ (⟨3, 2⟩ : WallInfo) ∈ Level.wall_list (subarea kinds_level_bytes 0 32)
    ∧ (⟨1, 0, 2, false, true, false, 0, 0⟩ : Square).walls.val = (⟨3, 2⟩ : WallInfo).blocked_directions :=
  ⟨by decide, by decide, by decide, by decide, by decide,
    (decode_walls (subarea kinds_level_bytes 0 32) (by decide) (by decide) (by decide) 3
      ⟨1, 0, 2, false, true, false, 0, 0⟩ (by decide)).1 ⟨3, 2⟩ (by decide) rfl⟩

/-! ### Sources, holes and bridges under `attemptMove` -/

/-- C17, the code at the failing input: on the level of `bridge_level_bytes`
color 1 is drawn from index 0 east onto the bridge at index 1 and color 2
from index 4 north onto the same bridge; the overlay end of the bridge is
then picked up (color 1) and the move south retracts the connection of
color 2 and puts the cursor on the source of color 2 at index 4 with color 1
still selected; the move east from there writes color 1 into that source. -/
theorem source_color_overwritten :
    (subarea bridge_level_bytes 0 42).reads_inside
    ∧ (Level.decode (subarea bridge_level_bytes 0 42)).squares[4]?.map
        (fun s => (s.source, s.color)) = some (true, 2)
    ∧ ((selected_level_to_play (Level.decode (subarea bridge_level_bytes 0 42))).run
        [.selectEndpoint, .move .east, .selectEndpoint, .move .south, .selectEndpoint,
          .move .north, .selectEndpoint, .toggleOverlayLayer, .selectEndpoint, .move .south,
          .move .east]).bind
        (fun c => c.current_level.squares[4]?.map (fun s => (s.source, s.color)))
        = some (true, 1) := by
  decide

/-- C18, the code at the failing input: on `row_level` (sources of color 1
at indices 0 and 1), after drawing from the source at index 1 east to index
2 and then from the source at index 0 east into the source at index 1, that
source holds the two connections east and west. -/
theorem source_holds_two_connections :
    (subarea row_level_bytes 0 24).reads_inside
    ∧ ((selected_level_to_play (Level.decode (subarea row_level_bytes 0 24))).run
        [.move .east, .selectEndpoint, .move .east, .selectEndpoint, .move .west, .move .west,
          .selectEndpoint, .move .east]).bind
        (fun c => c.current_level.squares[1]?.map
          (fun s => (s.source, s.direction, s.connection_count)))
        = some (true, 10, 2) := by
  decide

/-- C19, the code at the failing input: on the level of `hole_level_bytes`
(sources of color 1 at indices 0 and 2, a hole at index 1) the move east
from the selected source at index 0 writes color 1 and the connection west
into the hole at index 1. -/
theorem move_writes_into_hole :
    (subarea hole_level_bytes 0 26).reads_inside
    ∧ ((selected_level_to_play (Level.decode (subarea hole_level_bytes 0 26))).run
        [.selectEndpoint]).bind
        (fun c => c.current_level.squares[1]?.map (fun s => (s.hole, s.color, s.direction)))
        = some (true, 0, 0)
    ∧ ((selected_level_to_play (Level.decode (subarea hole_level_bytes 0 26))).run
        [.selectEndpoint]).bind
        (fun c => (c.attemptMove .east).bind
          (fun c1 => c1.current_level.squares[1]?.map (fun s => (s.hole, s.color, s.direction))))
        = some (true, 1, 8) := by
  decide

/-- C20, the code at the failing input: on the level of
`column_level_bytes`, one square wide and without wrap, the session reached
by `column_level_intents` has the cursor on the bridge at index 1 with color
2 selected and the overlay half-edge 2 of color 1 on that bridge; the move
south, a vertical move, resolves its target to index 2, whose connection
west is resolved to index 1 again, and clears the overlay half-edge of the
bridge. -/
theorem vertical_move_changes_overlay :
    (subarea column_level_bytes 0 30).reads_inside
    ∧ ((selected_level_to_play (Level.decode (subarea column_level_bytes 0 30))).run
        column_level_intents).bind
        (fun c => c.current_level.squares[c.playing_cursor_idx]?.map
          (fun s => (c.playing_cursor_idx, c.selected_color, s.bridge, s.bridge_above_direction)))
        = some (1, 2, true, 2)
    ∧ ((selected_level_to_play (Level.decode (subarea column_level_bytes 0 30))).run
        column_level_intents).bind
        (fun c => (c.attemptMove .south).bind
          (fun c1 => c1.current_level.squares[c.playing_cursor_idx]?.map
            (fun s => (c1.playing_cursor_idx, s.bridge, s.bridge_above_direction))))
        = some (2, true, 0) := by
  decide

/-! ### Moves with a color selected: writing a connection -/

theorem attemptMove_selected (c : LevelContainer) (d : Dir) (t : Nat)
    (hsel : c.selected_color ≠ 0) (ht : c.target_idx d = some t)
    (hne : t ≠ c.playing_cursor_idx) :
    c.attemptMove d = c.playing_cursor_move_either t d.mask d.opp.mask d.vertical := by
  have hs : (c.selected_color != 0) = true := by simpa using hsel
  rw [attemptMove_eq, ht]
  simp only [Option.some_bind, LevelContainer.cursor_step, if_neg hne, hs, if_true]

theorem forward_write (c : LevelContainer) (d : Dir) (t : Nat) (cur tgt : Square) (cm : Bool)
    (hsel : c.selected_color ≠ 0) (ht : c.target_idx d = some t)
    (hne : t ≠ c.playing_cursor_idx)
    (hcur : c.current_level.squares[c.playing_cursor_idx]? = some cur)
    (htgt : c.current_level.squares[t]? = some tgt)
    (hguard : bridge_axis_guard c cur d.vertical = false)
    (hretr : retraction_test cur d.mask d.vertical = false)
    (hins : inspect_target tgt c.selected_color d.vertical = .write cm false) :
    c.attemptMove d = some
      { c with
        current_level := { c.current_level with
          squares := (c.current_level.squares.set t
              (tgt.add_direction_color d.opp.mask (c.selected_color % 256))).set
            c.playing_cursor_idx (cur.add_direction_color d.mask (c.selected_color % 256)) },
        playing_cursor_idx := t, last_move_direction := d.mask, deleted_connection := false,
        level_data_changed := true,
        selected_color := if cm = true then 0 else c.selected_color } := by
  have hs : (c.selected_color != 0) = true := by simpa using hsel
  rw [attemptMove_selected c d t hsel ht hne]
  have hcur2 : (c.current_level.squares.set t
      (tgt.add_direction_color d.opp.mask (c.selected_color % 256)))[c.playing_cursor_idx]?
        = some cur := by
    rw [List.getElem?_set_ne hne]; exact hcur
  simp only [LevelContainer.playing_cursor_move_either, hcur, hguard, hretr, htgt, hins,
    Bool.false_eq_true, if_false, Option.some_bind, update_some _ htgt]
  rw [update_some _ hcur2]
  simp only [Option.map_some', LevelContainer.move_playing_cursor, hs, if_true]
  cases cm <;> rfl

theorem add_layer_color (s : Square) (D : Dir) (col : Nat) (hcol : col < 256) :
    ((s.add_direction_color D.mask col).layer_color D).val = col
      ∧ (s.add_direction_color D.mask col).bridge = s.bridge
      ∧ (s.add_direction_color D.mask col).source = s.source
      ∧ (s.add_direction_color D.mask col).hole = s.hole
      ∧ (s.add_direction_color D.mask col).walls = s.walls := by
  have h : (Fin.ofNat col : Fin 256).val = col := by
    simp only [Fin.ofNat]; exact Nat.mod_eq_of_lt hcol
  obtain ⟨c, dir, w, ho, sr, b, od, oc⟩ := s
  cases b <;> cases D <;>
    simp [Square.add_direction_color, Square.layer_color, Dir.mask, Dir.vertical, DIR_NORTH,
      DIR_EAST, DIR_SOUTH, DIR_WEST, h]

theorem squares_after_write (squares : List Square) (t p : Nat) (a b tgt cur : Square)
    (hne : t ≠ p) (htgt : squares[t]? = some tgt) (hcur : squares[p]? = some cur) :
    ((squares.set t a).set p b)[t]? = some a ∧ ((squares.set t a).set p b)[p]? = some b
      ∧ ∀ i, i ≠ t → i ≠ p → ((squares.set t a).set p b)[i]? = squares[i]? := by
  have ht : t < squares.length := by
    by_contra h
    rw [List.getElem?_eq_none (by omega)] at htgt
    exact absurd htgt (by simp)
  have hp : p < squares.length := by
    by_contra h
    rw [List.getElem?_eq_none (by omega)] at hcur
    exact absurd hcur (by simp)
  refine ⟨?_, ?_, ?_⟩
  · rw [List.getElem?_set_ne (Ne.symm hne), List.getElem?_set_self ht]
  · rw [List.getElem?_set_self (by simpa using hp)]
  · intro i h1 h2
    rw [List.getElem?_set_ne (Ne.symm h2), List.getElem?_set_ne (Ne.symm h1)]

/-- C24: with a color selected, a target other than the cursor's square, the
bridge-axis guard passed and the move no retraction, if the target is no
bridge, has the selected color and is either no source with exactly one
connection or a source with no connection, then `attemptMove` returns with
the cursor on the target and `selected_color = 0`; the target holds the
incoming direction bit and the square left holds the outgoing one (a bridge
in its overlay for east and west), both with the selected color on that
layer, and every other square is unchanged. -/
theorem completing_move (c : LevelContainer) (d : Dir) (t : Nat) (cur tgt : Square)
    (hsel : c.selected_color ≠ 0) (ht : c.target_idx d = some t)
    (hne : t ≠ c.playing_cursor_idx)
    (hcur : c.current_level.squares[c.playing_cursor_idx]? = some cur)
    (htgt : c.current_level.squares[t]? = some tgt)
    (hguard : bridge_axis_guard c cur d.vertical = false)
    (hretr : retraction_test cur d.mask d.vertical = false)
    (hb : tgt.bridge = false) (hcol : tgt.color.val = c.selected_color)
    (hkind : (tgt.source = false ∧ tgt.connection_count = 1)
      ∨ (tgt.source = true ∧ tgt.connection_count = 0)) :
    ∃ c1 tgt1 cur1, c.attemptMove d = some c1
      ∧ c1.playing_cursor_idx = t ∧ c1.selected_color = 0
      ∧ c1.current_level.squares[t]? = some tgt1
      ∧ c1.current_level.squares[c.playing_cursor_idx]? = some cur1
      ∧ tgt1.has_connection d.opp = true ∧ cur1.has_connection d = true
      ∧ tgt1.color.val = c.selected_color ∧ (cur1.layer_color d).val = c.selected_color
      ∧ ∀ i, i ≠ t → i ≠ c.playing_cursor_idx →
          c1.current_level.squares[i]? = c.current_level.squares[i]? := by
  have hlt : c.selected_color < 256 := by rw [← hcol]; exact tgt.color.isLt
  have hmod : c.selected_color % 256 = c.selected_color := Nat.mod_eq_of_lt hlt
  have hins : inspect_target tgt c.selected_color d.vertical = .write true false := by
    rcases hkind with ⟨h1, h2⟩ | ⟨h1, h2⟩ <;>
      simp [inspect_target, hb, hcol, h1, h2, Square.is_source]
  have hw := forward_write c d t cur tgt true hsel ht hne hcur htgt hguard hretr hins
  obtain ⟨s1, s2, s3⟩ := squares_after_write c.current_level.squares t c.playing_cursor_idx
    (tgt.add_direction_color d.opp.mask (c.selected_color % 256))
    (cur.add_direction_color d.mask (c.selected_color % 256)) tgt cur hne htgt hcur
  refine ⟨_, _, _, hw, rfl, rfl, s1, s2, ?_, ?_, ?_, ?_, s3⟩
  · rw [has_connection_add]; simp
  · rw [has_connection_add]; simp
  · rw [hmod]
    have := (add_layer_color tgt d.opp c.selected_color hlt).1
    simp only [Square.layer_color, (add_layer_color tgt d.opp c.selected_color hlt).2.1, hb,
      Bool.false_and, Bool.false_eq_true, if_false] at this
    exact this
  · rw [hmod]; exact (add_layer_color cur d c.selected_color hlt).1

theorem add_second_connection (s : Square) (D : Dir) (col : Nat) (hb : s.bridge = false)
    (hc : s.connection_count = 1) (hn : s.has_connection D = false) :
    (s.add_direction_color D.mask col).connection_count = 2 := by
  obtain ⟨c, dir, w, ho, sr, b, od, oc⟩ := s
  simp only at hb
  subst hb
  revert hc hn
  simp only [Square.add_direction_color, Square.connection_count, Square.has_connection,
    Bool.false_and, Bool.false_eq_true, if_false]
  revert dir
  cases D <;> decide

/-- C28, the claim as stated fails.  In `row_fallen_state` the move west from
index 1 is no retraction and its target, the source at index 0, is no
bridge, has the selected color 1 and exactly one connection, the one toward
index 1: the move is carried out and the source still holds one connection.
In `guard_level_state`, with the cursor on the bridge at index 4 entered
from the north, the move east is no retraction and its target, the source
at index 5, is no bridge, has the selected color 1 and exactly one
connection, but the bridge-axis guard refuses the move and the session is
unchanged. -/
theorem source_fall_through_fails :
    row_fallen_state.map (fun c => (c.playing_cursor_idx, c.selected_color, c.target_idx .west))
        = some (1, 1, some 0)
    ∧ row_fallen_state.bind (fun c => c.current_level.squares[1]?.map
          (fun cur => retraction_test cur DIR_WEST false)) = some false
    ∧ row_fallen_state.bind (fun c => c.current_level.squares[0]?.map
          (fun tgt => (tgt.source, tgt.bridge, tgt.color, tgt.connection_count)))
        = some (true, false, 1, 1)
    ∧ row_fallen_state.bind (fun c => (c.attemptMove .west).bind
          (fun c1 => c1.current_level.squares[0]?.map
            (fun tgt1 => (c1.playing_cursor_idx, tgt1.connection_count)))) = some (0, 1)
    ∧ guard_level_state.map (fun c => (c.playing_cursor_idx, c.selected_color, c.target_idx .east))
        = some (4, 1, some 5)
    ∧ guard_level_state.bind (fun c => c.current_level.squares[4]?.map
          (fun cur => retraction_test cur DIR_EAST false)) = some false
    ∧ guard_level_state.bind (fun c => c.current_level.squares[5]?.map
          (fun tgt => (tgt.source, tgt.bridge, tgt.color, tgt.connection_count)))
        = some (true, false, 1, 1)
    ∧ guard_level_state.bind (fun c => c.attemptMove .east) = guard_level_state := by
  decide

/-- C28, amended: with a color selected, a target other than the cursor's
square, the bridge-axis guard passed and the move no retraction, if the
target is a source that is no bridge, has the selected color and holds
exactly one connection, which is not the one toward the square left, then
`attemptMove` returns with the cursor on the source and `selected_color`
unchanged; the source holds the incoming direction bit and two connections,
keeps its color, and the square left holds the outgoing bit. -/
theorem source_fall_through (c : LevelContainer) (d : Dir) (t : Nat) (cur tgt : Square)
    (hsel : c.selected_color ≠ 0) (ht : c.target_idx d = some t)
    (hne : t ≠ c.playing_cursor_idx)
    (hcur : c.current_level.squares[c.playing_cursor_idx]? = some cur)
    (htgt : c.current_level.squares[t]? = some tgt)
    (hguard : bridge_axis_guard c cur d.vertical = false)
    (hretr : retraction_test cur d.mask d.vertical = false)
    (hb : tgt.bridge = false) (hsrc : tgt.source = true)
    (hcol : tgt.color.val = c.selected_color) (hcount : tgt.connection_count = 1)
    (hnew : tgt.has_connection d.opp = false) :
    ∃ c1 tgt1 cur1, c.attemptMove d = some c1
      ∧ c1.playing_cursor_idx = t ∧ c1.selected_color = c.selected_color
      ∧ c1.current_level.squares[t]? = some tgt1
      ∧ c1.current_level.squares[c.playing_cursor_idx]? = some cur1
      ∧ tgt1.has_connection d.opp = true ∧ tgt1.connection_count = 2
      ∧ tgt1.source = true ∧ tgt1.color = tgt.color
      ∧ cur1.has_connection d = true := by
  have hlt : c.selected_color < 256 := by rw [← hcol]; exact tgt.color.isLt
  have hmod : c.selected_color % 256 = c.selected_color := Nat.mod_eq_of_lt hlt
  have hins : inspect_target tgt c.selected_color d.vertical = .write false false := by
    simp [inspect_target, hb, hcol, hsrc, hcount, Square.is_source]
  have hw := forward_write c d t cur tgt false hsel ht hne hcur htgt hguard hretr hins
  obtain ⟨s1, s2, -⟩ := squares_after_write c.current_level.squares t c.playing_cursor_idx
    (tgt.add_direction_color d.opp.mask (c.selected_color % 256))
    (cur.add_direction_color d.mask (c.selected_color % 256)) tgt cur hne htgt hcur
  refine ⟨_, _, _, hw, rfl, rfl, s1, s2, ?_, ?_, ?_, ?_, ?_⟩
  · rw [has_connection_add]; simp
  · exact add_second_connection tgt d.opp _ hb hcount hnew
  · rw [(add_layer_color tgt d.opp _ (Nat.mod_lt _ (by norm_num))).2.2.1]; exact hsrc
  · rw [hmod]
    have := (add_layer_color tgt d.opp c.selected_color hlt).1
    simp only [Square.layer_color, (add_layer_color tgt d.opp c.selected_color hlt).2.1, hb,
      Bool.false_and, Bool.false_eq_true, if_false] at this
    apply Fin.ext
    rw [this, hcol]
  · rw [has_connection_add]; simp

/-- C29: with a color below 256 selected, a target other than the
cursor's square, the bridge-axis guard passed and the move no retraction, if
the target is a bridge whose layer of the move (`direction` for north and
south, the overlay for east and west) holds two connections, then
`attemptMove` returns with the cursor on the bridge and `selected_color`
unchanged; the color of that layer is the selected color, whatever it was,
every connection the bridge held is still set, as is the incoming one, and
the square left holds the outgoing bit. -/
theorem saturated_bridge_entered (c : LevelContainer) (d : Dir) (t : Nat) (cur tgt : Square)
    (hsel : c.selected_color ≠ 0) (hlt : c.selected_color < 256)
    (ht : c.target_idx d = some t) (hne : t ≠ c.playing_cursor_idx)
    (hcur : c.current_level.squares[c.playing_cursor_idx]? = some cur)
    (htgt : c.current_level.squares[t]? = some tgt)
    (hguard : bridge_axis_guard c cur d.vertical = false)
    (hretr : retraction_test cur d.mask d.vertical = false)
    (hb : tgt.bridge = true) (hcount : tgt.layer_count d = 2) :
    ∃ c1 tgt1 cur1, c.attemptMove d = some c1
      ∧ c1.playing_cursor_idx = t ∧ c1.selected_color = c.selected_color
      ∧ c1.current_level.squares[t]? = some tgt1
      ∧ c1.current_level.squares[c.playing_cursor_idx]? = some cur1
      ∧ (tgt1.layer_color d).val = c.selected_color
      ∧ (∀ D : Dir, tgt.has_connection D = true → tgt1.has_connection D = true)
      ∧ tgt1.has_connection d.opp = true
      ∧ cur1.has_connection d = true := by
  have hmod : c.selected_color % 256 = c.selected_color := Nat.mod_eq_of_lt hlt
  have hins : inspect_target tgt c.selected_color d.vertical = .write false false := by
    unfold Square.layer_count at hcount
    cases hv : d.vertical <;>
      simp only [hb, hv, Bool.true_and, Bool.not_true, Bool.not_false, Bool.false_eq_true,
        if_false, if_true, Bool.and_false] at hcount <;>
      simp [inspect_target, hb, hcount]
  have hw := forward_write c d t cur tgt false hsel ht hne hcur htgt hguard hretr hins
  obtain ⟨s1, s2, -⟩ := squares_after_write c.current_level.squares t c.playing_cursor_idx
    (tgt.add_direction_color d.opp.mask (c.selected_color % 256))
    (cur.add_direction_color d.mask (c.selected_color % 256)) tgt cur hne htgt hcur
  refine ⟨_, _, _, hw, rfl, rfl, s1, s2, ?_, ?_, ?_, ?_⟩
  · rw [hmod]
    have := (add_layer_color tgt d.opp c.selected_color hlt).1
    have hv : d.opp.vertical = d.vertical := by cases d <;> rfl
    simp only [Square.layer_color, hv] at this ⊢
    exact this
  · intro D hD
    rw [has_connection_add, hD]; rfl
  · rw [has_connection_add]; simp
  · rw [has_connection_add]; simp

/-- Witness of C24: in `row_selected_state` the move east enters the source
at index 1, which has the selected color and no connection. -/
theorem completing_move_witness :
    row_selected_state.selected_color ≠ 0
    ∧ row_selected_state.target_idx .east = some 1
    ∧ ∃ c1 tgt1 cur1, row_selected_state.attemptMove .east = some c1
      ∧ c1.playing_cursor_idx = 1 ∧ c1.selected_color = 0
      ∧ c1.current_level.squares[1]? = some tgt1
      ∧ c1.current_level.squares[row_selected_state.playing_cursor_idx]? = some cur1
      ∧ tgt1.has_connection Dir.east.opp = true ∧ cur1.has_connection .east = true
      ∧ tgt1.color.val = row_selected_state.selected_color
      ∧ (cur1.layer_color .east).val = row_selected_state.selected_color
      ∧ ∀ i, i ≠ 1 → i ≠ row_selected_state.playing_cursor_idx →
          c1.current_level.squares[i]? = row_selected_state.current_level.squares[i]? :=
  ⟨by decide, by decide,
    completing_move row_selected_state .east 1 ⟨1, 0, 0, false, true, false, 0, 0⟩
      ⟨1, 0, 0, false, true, false, 0, 0⟩ (by decide) (by decide) (by decide) (by decide)
      (by decide) (by decide) (by decide) (by decide) (by decide) (by decide)⟩

/-- Witness of the amended C28: in `row_second_state` the move east enters
the source at index 1, which holds its one connection toward index 2. -/
theorem source_fall_through_witness :
    row_second_state.selected_color ≠ 0
    ∧ row_second_state.target_idx .east = some 1
    ∧ ∃ c1 tgt1 cur1, row_second_state.attemptMove .east = some c1
      ∧ c1.playing_cursor_idx = 1 ∧ c1.selected_color = row_second_state.selected_color
      ∧ c1.current_level.squares[1]? = some tgt1
      ∧ c1.current_level.squares[row_second_state.playing_cursor_idx]? = some cur1
      ∧ tgt1.has_connection Dir.east.opp = true ∧ tgt1.connection_count = 2
      ∧ tgt1.source = true ∧ tgt1.color = (⟨1, 2, 0, false, true, false, 0, 0⟩ : Square).color
      ∧ cur1.has_connection .east = true :=
  ⟨by decide, by decide,
    source_fall_through row_second_state .east 1 ⟨1, 0, 0, false, true, false, 0, 0⟩
      ⟨1, 2, 0, false, true, false, 0, 0⟩ (by decide) (by decide) (by decide) (by decide)
      (by decide) (by decide) (by decide) (by decide) (by decide) (by decide) (by decide)
      (by decide)⟩

/-- Witness of C29: in `full_bridge_state` the move east enters the bridge at
index 1, whose overlay holds both half-edges in color 2. -/
theorem saturated_bridge_entered_witness :
    full_bridge_state.selected_color ≠ 0 ∧ full_bridge_state.selected_color < 256
    ∧ full_bridge_state.target_idx .east = some 1
    ∧ ∃ c1 tgt1 cur1, full_bridge_state.attemptMove .east = some c1
      ∧ c1.playing_cursor_idx = 1 ∧ c1.selected_color = full_bridge_state.selected_color
      ∧ c1.current_level.squares[1]? = some tgt1
      ∧ c1.current_level.squares[full_bridge_state.playing_cursor_idx]? = some cur1
      ∧ (tgt1.layer_color .east).val = full_bridge_state.selected_color
      ∧ (∀ D : Dir, (⟨0, 0, 0, false, false, true, 3, 2⟩ : Square).has_connection D = true →
          tgt1.has_connection D = true)
      ∧ tgt1.has_connection Dir.east.opp = true
      ∧ cur1.has_connection .east = true :=
  ⟨by decide, by decide, by decide,
    saturated_bridge_entered full_bridge_state .east 1 ⟨1, 0, 0, false, true, false, 0, 0⟩
      ⟨0, 0, 0, false, false, true, 3, 2⟩ (by decide) (by decide) (by decide) (by decide)
      (by decide) (by decide) (by decide) (by decide) (by decide) (by decide)⟩

/-! ### Moves with a color selected: retraction -/

theorem retraction_test_iff (cur : Square) (d : Dir) :
    retraction_test cur d.mask d.vertical = true
      ↔ (cur.layer_count d = 1 ∧ cur.has_connection d = true) := by
  obtain ⟨c, dir, w, ho, sr, b, od, oc⟩ := cur
  cases b <;> cases d <;>
    dsimp only [retraction_test, Square.layer_count, Square.has_connection, Dir.mask, Dir.vertical,
      Square.connection_count, Square.bridge_above_conn_count, DIR_NORTH, DIR_EAST, DIR_SOUTH,
      DIR_WEST] <;>
    simp only [Bool.false_and, Bool.true_and, Bool.false_eq_true, if_false, if_true,
      beq_self_eq_true, reduceCtorEq, beq_iff_eq, Nat.reduceEqDiff, Bool.not_true, Bool.not_false,
      bne_self_eq_false, Bool.and_false, Bool.and_true, Nat.reduceBEq, Bool.or_false,
      Bool.or_true, Bool.false_or] <;>
    (revert dir od; decide)

theorem retraction_first (cur : Square) (d : Dir)
    (h : retraction_test cur d.mask d.vertical = true) :
    cur.first_connection d.vertical = some d ∧ cur.returns_early = false := by
  obtain ⟨c, dir, w, ho, sr, b, od, oc⟩ := cur
  cases b <;> cases d <;> revert h <;>
    dsimp only [retraction_test, Square.first_connection, Square.returns_early, Dir.mask,
      Dir.vertical, Square.connection_count, Square.bridge_above_conn_count,
      Square.is_connected, DIR_NORTH, DIR_EAST, DIR_SOUTH, DIR_WEST] <;>
    simp only [Bool.false_and, Bool.true_and, Bool.false_eq_true, if_false, if_true,
      beq_self_eq_true, reduceCtorEq, beq_iff_eq, Nat.reduceEqDiff, Bool.not_true, Bool.not_false,
      bne_self_eq_false, Bool.and_false, Bool.and_true, Nat.reduceBEq, Bool.or_false,
      Bool.or_true, Bool.false_or] <;>
    (revert dir od; decide)

theorem retraction_step (c : LevelContainer) (d : Dir) (t : Nat) (cur tgt : Square)
    (hsel : c.selected_color ≠ 0) (ht : c.target_idx d = some t)
    (hne : t ≠ c.playing_cursor_idx)
    (hcur : c.current_level.squares[c.playing_cursor_idx]? = some cur)
    (htgt : c.current_level.squares[t]? = some tgt)
    (hguard : bridge_axis_guard c cur d.vertical = false)
    (hretr : retraction_test cur d.mask d.vertical = true) :
    c.attemptMove d = some
      { c with
        current_level := { c.current_level with
          squares := (c.current_level.squares.set t (tgt.remove_direction d.opp.mask)).set
            c.playing_cursor_idx (Square.clear_layer cur.bridge d.vertical cur) },
        playing_cursor_idx := t, last_move_direction := d.mask, deleted_connection := true,
        level_data_changed := true } := by
  have hs : (c.selected_color != 0) = true := by simpa using hsel
  obtain ⟨hfirst, hearly⟩ := retraction_first cur d hretr
  have hmove : c.current_level.move_idx_checked d c.playing_cursor_idx = some t := by
    rw [← ht, target_idx_eq, hs]
  have hcur2 : (c.current_level.squares.set t (tgt.remove_direction d.opp.mask))[
      c.playing_cursor_idx]? = some cur := by
    rw [List.getElem?_set_ne hne]; exact hcur
  rw [attemptMove_selected c d t hsel ht hne]
  simp only [LevelContainer.playing_cursor_move_either, hcur, hguard, hretr,
    Bool.false_eq_true, if_false, if_true]
  rw [remove_single_connection_eq _ _ _ cur hcur, hearly, hfirst]
  simp only [Bool.false_eq_true, if_false, hmove, Option.some_bind, Level.remove_direction,
    update_some _ htgt]
  rw [update_some _ hcur2]
  simp only [Option.map_some', LevelContainer.move_playing_cursor, hs, if_true]

theorem clear_layer_color (cur : Square) (d : Dir) (hsb : cur.source = true → cur.bridge = false) :
    (cur.source = false → (Square.clear_layer cur.bridge d.vertical cur).layer_color d = 0)
    ∧ (cur.source = true →
        (Square.clear_layer cur.bridge d.vertical cur).layer_color d = cur.layer_color d) := by
  obtain ⟨c, dir, w, ho, sr, b, od, oc⟩ := cur
  cases b <;> cases sr <;> cases d <;>
    simp [Square.clear_layer, Square.layer_color, Square.is_source, Dir.vertical] at hsb ⊢

theorem remove_direction_colors (s : Square) (m : Nat) :
    (s.remove_direction m).color = s.color
      ∧ (s.remove_direction m).bridge_above_color = s.bridge_above_color := by
  unfold Square.remove_direction
  split_ifs <;> exact ⟨rfl, rfl⟩

/-- C25: with a color selected, a target other than the cursor's square and
the bridge-axis guard passed, if the layer of the move on the current square
(the overlay of a bridge for east and west, `direction` otherwise) holds
exactly one connection and it points in the direction of the move, then
`attemptMove` returns with the cursor on the target, `deleted_connection`
set and `selected_color` unchanged; the current square has no connection
left on that layer and its color on that layer is 0, a source keeping its
color; the target has lost the connection back and nothing else; no other
square changes, so no connection is written.  Sources are taken to be no
bridges, as in every decoded level. -/
theorem retraction_move (c : LevelContainer) (d : Dir) (t : Nat) (cur tgt : Square)
    (hsel : c.selected_color ≠ 0) (ht : c.target_idx d = some t)
    (hne : t ≠ c.playing_cursor_idx)
    (hcur : c.current_level.squares[c.playing_cursor_idx]? = some cur)
    (htgt : c.current_level.squares[t]? = some tgt)
    (hguard : bridge_axis_guard c cur d.vertical = false)
    (hone : cur.layer_count d = 1) (hpoint : cur.has_connection d = true)
    (hsb : cur.source = true → cur.bridge = false) :
    ∃ c1 tgt1 cur1, c.attemptMove d = some c1
      ∧ c1.playing_cursor_idx = t ∧ c1.deleted_connection = true
      ∧ c1.selected_color = c.selected_color
      ∧ c1.current_level.squares[t]? = some tgt1
      ∧ c1.current_level.squares[c.playing_cursor_idx]? = some cur1
      ∧ (∀ D : Dir, Square.layer cur.bridge d.vertical D = true → cur1.has_connection D = false)
      ∧ (∀ D : Dir, Square.layer cur.bridge d.vertical D = false →
          cur1.has_connection D = cur.has_connection D)
      ∧ (cur.source = false → cur1.layer_color d = 0)
      ∧ (cur.source = true → cur1.layer_color d = cur.layer_color d)
      ∧ tgt1.has_connection d.opp = false
      ∧ (∀ D : Dir, D ≠ d.opp → tgt1.has_connection D = tgt.has_connection D)
      ∧ tgt1.color = tgt.color ∧ tgt1.bridge_above_color = tgt.bridge_above_color
      ∧ ∀ i, i ≠ t → i ≠ c.playing_cursor_idx →
          c1.current_level.squares[i]? = c.current_level.squares[i]? := by
  have hretr := (retraction_test_iff cur d).mpr ⟨hone, hpoint⟩
  have hstep := retraction_step c d t cur tgt hsel ht hne hcur htgt hguard hretr
  obtain ⟨s1, s2, s3⟩ := squares_after_write c.current_level.squares t c.playing_cursor_idx
    (tgt.remove_direction d.opp.mask) (Square.clear_layer cur.bridge d.vertical cur) tgt cur
    hne htgt hcur
  obtain ⟨k1, k2⟩ := clear_layer_color cur d hsb
  refine ⟨_, _, _, hstep, rfl, rfl, rfl, s1, s2, ?_, ?_, k1, k2, ?_, ?_,
    (remove_direction_colors tgt _).1, (remove_direction_colors tgt _).2, s3⟩
  · intro D hD
    rw [has_connection_clear_layer, hD]; simp
  · intro D hD
    rw [has_connection_clear_layer, hD]; simp
  · rw [has_connection_remove_direction]; simp
  · intro D hD
    rw [has_connection_remove_direction]
    have : (D != d.opp) = true := by simpa using hD
    rw [this, Bool.and_true]

/-- Witness of C25: in `row_drawn_state` the square under the cursor holds
one connection, to the west, and the move west takes it back. -/
theorem retraction_move_witness :
    row_drawn_state.selected_color ≠ 0
    ∧ row_drawn_state.target_idx .west = some 1
    ∧ ∃ c1 tgt1 cur1, row_drawn_state.attemptMove .west = some c1
      ∧ c1.playing_cursor_idx = 1 ∧ c1.deleted_connection = true
      ∧ c1.selected_color = row_drawn_state.selected_color
      ∧ c1.current_level.squares[1]? = some tgt1
      ∧ c1.current_level.squares[row_drawn_state.playing_cursor_idx]? = some cur1
      ∧ (∀ D : Dir, Square.layer (⟨1, 8, 0, false, false, false, 0, 0⟩ : Square).bridge
            Dir.west.vertical D = true → cur1.has_connection D = false)
      ∧ (∀ D : Dir, Square.layer (⟨1, 8, 0, false, false, false, 0, 0⟩ : Square).bridge
            Dir.west.vertical D = false →
          cur1.has_connection D = (⟨1, 8, 0, false, false, false, 0, 0⟩ : Square).has_connection D)
      ∧ ((⟨1, 8, 0, false, false, false, 0, 0⟩ : Square).source = false →
          cur1.layer_color .west = 0)
      ∧ ((⟨1, 8, 0, false, false, false, 0, 0⟩ : Square).source = true →
          cur1.layer_color .west = (⟨1, 8, 0, false, false, false, 0, 0⟩ : Square).layer_color .west)
      ∧ tgt1.has_connection Dir.west.opp = false
      ∧ (∀ D : Dir, D ≠ Dir.west.opp →
          tgt1.has_connection D = (⟨1, 2, 0, false, true, false, 0, 0⟩ : Square).has_connection D)
      ∧ tgt1.color = (⟨1, 2, 0, false, true, false, 0, 0⟩ : Square).color
      ∧ tgt1.bridge_above_color = (⟨1, 2, 0, false, true, false, 0, 0⟩ : Square).bridge_above_color
      ∧ ∀ i, i ≠ 1 → i ≠ row_drawn_state.playing_cursor_idx →
          c1.current_level.squares[i]? = row_drawn_state.current_level.squares[i]? :=
  ⟨by decide, by decide,
    retraction_move row_drawn_state .west 1 ⟨1, 8, 0, false, false, false, 0, 0⟩
      ⟨1, 2, 0, false, true, false, 0, 0⟩ (by decide) (by decide) (by decide) (by decide)
      (by decide) (by decide) (by decide) (by decide) (by decide)⟩

/-! ### Moves with a color selected: displacement -/

theorem first_of_single (s : Square) (D : Dir) (hb : s.bridge = false)
    (hc : s.connection_count = 1) (hD : s.has_connection D = true) :
    s.first_connection false = some D ∧ s.returns_early = false := by
  obtain ⟨c, dir, w, ho, sr, b, od, oc⟩ := s
  simp only at hb
  subst hb
  revert hc hD
  cases D <;>
    dsimp only [Square.first_connection, Square.returns_early, Square.has_connection,
      Square.connection_count, Square.is_connected, Dir.mask, DIR_NORTH, DIR_EAST, DIR_SOUTH,
      DIR_WEST] <;>
    simp only [Bool.false_and, Bool.true_and, Bool.false_eq_true, if_false, if_true,
      beq_self_eq_true, reduceCtorEq, beq_iff_eq, Nat.reduceEqDiff, Bool.not_true, Bool.not_false,
      bne_self_eq_false, Bool.and_false, Bool.and_true, Nat.reduceBEq, Bool.or_false,
      Bool.or_true, Bool.false_or] <;>
    (revert dir; decide)

theorem cleared_then_added (s : Square) (D : Dir) (col : Nat) (hcol : col < 256)
    (hb : s.bridge = false) (hs : s.source = false) :
    ((Square.clear_layer false false s).add_direction_color D.mask col).connection_count = 1
      ∧ ((Square.clear_layer false false s).add_direction_color D.mask col).has_connection D = true
      ∧ ((Square.clear_layer false false s).add_direction_color D.mask col).color.val = col := by
  have h : (Fin.ofNat col : Fin 256).val = col := by
    simp only [Fin.ofNat]; exact Nat.mod_eq_of_lt hcol
  obtain ⟨c, dir, w, ho, sr, b, od, oc⟩ := s
  simp only at hb hs
  subst hb hs
  refine ⟨?_, ?_, ?_⟩
  · cases D <;>
      simp only [Square.clear_layer, Square.add_direction_color, Square.is_source,
        Square.connection_count, Dir.mask, Bool.false_eq_true, if_false, Bool.not_false,
        if_true] <;> decide
  · cases D <;>
      simp only [Square.clear_layer, Square.add_direction_color, Square.is_source,
        Square.has_connection, Dir.mask, Bool.false_eq_true, if_false, Bool.not_false,
        if_true, Bool.false_and] <;> decide
  · simp [Square.clear_layer, Square.add_direction_color, Square.is_source, h]

theorem displacement_step (c : LevelContainer) (d D0 : Dir) (t n : Nat) (cur tgt nb : Square)
    (hsel : c.selected_color ≠ 0) (ht : c.target_idx d = some t)
    (hne : t ≠ c.playing_cursor_idx)
    (hcur : c.current_level.squares[c.playing_cursor_idx]? = some cur)
    (htgt : c.current_level.squares[t]? = some tgt)
    (hguard : bridge_axis_guard c cur d.vertical = false)
    (hretr : retraction_test cur d.mask d.vertical = false)
    (hb : tgt.bridge = false) (hsrc : tgt.source = false)
    (hcol : tgt.color.val ≠ c.selected_color) (hcount : tgt.connection_count = 1)
    (hD0 : tgt.has_connection D0 = true)
    (hn : c.current_level.move_idx_checked D0 t = some n) (hnt : n ≠ t)
    (hnc : n ≠ c.playing_cursor_idx) (hnb : c.current_level.squares[n]? = some nb) :
    c.attemptMove d = some
      { c with
        current_level := { c.current_level with
          squares := ((c.current_level.squares.set n (nb.remove_direction D0.opp.mask)).set t
              ((Square.clear_layer false false tgt).add_direction_color d.opp.mask
                (c.selected_color % 256))).set
            c.playing_cursor_idx (cur.add_direction_color d.mask (c.selected_color % 256)) },
        playing_cursor_idx := t, last_move_direction := d.mask, deleted_connection := false,
        level_data_changed := true } := by
  have hs : (c.selected_color != 0) = true := by simpa using hsel
  obtain ⟨hfirst, hearly⟩ := first_of_single tgt D0 hb hcount hD0
  have hins : inspect_target tgt c.selected_color d.vertical = .write false true := by
    simp [inspect_target, hb, hcol, hsrc, hcount, Square.is_source]
  have htgt2 : (c.current_level.squares.set n (nb.remove_direction D0.opp.mask))[t]?
      = some tgt := by
    rw [List.getElem?_set_ne hnt]; exact htgt
  have hlen : t < c.current_level.squares.length := by
    by_contra h
    rw [List.getElem?_eq_none (by omega)] at htgt
    exact absurd htgt (by simp)
  have htgt3 : ((c.current_level.squares.set n (nb.remove_direction D0.opp.mask)).set t
      (Square.clear_layer false false tgt))[t]? = some (Square.clear_layer false false tgt) := by
    rw [List.getElem?_set_self (by simpa using hlen)]
  have hcur2 : ((c.current_level.squares.set n (nb.remove_direction D0.opp.mask)).set t
      ((Square.clear_layer false false tgt).add_direction_color d.opp.mask
        (c.selected_color % 256)))[c.playing_cursor_idx]? = some cur := by
    rw [List.getElem?_set_ne hne, List.getElem?_set_ne hnc]; exact hcur
  rw [attemptMove_selected c d t hsel ht hne]
  simp only [LevelContainer.playing_cursor_move_either, hcur, hguard, hretr, htgt, hins,
    Bool.false_eq_true, if_false, if_true, hb]
  rw [remove_single_connection_eq _ _ _ tgt htgt, hearly, hfirst]
  simp only [Bool.false_eq_true, if_false, hn, Option.some_bind, Level.remove_direction,
    update_some _ hnb]
  rw [update_some _ htgt2]
  simp only [Option.some_bind, hb]
  rw [update_some _ htgt3]
  simp only [Option.some_bind, List.set_set]
  rw [update_some _ hcur2]
  simp only [Option.map_some', LevelContainer.move_playing_cursor, hs, if_true]

/-- C26, the claim as stated fails.  In `one_sided_wall_state` color 1 is
selected on index 3 and the move east is neither refused nor a retraction;
its target, index 4, is no source and no bridge, has color 2 and holds
exactly one connection, north toward index 1.  After the move index 1 still
holds the connection south toward the target: index 4 has a wall to the
north, so `remove_single_connection` resolves the neighbour to index 4
itself.  In `displace_back_state` color 1 is selected on index 4 and the
move east is neither refused nor a retraction; its target, index 5, is no
source and no bridge, has color 2 and holds exactly one connection, west
toward index 4, the square the cursor is on: after the move index 4 holds
the connection east toward the target, written as the outgoing bit. -/
theorem displacement_keeps_neighbour_bit :
    one_sided_wall_state.map (fun c => (c.playing_cursor_idx, c.selected_color,
        c.target_idx .east, c.current_level.adjacent 4 .north)) = some (3, 1, some 4, some 1)
    ∧ one_sided_wall_state.bind (fun c => c.current_level.squares[3]?.map
        (fun cur => (bridge_axis_guard c cur false, retraction_test cur DIR_EAST false)))
        = some (false, false)
    ∧ one_sided_wall_state.bind (fun c => c.current_level.squares[4]?.map
        (fun tgt => (tgt.source, tgt.bridge, tgt.color, tgt.connection_count,
          tgt.has_connection .north))) = some (false, false, 2, 1, true)
    ∧ one_sided_wall_state.bind (fun c => (c.attemptMove .east).map
        (fun c1 => (c1.playing_cursor_idx, c1.current_level.conn 1 .south,
          c1.current_level.conn 4 .west))) = some (4, true, true)
    ∧ displace_back_state.map (fun c => (c.playing_cursor_idx, c.selected_color,
        c.target_idx .east, c.current_level.move_idx_checked .west 5))
        = some (4, 1, some 5, some 4)
    ∧ displace_back_state.bind (fun c => c.current_level.squares[4]?.map
        (fun cur => (bridge_axis_guard c cur false, retraction_test cur DIR_EAST false)))
        = some (false, false)
    ∧ displace_back_state.bind (fun c => c.current_level.squares[5]?.map
        (fun tgt => (tgt.source, tgt.bridge, tgt.color, tgt.connection_count,
          tgt.has_connection .west))) = some (false, false, 2, 1, true)
    ∧ displace_back_state.bind (fun c => (c.attemptMove .east).map
        (fun c1 => (c1.playing_cursor_idx, c1.current_level.conn 4 .east)))
        = some (5, true) := by
  refine ⟨?_, ?_, ?_, ?_, ?_, ?_, ?_, ?_⟩ <;> decide

/-- C26, amended: with a color below 256 selected, a target other than the
cursor's square, the bridge-axis guard passed and the move no retraction, if
the target is no source and no bridge, has a color other than the selected
one and holds exactly one connection, toward `D0`, and
`move_idx_*_checked` resolves from the target toward `D0` a square `n`
other than the target (the target has no wall on that side) and other than
the cursor's square, then `attemptMove` returns with the cursor on the
target; the square `n` no longer holds the connection back toward the
target, the target holds exactly one connection, the incoming one, with
the selected color, and the square left holds the outgoing bit. -/
theorem displacement_move (c : LevelContainer) (d D0 : Dir) (t n : Nat) (cur tgt nb : Square)
    (hsel : c.selected_color ≠ 0) (hlt : c.selected_color < 256)
    (ht : c.target_idx d = some t) (hne : t ≠ c.playing_cursor_idx)
    (hcur : c.current_level.squares[c.playing_cursor_idx]? = some cur)
    (htgt : c.current_level.squares[t]? = some tgt)
    (hguard : bridge_axis_guard c cur d.vertical = false)
    (hretr : retraction_test cur d.mask d.vertical = false)
    (hb : tgt.bridge = false) (hsrc : tgt.source = false)
    (hcol : tgt.color.val ≠ c.selected_color) (hcount : tgt.connection_count = 1)
    (hD0 : tgt.has_connection D0 = true)
    (hn : c.current_level.move_idx_checked D0 t = some n) (hnt : n ≠ t)
    (hnc : n ≠ c.playing_cursor_idx) (hnb : c.current_level.squares[n]? = some nb) :
    ∃ c1 nb1 tgt1 cur1, c.attemptMove d = some c1
      ∧ c1.playing_cursor_idx = t ∧ c1.selected_color = c.selected_color
      ∧ c1.current_level.squares[n]? = some nb1
      ∧ c1.current_level.squares[t]? = some tgt1
      ∧ c1.current_level.squares[c.playing_cursor_idx]? = some cur1
      ∧ nb1.has_connection D0.opp = false
      ∧ tgt1.connection_count = 1 ∧ tgt1.has_connection d.opp = true
      ∧ tgt1.color.val = c.selected_color
      ∧ cur1.has_connection d = true := by
  have hmod : c.selected_color % 256 = c.selected_color := Nat.mod_eq_of_lt hlt
  have hstep := displacement_step c d D0 t n cur tgt nb hsel ht hne hcur htgt hguard hretr hb
    hsrc hcol hcount hD0 hn hnt hnc hnb
  have hlt_t : t < c.current_level.squares.length := by
    by_contra h
    rw [List.getElem?_eq_none (by omega)] at htgt
    exact absurd htgt (by simp)
  have hlt_n : n < c.current_level.squares.length := by
    by_contra h
    rw [List.getElem?_eq_none (by omega)] at hnb
    exact absurd hnb (by simp)
  have hlt_c : c.playing_cursor_idx < c.current_level.squares.length := by
    by_contra h
    rw [List.getElem?_eq_none (by omega)] at hcur
    exact absurd hcur (by simp)
  obtain ⟨k1, k2, k3⟩ := cleared_then_added tgt d.opp c.selected_color hlt hb hsrc
  refine ⟨_, nb.remove_direction D0.opp.mask,
    (Square.clear_layer false false tgt).add_direction_color d.opp.mask (c.selected_color % 256),
    cur.add_direction_color d.mask (c.selected_color % 256), hstep, rfl, rfl, ?_, ?_, ?_, ?_,
    ?_, ?_, ?_, ?_⟩
  · simp only
    rw [List.getElem?_set_ne (Ne.symm hnc), List.getElem?_set_ne (Ne.symm hnt),
      List.getElem?_set_self hlt_n]
  · simp only
    rw [List.getElem?_set_ne (Ne.symm hne), List.getElem?_set_self (by simpa using hlt_t)]
  · simp only
    rw [List.getElem?_set_self (by simpa using hlt_c)]
  · rw [has_connection_remove_direction]; simp
  · rw [hmod]; exact k1
  · rw [hmod]; exact k2
  · rw [hmod]; exact k3
  · rw [has_connection_add]; simp

/-- Witness of the amended C26: in `displace_state` the move east enters
index 1, which has color 2 and one connection, east toward index 2. -/
theorem displacement_move_witness :
    displace_state.selected_color ≠ 0 ∧ displace_state.selected_color < 256
    ∧ displace_state.target_idx .east = some 1
    ∧ displace_state.current_level.move_idx_checked .east 1 = some 2
    ∧ ∃ c1 nb1 tgt1 cur1, displace_state.attemptMove .east = some c1
      ∧ c1.playing_cursor_idx = 1 ∧ c1.selected_color = displace_state.selected_color
      ∧ c1.current_level.squares[2]? = some nb1
      ∧ c1.current_level.squares[1]? = some tgt1
      ∧ c1.current_level.squares[displace_state.playing_cursor_idx]? = some cur1
      ∧ nb1.has_connection Dir.east.opp = false
      ∧ tgt1.connection_count = 1 ∧ tgt1.has_connection Dir.east.opp = true
      ∧ tgt1.color.val = displace_state.selected_color
      ∧ cur1.has_connection .east = true :=
  ⟨by decide, by decide, by decide, by decide,
    displacement_move displace_state .east .east 1 2 ⟨1, 0, 0, false, true, false, 0, 0⟩
      ⟨2, 2, 0, false, false, false, 0, 0⟩ ⟨2, 8, 0, false, true, false, 0, 0⟩
      (by decide) (by decide) (by decide) (by decide) (by decide) (by decide) (by decide)
      (by decide) (by decide) (by decide) (by decide) (by decide) (by decide) (by decide)
      (by decide) (by decide) (by decide)⟩

/-! ### The bridge-axis guard -/

theorem bridge_axis_guard_eq (c : LevelContainer) (cur : Square) (d : Dir) :
    bridge_axis_guard c cur d.vertical
      = (cur.bridge && (c.last_move_direction &&& d.axis == 0)) := by
  unfold bridge_axis_guard Dir.axis
  cases c.deleted_connection <;> cases cur.bridge <;> simp

theorem move_either_flag (c : LevelContainer) (b : Bool) (t m1 m2 : Nat) (v : Bool) :
    (({ c with deleted_connection := b }).playing_cursor_move_either t m1 m2 v).map
        (fun c1 : LevelContainer => (c1.current_level, c1.playing_cursor_idx, c1.selected_color))
      = (c.playing_cursor_move_either t m1 m2 v).map
        (fun c1 : LevelContainer => (c1.current_level, c1.playing_cursor_idx, c1.selected_color)) := by
  have hg : ∀ cur, bridge_axis_guard { c with deleted_connection := b } cur v
      = bridge_axis_guard c cur v := by
    intro cur
    unfold bridge_axis_guard
    cases b <;> cases c.deleted_connection <;> simp
  unfold LevelContainer.playing_cursor_move_either
  simp only [hg]
  cases c.current_level.squares[c.playing_cursor_idx]? with
  | none => rfl
  | some cur =>
    simp only
    by_cases h1 : bridge_axis_guard c cur v = true
    · simp only [h1, if_true, Option.map_some']
    · simp only [h1, Bool.false_eq_true, if_false]
      by_cases h2 : retraction_test cur m1 v = true
      · simp only [h2, if_true, Option.map_map]
        congr 1
        funext level
        simp only [Function.comp, LevelContainer.move_playing_cursor]
        split_ifs <;> rfl
      · simp only [h2, Bool.false_eq_true, if_false]
        cases c.current_level.squares[t]? with
        | none => rfl
        | some tgt =>
          simp only
          cases inspect_target tgt c.selected_color v with
          | refuse => simp only [Option.map_some']
          | write cm rf =>
            simp only [Option.map_map]
            congr 1
            funext level
            simp only [Function.comp, LevelContainer.move_playing_cursor]
            split_ifs <;> rfl

/-- C27: the bridge-axis guard as coded equals the single test "the current
square is a bridge and `last_move_direction` has no bit on the axis of the
move", whatever `deleted_connection` is; with a color selected and a target
other than the cursor's square, a move from a bridge with
`last_move_direction` off the axis of the move returns the session
unchanged; and the level, cursor and selected color `attemptMove` returns
are the same for both values of the incoming `deleted_connection`. -/
theorem guard_ignores_retraction_flag (c : LevelContainer) (d : Dir) :
    (∀ cur : Square, bridge_axis_guard c cur d.vertical
        = (cur.bridge && (c.last_move_direction &&& d.axis == 0)))
    ∧ (∀ (t : Nat) (cur : Square), c.selected_color ≠ 0 → c.target_idx d = some t →
        t ≠ c.playing_cursor_idx →
        c.current_level.squares[c.playing_cursor_idx]? = some cur → cur.bridge = true →
        c.last_move_direction &&& d.axis = 0 → c.attemptMove d = some c)
    ∧ (∀ b : Bool, (({ c with deleted_connection := b }).attemptMove d).map
          (fun c1 : LevelContainer => (c1.current_level, c1.playing_cursor_idx, c1.selected_color))
        = (c.attemptMove d).map
          (fun c1 : LevelContainer => (c1.current_level, c1.playing_cursor_idx, c1.selected_color))) := by
  refine ⟨fun cur => bridge_axis_guard_eq c cur d, ?_, ?_⟩
  · intro t cur hsel ht hne hcur hb hoff
    rw [attemptMove_selected c d t hsel ht hne]
    have hg : bridge_axis_guard c cur d.vertical = true := by
      rw [bridge_axis_guard_eq, hb, hoff]; rfl
    simp only [LevelContainer.playing_cursor_move_either, hcur, hg, if_true]
  · intro b
    have ht : ({ c with deleted_connection := b }).target_idx d = c.target_idx d := by
      cases d <;> rfl
    rw [attemptMove_eq, attemptMove_eq, ht]
    cases c.target_idx d with
    | none => rfl
    | some t =>
      simp only [Option.some_bind, LevelContainer.cursor_step]
      by_cases h1 : t = c.playing_cursor_idx
      · simp only [h1, if_true, Option.map_some']
      · simp only [h1, if_false]
        by_cases h2 : (c.selected_color != 0) = true
        · simp only [h2, if_true]
          exact move_either_flag c b t _ _ _
        · simp only [h2, Bool.false_eq_true, if_false, Option.map_some',
            LevelContainer.move_playing_cursor]

/-- Witness of C27: in `bridge_cursor_state` the cursor is on a bridge
entered along the row, and the move south changes nothing. -/
theorem guard_ignores_retraction_flag_witness :
    bridge_cursor_state.selected_color ≠ 0
    ∧ bridge_cursor_state.target_idx .south = some 2
    ∧ bridge_cursor_state.last_move_direction &&& Dir.south.axis = 0
    ∧ bridge_cursor_state.attemptMove .south = some bridge_cursor_state :=
  ⟨by decide, by decide, by decide,
    (guard_ignores_retraction_flag bridge_cursor_state .south).2.1 2
      ⟨0, 0, 0, false, false, true, 2, 1⟩ (by decide) (by decide) (by decide) (by decide)
      (by decide) (by decide)⟩

/-! ### Opposite neighbours -/

theorem grid_facts_u16 {w h n idx : Nat} (hlt16 : n < 65536) (hn : n = w * h)
    (hidx : idx < n) :
    0 < w ∧ 0 < h ∧ n < 65536 ∧ w * (idx / w) + idx % w = idx ∧ idx % w < w ∧ idx / w < h
      ∧ w * (idx / w) + w ≤ n := by
  have hwpos : 0 < w := by
    rcases Nat.eq_zero_or_pos w with h0 | h0
    · subst h0; simp at hn; omega
    · exact h0
  have hhpos : 0 < h := by
    rcases Nat.eq_zero_or_pos h with h0 | h0
    · subst h0; simp at hn; omega
    · exact h0
  have hr : idx / w < h := Nat.div_lt_of_lt_mul (by rw [← hn]; exact hidx)
  have hmul : w * (idx / w + 1) ≤ w * h := Nat.mul_le_mul_left w hr
  rw [Nat.mul_add, Nat.mul_one] at hmul
  exact ⟨hwpos, hhpos, by omega, Nat.div_add_mod idx w, Nat.mod_lt _ hwpos, hr, by omega⟩

theorem free_north_u16 {w h n idx : Nat} (hlt16 : n < 65536) (hn : n = w * h)
    (hidx : idx < n) :
    (if idx < w then u16 ((n : Int) - ((w : Int) - idx)) else u16 ((idx : Int) - w))
      = ((idx / w + h - 1) % h) * w + idx % w := by
  obtain ⟨hwpos, hhpos, hlt, hdm, hc, hr, hrow⟩ := grid_facts_u16 hlt16 hn hidx
  by_cases htop : idx < w
  · have hr0 : idx / w = 0 := Nat.div_eq_of_lt htop
    have hc0 : idx % w = idx := Nat.mod_eq_of_lt htop
    have hm : (0 + h - 1) % h = h - 1 := by
      rw [Nat.zero_add]; exact Nat.mod_eq_of_lt (by omega)
    have hs : (h - 1) * w = w * h - w := by
      rw [Nat.sub_mul, Nat.one_mul, Nat.mul_comm]
    have hge : w ≤ w * h := Nat.le_mul_of_pos_right w hhpos
    rw [if_pos htop, hr0, hc0, hm, hs]
    unfold u16; omega
  · have hrpos : 1 ≤ idx / w := (Nat.one_le_div_iff hwpos).mpr (by omega)
    have hm : (idx / w + h - 1) % h = idx / w - 1 := by
      have : idx / w + h - 1 = (idx / w - 1) + h := by omega
      rw [this, Nat.add_mod_right, Nat.mod_eq_of_lt (by omega)]
    have hs : (idx / w - 1) * w = w * (idx / w) - w := by
      rw [Nat.sub_mul, Nat.one_mul, Nat.mul_comm]
    have hge : w ≤ w * (idx / w) := Nat.le_mul_of_pos_right w hrpos
    rw [if_neg htop, hm, hs]
    unfold u16; omega

theorem free_south_u16 {w h n idx : Nat} (hlt16 : n < 65536) (hn : n = w * h)
    (hidx : idx < n) :
    (if idx ≥ (h - 1) * w then u16 ((idx : Int) + w - n) else u16 ((idx : Int) + w))
      = ((idx / w + 1) % h) * w + idx % w := by
  obtain ⟨hwpos, hhpos, hlt, hdm, hc, hr, hrow⟩ := grid_facts_u16 hlt16 hn hidx
  have hs : (h - 1) * w = w * h - w := by
    rw [Nat.sub_mul, Nat.one_mul, Nat.mul_comm]
  have hge : w ≤ w * h := Nat.le_mul_of_pos_right w hhpos
  by_cases hbot : idx ≥ (h - 1) * w
  · have hrl : h - 1 ≤ idx / w := (Nat.le_div_iff_mul_le hwpos).mpr hbot
    have hre : idx / w + 1 = h := by omega
    have hwr : w * (idx / w) = w * h - w := by
      have : w * (idx / w + 1) = w * h := by rw [hre]
      rw [Nat.mul_add, Nat.mul_one] at this
      omega
    rw [if_pos hbot, hre, Nat.mod_self, Nat.zero_mul]
    unfold u16; omega
  · have hrl : idx / w + 1 < h := by
      by_contra hcon
      have hre : idx / w = h - 1 := by omega
      have : w * (idx / w) = (h - 1) * w := by rw [hre, Nat.mul_comm]
      omega
    have hs2 : (idx / w + 1) * w = w * (idx / w) + w := by
      rw [Nat.add_mul, Nat.one_mul, Nat.mul_comm]
    rw [if_neg hbot, Nat.mod_eq_of_lt hrl, hs2]
    unfold u16; omega

theorem free_west_u16 {w h n idx : Nat} (hlt16 : n < 65536) (hn : n = w * h)
    (hidx : idx < n) :
    (if idx % w = 0 then u16 ((idx : Int) + w - 1) else u16 ((idx : Int) - 1))
      = (idx / w) * w + (idx % w + w - 1) % w := by
  obtain ⟨hwpos, hhpos, hlt, hdm, hc, hr, hrow⟩ := grid_facts_u16 hlt16 hn hidx
  rw [Nat.mul_comm (idx / w) w]
  by_cases hl : idx % w = 0
  · rw [if_pos hl, hl, Nat.zero_add, Nat.mod_eq_of_lt (by omega)]
    unfold u16; omega
  · have hm : (idx % w + w - 1) % w = idx % w - 1 := by
      have : idx % w + w - 1 = (idx % w - 1) + w := by omega
      rw [this, Nat.add_mod_right, Nat.mod_eq_of_lt (by omega)]
    rw [if_neg hl, hm]
    unfold u16; omega

theorem free_east_u16 {w h n idx : Nat} (hlt16 : n < 65536) (hn : n = w * h)
    (hidx : idx < n) :
    (if idx % w = w - 1 then u16 ((idx : Int) - w + 1) else u16 ((idx : Int) + 1))
      = (idx / w) * w + (idx % w + 1) % w := by
  obtain ⟨hwpos, hhpos, hlt, hdm, hc, hr, hrow⟩ := grid_facts_u16 hlt16 hn hidx
  rw [Nat.mul_comm (idx / w) w]
  by_cases hl : idx % w = w - 1
  · have : idx % w + 1 = w := by omega
    rw [if_pos hl, this, Nat.mod_self]
    unfold u16; omega
  · rw [if_neg hl, Nat.mod_eq_of_lt (by omega)]
    unfold u16; omega

theorem free_target_lt_u16 (l : Level) (hn : l.squares.length = l.width * l.height)
    (hlt16 : l.squares.length < 65536) (idx : Nat)
    (hidx : idx < l.squares.length) (d : Dir) : free_target l idx d < l.squares.length := by
  obtain ⟨hwpos, hhpos, -, -, hc, hr, -⟩ := grid_facts_u16 hlt16 hn hidx
  rw [hn]
  cases d <;> simp only [free_target]
  · exact row_col_lt (torus_step hr).2.2.1 hc
  · exact row_col_lt hr (torus_step hc).2.2.2
  · exact row_col_lt (torus_step hr).2.2.2 hc
  · exact row_col_lt hr (torus_step hc).2.2.1

theorem free_target_opp_u16 (l : Level) (hn : l.squares.length = l.width * l.height)
    (hlt16 : l.squares.length < 65536) (idx : Nat)
    (hidx : idx < l.squares.length) (d : Dir) :
    free_target l (free_target l idx d) d.opp = idx := by
  obtain ⟨hwpos, hhpos, -, hdm, hc, hr, -⟩ := grid_facts_u16 hlt16 hn hidx
  have hdm2 : idx / l.width * l.width + idx % l.width = idx := by
    rw [Nat.mul_comm]; exact hdm
  cases d <;> simp only [free_target, Dir.opp]
  · obtain ⟨e1, e2⟩ := row_col (r := (idx / l.width + l.height - 1) % l.height) hc
    rw [e1, e2, (torus_step hr).1, hdm2]
  · obtain ⟨e1, e2⟩ := row_col (r := idx / l.width) (torus_step hc).2.2.2
    rw [e1, e2, (torus_step hc).2.1, hdm2]
  · obtain ⟨e1, e2⟩ := row_col (r := (idx / l.width + 1) % l.height) hc
    rw [e1, e2, (torus_step hr).2.1, hdm2]
  · obtain ⟨e1, e2⟩ := row_col (r := idx / l.width) (torus_step hc).2.2.1
    rw [e1, e2, (torus_step hc).1, hdm2]

theorem move_idx_free_u16 (l : Level) (hn : l.squares.length = l.width * l.height)
    (hlt16 : l.squares.length < 65536) (idx : Nat)
    (hidx : idx < l.squares.length) (d : Dir) :
    l.move_idx_checked d idx false = some (free_target l idx d) := by
  obtain ⟨hwpos, -⟩ := grid_facts_u16 hlt16 hn hidx
  have hw0 : l.width ≠ 0 := by omega
  cases d
  · have := free_north_u16 hlt16 hn hidx
    simp only [Level.move_idx_checked, Level.move_idx_up_checked, Level.wall_blocks,
      Level.square_is_top_row, Level.move_idx_up, free_target] at *
    simp only [Bool.false_eq_true, if_false, Bool.not_false, Bool.or_true,
      Bool.true_and, decide_eq_true_eq]
    split_ifs at * <;> simp_all
  · have := free_east_u16 hlt16 hn hidx
    simp only [Level.move_idx_checked, Level.move_idx_right_checked, Level.wall_blocks,
      Level.square_is_right_column, Level.move_idx_right, free_target, hw0] at *
    simp only [Bool.false_eq_true, if_false, Bool.not_false, Bool.or_true, if_true]
    split_ifs at this with hl
    · rw [beq_iff_eq.mpr hl, this]
    · rw [beq_eq_false_iff_ne.mpr hl, this]
  · have := free_south_u16 hlt16 hn hidx
    simp only [Level.move_idx_checked, Level.move_idx_down_checked, Level.wall_blocks,
      Level.square_is_bottom_row, Level.move_idx_down, free_target] at *
    simp only [Bool.false_eq_true, if_false, Bool.not_false, Bool.or_true,
      Bool.true_and, decide_eq_true_eq]
    split_ifs at * <;> simp_all
  · have := free_west_u16 hlt16 hn hidx
    simp only [Level.move_idx_checked, Level.move_idx_left_checked, Level.wall_blocks,
      Level.square_is_left_column, Level.move_idx_left, free_target, hw0] at *
    simp only [Bool.false_eq_true, if_false, Bool.not_false, Bool.or_true, if_true]
    split_ifs at this with hl
    · rw [beq_iff_eq.mpr hl, this]
    · rw [beq_eq_false_iff_ne.mpr hl, this]

/-- C30: on every board with `width >= 1`, `height >= 1`,
`width * height <= 65535` and `width * height` squares, and for every index
below `width * height`, each `move_idx_*_checked` method called with
`check_walls = false` returns an index below `width * height`, and the
method of the opposite direction, called on that index, returns the index
started from: north then south, south then north, east then west and west
then east all come back, in the 16-bit arithmetic of the source. -/
theorem opposite_neighbours_inverse (l : Level) (_hw : 1 ≤ l.width) (_hh : 1 ≤ l.height)
    (hn : l.width * l.height ≤ 65535) (hlen : l.squares.length = l.width * l.height)
    (idx : Nat) (hidx : idx < l.width * l.height) (d : Dir) :
    ∃ n, l.move_idx_checked d idx false = some n ∧ n < l.width * l.height
      ∧ l.move_idx_checked d.opp n false = some idx := by
  have hlt16 : l.squares.length < 65536 := by omega
  rw [← hlen] at hidx ⊢
  have hlt := free_target_lt_u16 l hlen hlt16 idx hidx d
  refine ⟨free_target l idx d, move_idx_free_u16 l hlen hlt16 idx hidx d, hlt, ?_⟩
  rw [move_idx_free_u16 l hlen hlt16 _ hlt d.opp, free_target_opp_u16 l hlen hlt16 idx hidx d]

/-- Witness of C30 on `torus_board`: north of index 0 is index 2, and south
of index 2 is index 0. -/
theorem opposite_neighbours_inverse_witness :
    1 ≤ torus_board.width ∧ 1 ≤ torus_board.height
    ∧ torus_board.width * torus_board.height ≤ 65535
    ∧ torus_board.squares.length = torus_board.width * torus_board.height
    ∧ 0 < torus_board.width * torus_board.height
    ∧ ∃ n, torus_board.move_idx_checked .north 0 false = some n
      ∧ n < torus_board.width * torus_board.height
      ∧ torus_board.move_idx_checked Dir.north.opp n false = some 0 :=
  ⟨by decide, by decide, by decide, by decide, by decide,
    opposite_neighbours_inverse torus_board (by decide) (by decide) (by decide) (by decide) 0
      (by decide) .north⟩

/-! ### Retraction after a forward step -/

theorem move_idx_checked_frame (l : Level) (squares : List Square) (idx : Nat) (d : Dir)
    (b : Bool) (hlen : squares.length = l.squares.length)
    (hw : (squares[idx]?).map (fun s => s.walls) = (l.squares[idx]?).map (fun s => s.walls)) :
    ({ l with squares := squares } : Level).move_idx_checked d idx b
      = l.move_idx_checked d idx b := by
  have hwb : ∀ m, ({ l with squares := squares } : Level).wall_blocks idx m b
      = l.wall_blocks idx m b := by
    intro m
    unfold Level.wall_blocks
    cases b
    · rfl
    · simp only [if_true]
      cases h1 : squares[idx]? with
      | none =>
        rw [h1] at hw
        cases h2 : l.squares[idx]? with
        | none => rfl
        | some s => rw [h2] at hw; simp at hw
      | some s1 =>
        rw [h1] at hw
        cases h2 : l.squares[idx]? with
        | none => rw [h2] at hw; simp at hw
        | some s =>
          rw [h2] at hw
          simp only [Option.map_some', Option.some.injEq] at hw
          simp only [hw]
  cases d <;>
    simp only [Level.move_idx_checked, Level.move_idx_up_checked, Level.move_idx_right_checked,
      Level.move_idx_down_checked, Level.move_idx_left_checked, hwb, hlen,
      Level.square_is_top_row, Level.square_is_bottom_row, Level.square_is_left_column,
      Level.square_is_right_column, Level.move_idx_up, Level.move_idx_down,
      Level.move_idx_left, Level.move_idx_right]

theorem move_idx_checked_open (l : Level) (idx : Nat) (d : Dir) (s : Square)
    (hs : l.squares[idx]? = some s) (hw : s.walls.val &&& d.mask = 0) :
    l.move_idx_checked d idx true
      = if l.warp then l.move_idx_checked d idx false
        else some (match d with
          | .north => l.move_idx_up idx
          | .east => l.move_idx_right idx
          | .south => l.move_idx_down idx
          | .west => l.move_idx_left idx) := by
  have hb : (s.walls.val &&& d.mask != 0) = false := by simp [hw]
  cases hwarp : l.warp <;> cases d <;> simp only [Dir.mask] at hb <;>
    simp [Level.move_idx_checked, Level.move_idx_up_checked, Level.move_idx_right_checked,
      Level.move_idx_down_checked, Level.move_idx_left_checked, Level.wall_blocks, hs, hb, hwarp]

theorem move_idx_checked_blocked (l : Level) (idx : Nat) (d : Dir) (s : Square)
    (hs : l.squares[idx]? = some s) (hw : s.walls.val &&& d.mask ≠ 0) :
    l.move_idx_checked d idx true = some idx := by
  have hb : (s.walls.val &&& d.mask != 0) = true := by simpa using hw
  cases d <;> simp only [Dir.mask] at hb <;>
    simp [Level.move_idx_checked, Level.move_idx_up_checked, Level.move_idx_right_checked,
      Level.move_idx_down_checked, Level.move_idx_left_checked, Level.wall_blocks, hs, hb]

theorem move_back (l : Level) (hwf : l.well_formed) (x t : Nat) (d : Dir) (sx st : Square)
    (hx : l.squares[x]? = some sx) (ht : l.squares[t]? = some st)
    (hm : l.move_idx_checked d x true = some t) (hne : t ≠ x)
    (hw : st.walls.val &&& d.opp.mask = 0) :
    l.move_idx_checked d.opp t true = some x := by
  have hxl : x < l.squares.length := by
    by_contra h
    rw [List.getElem?_eq_none (by omega)] at hx
    exact absurd hx (by simp)
  have htl : t < l.squares.length := by
    by_contra h
    rw [List.getElem?_eq_none (by omega)] at ht
    exact absurd ht (by simp)
  have hwx : sx.walls.val &&& d.mask = 0 := by
    by_contra h
    rw [move_idx_checked_blocked l x d sx hx h] at hm
    exact hne (Option.some.inj hm).symm
  rw [move_idx_checked_open l x d sx hx hwx] at hm
  rw [move_idx_checked_open l t d.opp st ht hw]
  cases hwarp : l.warp
  · simp only [hwarp, Bool.false_eq_true, if_false, Option.some.injEq] at hm ⊢
    obtain ⟨hw8, hh8, hn⟩ := hwf
    have hb : l.squares.length ≤ 255 * 255 := by
      rw [hn]; exact Nat.mul_le_mul (by omega) (by omega)
    cases d <;>
      simp only [Dir.opp, Level.move_idx_up, Level.move_idx_down, Level.move_idx_left,
        Level.move_idx_right, u16] at hm ⊢ <;> omega
  · simp only [hwarp, if_true] at hm ⊢
    obtain ⟨hw8, hh8, hn⟩ := hwf
    have hb : l.squares.length < 65536 := by
      have : l.width * l.height ≤ 255 * 255 := Nat.mul_le_mul (by omega) (by omega)
      omega
    rw [move_idx_free_u16 l hn hb x hxl d] at hm
    have := Option.some.inj hm
    subst this
    rw [move_idx_free_u16 l hn hb _ htl d.opp, free_target_opp_u16 l hn hb x hxl d]

theorem forward_write_noop (c : LevelContainer) (d : Dir) (t : Nat) (cur tgt : Square)
    (cm rf : Bool)
    (hsel : c.selected_color ≠ 0) (ht : c.target_idx d = some t)
    (hne : t ≠ c.playing_cursor_idx)
    (hcur : c.current_level.squares[c.playing_cursor_idx]? = some cur)
    (htgt : c.current_level.squares[t]? = some tgt)
    (hguard : bridge_axis_guard c cur d.vertical = false)
    (hretr : retraction_test cur d.mask d.vertical = false)
    (hins : inspect_target tgt c.selected_color d.vertical = .write cm rf)
    (hrf : rf = true → tgt.returns_early = true) :
    c.attemptMove d = some
      { c with
        current_level := { c.current_level with
          squares := (c.current_level.squares.set t
              (tgt.add_direction_color d.opp.mask (c.selected_color % 256))).set
            c.playing_cursor_idx (cur.add_direction_color d.mask (c.selected_color % 256)) },
        playing_cursor_idx := t, last_move_direction := d.mask, deleted_connection := false,
        level_data_changed := true,
        selected_color := if cm = true then 0 else c.selected_color } := by
  cases rf with
  | false => exact forward_write c d t cur tgt cm hsel ht hne hcur htgt hguard hretr hins
  | true =>
    have hearly := hrf rfl
    have hs : (c.selected_color != 0) = true := by simpa using hsel
    rw [attemptMove_selected c d t hsel ht hne]
    have hcur2 : (c.current_level.squares.set t
        (tgt.add_direction_color d.opp.mask (c.selected_color % 256)))[c.playing_cursor_idx]?
          = some cur := by
      rw [List.getElem?_set_ne hne]; exact hcur
    simp only [LevelContainer.playing_cursor_move_either, hcur, hguard, hretr, htgt, hins,
      Bool.false_eq_true, if_false, if_true, remove_single_connection_eq _ _ _ tgt htgt, hearly,
      ite_self, Option.some_bind, update_some _ htgt]
    rw [update_some _ hcur2]
    simp only [Option.map_some', LevelContainer.move_playing_cursor, hs, if_true]
    cases cm <;> rfl

theorem empty_target_inspect (tgt : Square) (sel : Nat) (v : Bool) (hsel : sel ≠ 0)
    (hc : tgt.color = 0) (hd : tgt.direction = 0) (hod : tgt.bridge_above_direction = 0)
    (hsrc : tgt.source = false) :
    ∃ rf, inspect_target tgt sel v = .write false rf ∧ (rf = true → tgt.returns_early = true) := by
  obtain ⟨c, dir, w, ho, sr, b, od, oc⟩ := tgt
  simp only at hc hd hod hsrc
  subst hc hd hod hsrc
  have h0 : ¬ (0 = sel) := fun h => hsel h.symm
  cases b <;> cases v <;>
    simp [inspect_target, Square.returns_early, Square.connection_count,
      Square.bridge_above_conn_count, Square.is_source, Square.is_connected, number_of_bits, h0]

theorem added_is_retractable (tgt : Square) (D : Dir) (col : Nat)
    (hd : tgt.direction = 0) (hod : tgt.bridge_above_direction = 0) :
    retraction_test (tgt.add_direction_color D.mask col) D.mask D.vertical = true := by
  obtain ⟨c, dir, w, ho, sr, b, od, oc⟩ := tgt
  simp only at hd hod
  subst hd hod
  rw [retraction_test_iff]
  cases b <;> cases D <;>
    simp only [Square.add_direction_color, Square.layer_count, Square.has_connection, Dir.mask,
      Dir.vertical, Square.connection_count, Square.bridge_above_conn_count, DIR_NORTH,
      DIR_EAST, DIR_SOUTH, DIR_WEST, Bool.false_eq_true, if_false, if_true, Nat.reduceEqDiff,
      Bool.false_and, Bool.true_and, Bool.not_true, Bool.not_false, reduceCtorEq,
      beq_self_eq_true, beq_iff_eq, Bool.and_false, Bool.and_true] <;> decide

theorem clear_added (tgt : Square) (D : Dir) (col : Nat)
    (hc : tgt.color = 0) (hd : tgt.direction = 0) (hod : tgt.bridge_above_direction = 0)
    (hoc : tgt.bridge_above_color = 0) (hsrc : tgt.source = false) :
    Square.clear_layer (tgt.add_direction_color D.mask col).bridge D.vertical
      (tgt.add_direction_color D.mask col) = tgt := by
  obtain ⟨c, dir, w, ho, sr, b, od, oc⟩ := tgt
  simp only at hc hd hod hoc hsrc
  subst hc hd hod hoc hsrc
  cases b <;> cases D <;>
    simp [Square.add_direction_color, Square.clear_layer, Square.is_source, Dir.mask,
      Dir.vertical, DIR_NORTH, DIR_EAST, DIR_SOUTH, DIR_WEST]

theorem add_then_remove (cur : Square) (D : Dir) (col : Nat)
    (hfree : cur.has_connection D = false) (hcol : (cur.layer_color D).val = col) :
    (cur.add_direction_color D.mask col).remove_direction D.mask = cur := by
  obtain ⟨c, dir, w, ho, sr, b, od, oc⟩ := cur
  revert hfree hcol
  cases b <;> cases D <;>
    dsimp only [Square.add_direction_color, Square.remove_direction, Square.has_connection,
      Square.layer_color, Dir.mask, Dir.vertical, DIR_NORTH, DIR_EAST, DIR_SOUTH, DIR_WEST] <;>
    simp only [Bool.false_and, Bool.true_and, Bool.false_eq_true, if_false, if_true,
      beq_self_eq_true, reduceCtorEq, beq_iff_eq, Nat.reduceEqDiff, Bool.not_true, Bool.not_false,
      bne_self_eq_false, Bool.and_false, Bool.and_true, Nat.reduceBEq, Bool.or_false,
      Bool.or_true, Bool.false_or, Square.mk.injEq, and_true, true_and] <;>
    intro hfree hcol <;> subst hcol <;>
    refine ⟨?_, ?_⟩ <;>
    first
      | (revert hfree; revert dir; decide)
      | (revert hfree; revert od; decide)
      | (apply Fin.ext; simp only [Fin.ofNat]; omega)

theorem squares_restore (squares : List Square) (t p : Nat) (a b tgt cur : Square)
    (htgt : squares[t]? = some tgt) (hcur : squares[p]? = some cur) :
    (((squares.set t a).set p b).set p cur).set t tgt = squares := by
  apply List.ext_getElem?
  intro i
  by_cases h1 : i = t
  · subst h1
    rw [htgt]
    have hl : i < squares.length := by
      by_contra h
      rw [List.getElem?_eq_none (by omega)] at htgt
      exact absurd htgt (by simp)
    rw [List.getElem?_set_self (by simpa using hl)]
  · rw [List.getElem?_set_ne (Ne.symm h1)]
    by_cases h2 : i = p
    · subst h2
      rw [hcur]
      have hl : i < squares.length := by
        by_contra h
        rw [List.getElem?_eq_none (by omega)] at hcur
        exact absurd hcur (by simp)
      rw [List.getElem?_set_self (by simpa using hl)]
    · rw [List.getElem?_set_ne (Ne.symm h2), List.getElem?_set_ne (Ne.symm h2),
        List.getElem?_set_ne (Ne.symm h1)]

/-- C22, the claim as stated fails.  In `wall_pick_state` color 2 is selected
on index 1 and the move south is a forward extension into index 4, which
has no color and no connection; index 4 has a wall to the north that index
1 does not have to the south, so the move north that follows is refused
and cursor and board stay as the forward step left them.  In
`bridge_mismatch_state` color 1 is selected on the source of color 2 at
index 4; the move east is a forward extension into index 5 and the move
west that follows takes it back, but the source keeps color 1. -/
theorem retraction_does_not_undo :
    wall_pick_state.bind (fun c => c.current_level.squares[4]?.map
        (fun tgt => (c.playing_cursor_idx, c.selected_color, tgt.color, tgt.direction)))
      = some (1, 2, 0, 0)
    ∧ wall_pick_state.bind (fun c => (c.attemptMove .south).bind
        (fun c1 => (c1.attemptMove .north).map
          (fun c2 => (c1.playing_cursor_idx, c1.selected_color, c2.playing_cursor_idx,
            decide (c2.current_level = c.current_level))))) = some (4, 2, 4, false)
    ∧ bridge_mismatch_state.bind (fun c => c.current_level.squares[5]?.map
        (fun tgt => (c.playing_cursor_idx, c.selected_color, tgt.color, tgt.direction)))
      = some (4, 1, 0, 0)
    ∧ bridge_mismatch_state.bind (fun c => (c.attemptMove .east).bind
        (fun c1 => (c1.attemptMove .west).map
          (fun c2 => (c1.playing_cursor_idx, c1.selected_color, c2.playing_cursor_idx,
            decide (c2.current_level = c.current_level))))) = some (5, 1, 4, false)
    ∧ bridge_mismatch_state.bind (fun c => (c.attemptMove .east).bind
        (fun c1 => (c1.attemptMove .west).bind
          (fun c2 => c.current_level.squares[4]?.bind
            (fun s => c2.current_level.squares[4]?.map
              (fun s2 => (s.source, s.color, s2.color)))))) = some (true, 2, 1) := by
  decide

/-- C22, amended: on a board of `width * height` squares, with a color
selected, if `attemptMove` toward `d` is a forward extension (a target other
than the cursor's square, the bridge-axis guard passed, no retraction) into
a target that is no source and has no color and no connection on either
layer, and if moreover the square left already has the selected color on
the layer of the move and no connection toward `d`, and the target has no
wall on the side of the square left, then the move is carried out without
completing, and `attemptMove` in the opposite direction right after it
returns the cursor to the square left and the level to exactly what it was
before the first move, with the same color selected. -/
theorem retraction_undoes_forward (c : LevelContainer) (d : Dir) (t : Nat) (cur tgt : Square)
    (hwf : c.current_level.well_formed)
    (hsel : c.selected_color ≠ 0) (ht : c.target_idx d = some t)
    (hne : t ≠ c.playing_cursor_idx)
    (hcur : c.current_level.squares[c.playing_cursor_idx]? = some cur)
    (htgt : c.current_level.squares[t]? = some tgt)
    (hguard : bridge_axis_guard c cur d.vertical = false)
    (hretr : retraction_test cur d.mask d.vertical = false)
    (hempty : tgt.color = 0 ∧ tgt.direction = 0 ∧ tgt.bridge_above_direction = 0
      ∧ tgt.bridge_above_color = 0)
    (hsrc : tgt.source = false)
    (hcolor : (cur.layer_color d).val = c.selected_color)
    (hfree : cur.has_connection d = false)
    (hwall : tgt.walls.val &&& d.opp.mask = 0) :
    ∃ c1 c2, c.attemptMove d = some c1
      ∧ c1.playing_cursor_idx = t ∧ c1.selected_color = c.selected_color
      ∧ c1.attemptMove d.opp = some c2
      ∧ c2.playing_cursor_idx = c.playing_cursor_idx
      ∧ c2.current_level = c.current_level
      ∧ c2.selected_color = c.selected_color := by
  obtain ⟨hc0, hd0, hod0, hoc0⟩ := hempty
  have hs : (c.selected_color != 0) = true := by simpa using hsel
  have hlt : c.selected_color < 256 := by rw [← hcolor]; exact (cur.layer_color d).isLt
  have hmod : c.selected_color % 256 = c.selected_color := Nat.mod_eq_of_lt hlt
  obtain ⟨rf, hins, hrf⟩ := empty_target_inspect tgt c.selected_color d.vertical hsel hc0 hd0
    hod0 hsrc
  have h1 := forward_write_noop c d t cur tgt false rf hsel ht hne hcur htgt hguard hretr hins
    hrf
  rw [hmod] at h1
  simp only [Bool.false_eq_true, if_false] at h1
  obtain ⟨s1, s2, -⟩ := squares_after_write c.current_level.squares t c.playing_cursor_idx
    (tgt.add_direction_color d.opp.mask c.selected_color)
    (cur.add_direction_color d.mask c.selected_color) tgt cur hne htgt hcur
  let c1 : LevelContainer :=
    { c with
      current_level := { c.current_level with
        squares := (c.current_level.squares.set t
            (tgt.add_direction_color d.opp.mask c.selected_color)).set
          c.playing_cursor_idx (cur.add_direction_color d.mask c.selected_color) },
      playing_cursor_idx := t, last_move_direction := d.mask, deleted_connection := false,
      level_data_changed := true, selected_color := c.selected_color }
  have hmove : c.current_level.move_idx_checked d.opp t true = some c.playing_cursor_idx := by
    apply move_back c.current_level hwf c.playing_cursor_idx t d cur tgt hcur htgt _ hne hwall
    rw [← ht, target_idx_eq, hs]
  have hwalls : (c1.current_level.squares[t]?).map (fun s => s.walls)
      = (c.current_level.squares[t]?).map (fun s => s.walls) := by
    show ((((c.current_level.squares.set t _).set c.playing_cursor_idx _))[t]?).map _ = _
    rw [s1, htgt]
    simp only [Option.map_some']
    rw [(add_layer_color tgt d.opp c.selected_color hlt).2.2.2.2]
  have ht2 : c1.target_idx d.opp = some c.playing_cursor_idx := by
    rw [target_idx_eq]
    show Level.move_idx_checked { c.current_level with squares := c1.current_level.squares }
      d.opp t (c.selected_color != 0) = _
    rw [hs, move_idx_checked_frame _ _ _ _ _ (by simp [c1]) hwalls]
    exact hmove
  have hg2 : bridge_axis_guard c1 (tgt.add_direction_color d.opp.mask c.selected_color)
      d.opp.vertical = false := by
    rw [bridge_axis_guard_eq]
    show (_ && (d.mask &&& d.opp.axis == 0)) = false
    cases d <;> simp [Dir.axis, Dir.mask, Dir.opp, Dir.vertical, DIR_NORTH, DIR_EAST,
      DIR_SOUTH, DIR_WEST]
  have h2 := retraction_step c1 d.opp c.playing_cursor_idx
    (tgt.add_direction_color d.opp.mask c.selected_color)
    (cur.add_direction_color d.mask c.selected_color) hsel ht2 (Ne.symm hne) s1 s2 hg2
    (added_is_retractable tgt d.opp c.selected_color hd0 hod0)
  simp only [c1, Dir.opp_opp, add_then_remove cur d c.selected_color hfree hcolor,
    clear_added tgt d.opp c.selected_color hc0 hd0 hod0 hoc0 hsrc,
    squares_restore _ _ _ _ _ _ _ htgt hcur] at h2
  exact ⟨_, _, h1, rfl, rfl, h2, rfl, rfl, rfl⟩

/-- Witness of the amended C22: in `row_pick_state` the move east from the
source at index 1 extends into index 2, and the move west takes it back. -/
theorem retraction_undoes_forward_witness :
    row_pick_state.current_level.well_formed ∧ row_pick_state.selected_color ≠ 0
    ∧ row_pick_state.target_idx .east = some 2
    ∧ ∃ c1 c2, row_pick_state.attemptMove .east = some c1
      ∧ c1.playing_cursor_idx = 2 ∧ c1.selected_color = row_pick_state.selected_color
      ∧ c1.attemptMove Dir.east.opp = some c2
      ∧ c2.playing_cursor_idx = row_pick_state.playing_cursor_idx
      ∧ c2.current_level = row_pick_state.current_level
      ∧ c2.selected_color = row_pick_state.selected_color :=
  ⟨by decide, by decide, by decide,
    retraction_undoes_forward row_pick_state .east 2 ⟨1, 0, 0, false, true, false, 0, 0⟩
      Square.zero (by decide) (by decide) (by decide) (by decide) (by decide) (by decide)
      (by decide) (by decide) (by decide) (by decide) (by decide) (by decide) (by decide)⟩

/-! ### The corner scenario and `select_square` -/

/-- C21, the claim as stated fails: on the three by three board with the
sources of color 1 at indices 0 and 8, starting with the cursor on index 0,
the sequence `selectEndpoint, east, east, south, south` ends with
`selected_color = 0` and the cursor on index 8, but `completed()` is
false. -/
theorem corner_path_not_completed :
    (subarea corner_level_bytes 0 24).reads_inside
    ∧ (Level.decode (subarea corner_level_bytes 0 24)).squares.map
        (fun s => (s.source, s.color, s.walls, s.bridge, s.hole))
      = [(true, 1, 0, false, false), (false, 0, 0, false, false), (false, 0, 0, false, false),
          (false, 0, 0, false, false), (false, 0, 0, false, false), (false, 0, 0, false, false),
          (false, 0, 0, false, false), (false, 0, 0, false, false), (true, 1, 0, false, false)]
    ∧ corner_edge_run.map (fun c => (c.playing_cursor_idx, c.selected_color,
        c.current_level.completed)) = some (8, 0, false) := by
  decide

/-- C21, amended: on the same board the sequence
`selectEndpoint, east, east, south, south` ends with `selected_color = 0`
and the five squares of the path (indices 0, 1, 2, 5, 8) complete, while
`completed()` is false because the squares at indices 3, 4, 6 and 7 hold no
connection; the sequence through all nine squares,
`selectEndpoint, east, east, south, west, west, south, east, east`, ends
with `selected_color = 0` and `completed() = true`. -/
theorem corner_scenario :
    corner_edge_run.map (fun c => (c.selected_color,
        c.current_level.squares.map (fun s => (s.complete, s.connection_count)),
        c.current_level.completed))
      = some (0, [(true, 1), (true, 2), (true, 2), (false, 0), (false, 0), (true, 2),
          (false, 0), (false, 0), (true, 1)], false)
    ∧ corner_snake_run.map (fun c => (c.playing_cursor_idx, c.selected_color,
        c.current_level.completed)) = some (8, 0, true) := by
  decide

/-- C23, the claim as stated fails: in `hole_cursor_state` no color is
selected and the square under the cursor is no source and no bridge and
holds exactly one connection, with color 1; it is a hole, and
`select_square` leaves `selected_color = 0`. -/
theorem select_square_skips_hole :
    hole_cursor_state.bind (fun c => c.current_level.squares[c.playing_cursor_idx]?.map
        (fun s => (c.selected_color, s.source, s.bridge, s.connection_count, s.color, s.hole)))
      = some (0, false, false, 1, 1, true)
    ∧ hole_cursor_state.bind (fun c => c.select_square.map (fun c1 => c1.selected_color))
      = some 0 := by
  decide

/-- C23, amended: with the cursor on the board, `select_square` returns the
session with only `selected_color` changed.  With `selected_color = 0` the
new value is 0 on a hole; else, on a source, its color when it has no
connection; else, on a bridge, the color of the layer chosen by
`playing_bridge_above` when that layer holds exactly one connection; else
the color of a square with exactly one connection; and 0 in every other
case.  With `selected_color != 0` the new value is 0.  Two calls in a row
from a session with no color selected end with no color selected. -/
theorem select_square_spec (c : LevelContainer) (s : Square)
    (hs : c.current_level.squares[c.playing_cursor_idx]? = some s) :
    ∃ c1, c.select_square = some c1
      ∧ c1 = { c with selected_color := c1.selected_color }
      ∧ (c.selected_color ≠ 0 → c1.selected_color = 0)
      ∧ (c.selected_color = 0 → c1.selected_color =
          if s.hole then 0
          else if s.source then (if s.direction = 0 then s.color.val else 0)
          else if s.bridge then
            (if c.playing_bridge_above then
              (if s.bridge_above_conn_count = 1 then s.bridge_above_color.val else 0)
            else (if s.connection_count = 1 then s.color.val else 0))
          else (if s.connection_count = 1 then s.color.val else 0))
      ∧ (c.selected_color = 0 →
          ∃ c2, c1.select_square = some c2 ∧ c2.selected_color = 0) := by
  by_cases h0 : c.selected_color = 0
  · have h1 : c.select_square = some { c with selected_color := select_color c s } := by
      simp only [LevelContainer.select_square, h0, if_true, hs]
    have hval : select_color c s =
        if s.hole then 0
        else if s.source then (if s.direction = 0 then s.color.val else 0)
        else if s.bridge then
          (if c.playing_bridge_above then
            (if s.bridge_above_conn_count = 1 then s.bridge_above_color.val else 0)
          else (if s.connection_count = 1 then s.color.val else 0))
        else (if s.connection_count = 1 then s.color.val else 0) := by
      unfold select_color
      simp only [h0, Square.is_source, Square.is_connected]
      cases s.hole <;> cases s.source <;> cases s.bridge <;> cases c.playing_bridge_above <;>
        simp
    refine ⟨_, h1, rfl, fun h => absurd h0 h, fun _ => hval, fun _ => ?_⟩
    by_cases h2 : select_color c s = 0
    · refine ⟨{ c with selected_color := select_color c s }, ?_, h2⟩
      have hc : ({ c with selected_color := select_color c s } : LevelContainer) = c := by
        rw [h2, ← h0]
      rw [hc, h1, h2, ← h0]
    · exact ⟨{ c with selected_color := 0 }, by
        simp only [LevelContainer.select_square, h2, if_false], rfl⟩
  · have h1 : c.select_square = some { c with selected_color := 0 } := by
      simp only [LevelContainer.select_square, h0, if_false]
    exact ⟨_, h1, rfl, fun _ => rfl, fun h => absurd h h0, fun h => absurd h h0⟩

/-- Witness of the amended C23: on `row_level` with no color selected the
source under the cursor has no connection, and the two calls pick its color
up and drop it. -/
theorem select_square_spec_witness :
    row_start_state.current_level.squares[row_start_state.playing_cursor_idx]?
        = some ⟨1, 0, 0, false, true, false, 0, 0⟩
    ∧ ∃ c1, row_start_state.select_square = some c1
      ∧ c1 = { row_start_state with selected_color := c1.selected_color }
      ∧ (row_start_state.selected_color ≠ 0 → c1.selected_color = 0)
      ∧ (row_start_state.selected_color = 0 → c1.selected_color =
          if (⟨1, 0, 0, false, true, false, 0, 0⟩ : Square).hole then 0
          else if (⟨1, 0, 0, false, true, false, 0, 0⟩ : Square).source then
            (if (⟨1, 0, 0, false, true, false, 0, 0⟩ : Square).direction = 0 then
              (⟨1, 0, 0, false, true, false, 0, 0⟩ : Square).color.val else 0)
          else if (⟨1, 0, 0, false, true, false, 0, 0⟩ : Square).bridge then
            (if row_start_state.playing_bridge_above then
              (if (⟨1, 0, 0, false, true, false, 0, 0⟩ : Square).bridge_above_conn_count = 1 then
                (⟨1, 0, 0, false, true, false, 0, 0⟩ : Square).bridge_above_color.val else 0)
            else (if (⟨1, 0, 0, false, true, false, 0, 0⟩ : Square).connection_count = 1 then
              (⟨1, 0, 0, false, true, false, 0, 0⟩ : Square).color.val else 0))
          else (if (⟨1, 0, 0, false, true, false, 0, 0⟩ : Square).connection_count = 1 then
            (⟨1, 0, 0, false, true, false, 0, 0⟩ : Square).color.val else 0))
      ∧ (row_start_state.selected_color = 0 →
          ∃ c2, c1.select_square = some c2 ∧ c2.selected_color = 0) :=
  ⟨by decide,
    select_square_spec row_start_state ⟨1, 0, 0, false, true, false, 0, 0⟩ (by decide)⟩

end ColorFiller
